import Mathlib

/-!
# CTF reader (Detectors/CTF/workflow/src/CTFReaderSpec.cxx)

A shallow embedding of the reader / sequencer `o2::ctf::CTFReaderSpec`:
its member state, `openCTFFile`, `checkTreeEntries`, `processDetector`,
`processTF`, the `while (mRunning)` loop of `run` and the code after it,
`loadRunTimeSpans` and `runTimeRangesToIRFrameSelector`; then the enum bit set
`o2::utils::EnumFlags` (Common/Utils/include/CommonUtils/EnumFlags.h),
`ConfigParamRegistry::isDefault`, the device selection of
`GPUReconstructionOCL::InitDevice_Runtime` and `TimeFrame::getClusterROF`.

Conventions.
* `int` / `long` counters are `Nat` (they start at 0 and only grow); 32-bit
  unsigned arithmetic is written with an explicit `% 2 ^ 32`.
* A `throw` is the constructor `fatal` of the result type and keeps the state
  reached when the exception leaves the function (outputs already created
  stay in `outputs`).
* Collaborators declared outside the sources (file fetcher, frame selector,
  run-information service, floating-point conversions) are either fields of
  `Env` or definitions modelled from the specification; each says so.
* Strings are lists of characters; the conversions of the C++ standard
  library (`std::stoi`, `std::stol`, `std::stoul`, `std::to_string`,
  `std::getline`) are written out in the namespace `StdLib`.
* Wall-clock time, the stopwatch and the rate limiter act on nothing that is
  modelled and are left out.
-/

namespace CTFReader

/-! ## Data model -/

/-- Modelled from the spec: the detector-id enumeration (`DetID` is declared
outside the sources).  Its members are the detector sources that `processTF`
dispatches on, in the order of its sixteen `processDetector` calls. -/
inductive DetID where
  | ITS | MFT | EMC | HMP | PHS | TPC | TRD | FT0
  | FV0 | FDD | TOF | MID | MCH | CPV | ZDC | CTP
  deriving DecidableEq, Repr

/-- The order in which `processTF` calls `processDetector` (lines 448-463). -/
def detOrder : List DetID :=
  [.ITS, .MFT, .EMC, .HMP, .PHS, .TPC, .TRD, .FT0,
   .FV0, .FDD, .TOF, .MID, .MCH, .CPV, .ZDC, .CTP]

/-- An interaction record: bunch crossing and orbit. -/
structure InteractionRecord where
  bc : Nat
  orbit : Nat
  deriving DecidableEq, Repr

/-- Position of an interaction record on the time axis, in bunch crossings;
`nb` is the number of bunches per orbit. -/
def InteractionRecord.toLong (nb : Nat) (ir : InteractionRecord) : Nat :=
  ir.orbit * nb + ir.bc

/-- A selection window: a closed bracket of interaction records. -/
structure IRFrame where
  min : InteractionRecord
  max : InteractionRecord
  deriving DecidableEq, Repr

/-- The header stored with every tree entry (`CTFHeader`). -/
structure CTFHeader where
  run : Nat
  creationTime : Nat
  firstTForbit : Nat
  tfCounter : Nat
  detectors : List DetID
  deriving DecidableEq, Repr

/-- One entry of the CTF tree: the `CTFHeader` branch (absent when
`readFromTree` finds no such branch entry) and the stored bytes of each
detector branch. -/
structure Entry where
  header : Option CTFHeader
  data : DetID → List Nat

/-- What `TFile::Open` and `Get(CTFTREENAME)` deliver for a path: whether the
file opens (non-null, `IsOpen`, not zombie) and its CTF tree, if any. -/
structure CTFFile where
  name : Nat
  isOpen : Bool
  tree : Option (List Entry)

/-- Messages added to `pc.outputs()`. -/
inductive Output where
  | selIRFrames (frames : List IRFrame)
  | header (subspec : Nat) (h : CTFHeader)
  | detData (det : DetID) (subspec : Nat) (buf : List Nat)
  | tfDist (id : Nat) (firstOrbit : Nat) (runNumber : Nat)
  deriving DecidableEq, Repr

/-- The two per-entry info messages of the reader:
`Skipping CTF#ctf (entry of nEntries in file)` (line 331) and
`Read CTF ctf (entry of nEntries in file)` (line 490). -/
inductive LogRec where
  | skipping (ctf entry nEntries file : Nat)
  | readCTF (ctf entry nEntries file : Nat)
  deriving DecidableEq, Repr

/-- Ways in which `run` is left abnormally: the three exceptions of the
reader, and the two kinds of undefined behaviour a state can lead to (reading
`ctfIDs` past its end, dereferencing a reset pointer). -/
inductive Fatal where
  | noCTFHeader
  | noRunInfo (run : Nat)
  | missingDetector (det : DetID)
  | idIndexOutOfRange
  | nullPointer
  deriving DecidableEq, Repr

/-- The fields of `CTFReaderInp` that the reader consults, after `init` has
normalised the two limits.  The entries of `ctfIDs` are compared with the
raw counter `mCTFCounter`, which starts at 0 and only grows; they are taken
as natural numbers, like the counter. -/
structure CTFReaderInp where
  ctfIDs : List Nat
  maxTFs : Nat
  maxTFsPerFile : Nat
  maxLoops : Int
  skipSkimmedOutTF : Bool
  invertIRFramesSelection : Bool
  detMask : List DetID
  allowMissingDetectors : Bool
  sup0xccdb : Bool
  subspec : Nat

/-- The normalisation of `max-tf` and `max-tf-per-file` in `init`
(lines 160-163): `v > 0 ? v : 0x7fffffff`. -/
def limitOf (v : Int) : Nat :=
  if v > 0 then v.toNat else 0x7fffffff

/-- Result of `AggregatedRunInfo::buildAggregatedRunInfo`. -/
structure AggregatedRunInfo where
  runNumber : Nat
  orbitsPerTF : Int
  orbitSOR : Int
  sor : Int

/-- Everything the reader takes from outside the sources. -/
structure Env where
  /-- `o2::constants::lhc::LHCMaxBunches`. -/
  LHCMaxBunches : Nat
  /-- `AggregatedRunInfo::buildAggregatedRunInfo(ccdb, run)`. -/
  buildAggregatedRunInfo : Nat → AggregatedRunInfo
  /-- `rinfo.orbitSOR + (t - rinfo.sor) / (LHCOrbitMUS * 0.001)` as a `long`. -/
  timeToOrbit : AggregatedRunInfo → Int → Int
  /-- `std::ceil(dOrbit * LHCOrbitMUS * 1e-3)` as an `int64_t`. -/
  ceilOrbitsToMS : Nat → Int
  /-- `mImposeRunStartMS + firstTForbit * LHCOrbitMUS * 1e-3` as a `uint64_t`. -/
  imposedCreationTime : Nat → Nat → Nat

/-! ## Collaborators modelled from the specification -/

/-- Modelled from the spec: the interaction-record frame selector
(`o2::utils::IRFrameSelector`, declared outside the sources): a set flag and
the sorted window list. -/
structure IRFrameSelector where
  isSet : Bool
  frames : List IRFrame
  deriving DecidableEq, Repr

/-- Modelled from the spec: `IRFrameSelector::clear` resets to the unset
state. -/
def IRFrameSelector.clear : IRFrameSelector :=
  { isSet := false, frames := [] }

/-- Modelled from the spec: `IRFrameSelector::setOwnList` installs a
programmatically built window set, sorted by window start. -/
def IRFrameSelector.setOwnList (nb : Nat) (frames : List IRFrame) : IRFrameSelector :=
  { isSet := true,
    frames := frames.insertionSort (fun a b => a.min.toLong nb ≤ b.min.toLong nb) }

/-- Modelled from the spec: `IRFrameSelector::getMatchingFrames` returns the
windows whose closed interval intersects the closed query interval, in the
order of the sorted list. -/
def IRFrameSelector.getMatchingFrames (nb : Nat) (sel : IRFrameSelector) (q : IRFrame) :
    List IRFrame :=
  sel.frames.filter (fun f => decide (f.min.toLong nb ≤ q.max.toLong nb) &&
    decide (q.min.toLong nb ≤ f.max.toLong nb))

/-- Modelled from the spec: an item of the supply queue: the container that
the path leads to, and the number of polls that pass before the background
fetch has made it available. -/
structure QueueItem where
  delay : Nat
  file : CTFFile

/-- Modelled from the spec: the file supply queue (`o2::utils::FileFetcher`,
declared outside the sources).  `queue` lists the items the background
production delivers, in order (replay loops appear as repeated items);
`idle` counts the polls after the last item during which the producer is
still seen running; `popped` records the argument of every `popFromQueue`
call. -/
structure FileFetcher where
  queue : List QueueItem
  idle : Nat
  popped : List Bool

/-- Modelled from the spec: `getNextFileInQueue` is a non-blocking peek; it
is empty both when nothing is ready yet and when the source is exhausted. -/
def FileFetcher.getNextFileInQueue (ff : FileFetcher) : Option CTFFile :=
  match ff.queue with
  | [] => none
  | item :: _ => if item.delay = 0 then some item.file else none

/-- Modelled from the spec: `isRunning` tells the two empty cases apart. -/
def FileFetcher.isRunning (ff : FileFetcher) : Bool :=
  !ff.queue.isEmpty || decide (0 < ff.idle)

/-- Modelled from the spec: the passage of one poll interval
(`waitFor(5)` in the reader) as seen by the queue. -/
def FileFetcher.waitFor (ff : FileFetcher) : FileFetcher :=
  match ff.queue with
  | [] => { ff with idle := ff.idle - 1 }
  | item :: rest => { ff with queue := { item with delay := item.delay - 1 } :: rest }

/-- Modelled from the spec: `popFromQueue(discard)` discards the current
head. -/
def FileFetcher.popFromQueue (discard : Bool) (ff : FileFetcher) : FileFetcher :=
  { ff with queue := ff.queue.tail, popped := ff.popped ++ [discard] }

/-! ## Reader state -/

/-- The members of `CTFReaderSpec` (lines 97-118), followed by what a call of
`run` leaves in the outside world: the outputs, the info log, the two control
signals and the content of `ctf_read_ntf.txt`. -/
structure Reader where
  mIRFrameSelector : IRFrameSelector
  mRunTimeRanges : List (Int × List (Int × Int))
  mFileFetcher : Option FileFetcher
  mCTFFile : Option Nat
  mCTFTree : Option (List Entry)
  mRunning : Bool
  mUseLocalTFCounter : Bool
  mConvRunTimeRangesToOrbits : Int
  mCTFCounter : Nat
  mCTFCounterAcc : Nat
  mNFailedFiles : Nat
  mFilesRead : Nat
  mTFLength : Int
  mNWaits : Nat
  mRunNumberPrev : Int
  mCurrTreeEntry : Nat
  mImposeRunStartMS : Nat
  mSelIDEntry : Nat
  outputs : List Output
  log : List LogRec
  endOfStream : Bool
  readyToQuit : Bool
  summary : Option Nat

/-- The reader as `init` leaves it (lines 154-179) when no frame file and no
run/time-span file is configured: running, all counters at their initial
values, the fetcher started. -/
def Reader.start (ff : FileFetcher) (useLocalTFCounter : Bool) (imposeRunStartMS : Nat) :
    Reader :=
  { mIRFrameSelector := IRFrameSelector.clear,
    mRunTimeRanges := [],
    mFileFetcher := some ff,
    mCTFFile := none,
    mCTFTree := none,
    mRunning := true,
    mUseLocalTFCounter := useLocalTFCounter,
    mConvRunTimeRangesToOrbits := -1,
    mCTFCounter := 0,
    mCTFCounterAcc := 0,
    mNFailedFiles := 0,
    mFilesRead := 0,
    mTFLength := 128,
    mNWaits := 0,
    mRunNumberPrev := -1,
    mCurrTreeEntry := 0,
    mImposeRunStartMS := imposeRunStartMS,
    mSelIDEntry := 0,
    outputs := [],
    log := [],
    endOfStream := false,
    readyToQuit := false,
    summary := none }

/-- Result of a member function that may throw. -/
inductive Res (α : Type) where
  | ok (a : α) (s : Reader)
  | fatal (e : Fatal) (s : Reader)

/-! ## Header repair and the run/time-range table -/

/-- A row of the static run-start table of `tryToFixCTFHeader`. -/
structure RunStartData where
  run : Nat
  firstTForbit : Nat
  tstampMS0 : Nat
  deriving DecidableEq, Repr

/-- The table `tf0Data` (lines 550-575). -/
def tf0Data : List RunStartData :=
  [⟨505207, 133875, 1635322620830⟩,
   ⟨505217, 14225007, 1635328375618⟩,
   ⟨505278, 1349340, 1635376882079⟩,
   ⟨505285, 1488862, 1635378517248⟩,
   ⟨505303, 2615411, 1635392586314⟩,
   ⟨505397, 5093945, 1635454778123⟩,
   ⟨505404, 19196217, 1635456032855⟩,
   ⟨505405, 28537913, 1635456862913⟩,
   ⟨505406, 41107641, 1635457980628⟩,
   ⟨505413, 452530, 1635460562613⟩,
   ⟨505440, 13320708, 1635472436927⟩,
   ⟨505443, 26546564, 1635473613239⟩,
   ⟨505446, 177711, 1635477270241⟩,
   ⟨505548, 88037114, 1635544414050⟩,
   ⟨505582, 295044346, 1635562822389⟩,
   ⟨505600, 417241082, 1635573688564⟩,
   ⟨505623, 10445984, 1635621310460⟩,
   ⟨505629, 126979, 1635623289756⟩,
   ⟨505637, 338969, 1635630909893⟩,
   ⟨505645, 188222, 1635634560881⟩,
   ⟨505658, 81044, 1635645404694⟩,
   ⟨505669, 328291, 1635657807147⟩,
   ⟨505673, 30988, 1635659148972⟩,
   ⟨505713, 620506, 1635725054798⟩,
   ⟨505720, 5359903, 1635730673978⟩]

/-- `CTFReaderSpec::tryToFixCTFHeader` (lines 542-586).  The orbit difference
is a difference of two `uint32_t`, hence taken modulo `2 ^ 32`. -/
def tryToFixCTFHeader (env : Env) (h : CTFHeader) : CTFHeader :=
  match tf0Data.head?, tf0Data.getLast? with
  | some front, some back =>
    if h.run ≥ front.run ∧ h.run ≤ back.run then
      match tf0Data.find? (fun tf0 => h.run == tf0.run) with
      | some tf0 =>
        let offset : Int :=
          env.ceilOrbitsToMS ((h.firstTForbit + 2 ^ 32 - tf0.firstTForbit % 2 ^ 32) % 2 ^ 32)
        { h with creationTime := tf0.tstampMS0 + (if offset > 0 then offset.toNat else 0) }
      | none => h
    else h
  | _, _ => h

/-- One range of `runTimeRangesToIRFrameSelector` (body of the loop, lines
199-218): conversion to orbits when the table holds timestamps, clamping at
0, snapping to whole time frames for runs above 523897, and the window built
from the two orbits cast to `uint32_t`. -/
def rangeToIRFrame (env : Env) (conv : Int) (rinfo : AggregatedRunInfo) (runNumber : Nat)
    (rng : Int × Int) : IRFrame :=
  let orbMin0 : Int := if conv > 0 then env.timeToOrbit rinfo rng.1 else rng.1
  let orbMax0 : Int := if conv > 0 then env.timeToOrbit rinfo rng.2 else rng.2
  let orbMin1 : Nat := if orbMin0 < 0 then 0 else orbMin0.toNat
  let orbMax1 : Nat := if orbMax0 < 0 then 0 else orbMax0.toNat
  let n : Nat := rinfo.orbitsPerTF.toNat
  let orbMin : Nat := if runNumber > 523897 then (orbMin1 / n) * n else orbMin1
  let orbMax : Nat := if runNumber > 523897 then (orbMax1 / n + 1) * n - 1 else orbMax1
  { min := { bc := 0, orbit := orbMin % 2 ^ 32 },
    max := { bc := env.LHCMaxBunches, orbit := orbMax % 2 ^ 32 } }

/-- Conversion of a `uint32_t` run number to `int`, the key type of
`mRunTimeRanges` (`std::map<int, ...>`, line 99). -/
def toInt32 (n : Nat) : Int :=
  if n % 2 ^ 32 < 2 ^ 31 then ((n % 2 ^ 32 : Nat) : Int) else ((n % 2 ^ 32 : Nat) : Int) - 2 ^ 32

/-- `CTFReaderSpec::runTimeRangesToIRFrameSelector` (lines 181-221). -/
def runTimeRangesToIRFrameSelector (env : Env) (s : Reader) (runNumber : Nat) : Res Unit :=
  let s := { s with mIRFrameSelector := IRFrameSelector.clear }
  match s.mRunTimeRanges.lookup (toInt32 runNumber) with
  | none => .ok () s
  | some rngs =>
    let rinfo := env.buildAggregatedRunInfo runNumber
    if rinfo.runNumber ≠ runNumber ∨ rinfo.orbitsPerTF < 1 then
      .fatal (.noRunInfo runNumber) s
    else
      let s := { s with mTFLength := rinfo.orbitsPerTF }
      let frames := rngs.map
        (rangeToIRFrame env s.mConvRunTimeRangesToOrbits rinfo runNumber)
      .ok () { s with mIRFrameSelector := IRFrameSelector.setOwnList env.LHCMaxBunches frames }

/-! ## Opening and draining a container -/

/-- `CTFReaderSpec::openCTFFile` (lines 284-309); `f` is what the path leads
to. -/
def openCTFFile (cfg : CTFReaderInp) (s : Reader) (f : CTFFile) : Reader :=
  let s := { s with mFilesRead := s.mFilesRead + 1 }
  let opened : Option (List Entry) :=
    if f.isOpen then
      match f.tree with
      | some tree => if tree.length < 1 then none else some tree
      | none => none
    else none
  match opened with
  | some tree => { s with mCTFFile := some f.name, mCTFTree := some tree, mCurrTreeEntry := 0 }
  | none =>
    { s with mCTFTree := none, mCTFFile := none, mNFailedFiles := s.mNFailedFiles + 1,
             mFileFetcher := s.mFileFetcher.map
               (FileFetcher.popFromQueue (decide (cfg.maxLoops < 1))),
             mCurrTreeEntry := 0 }

/-- `CTFReaderSpec::checkTreeEntries` (lines 497-508), for the open tree
`tree`. -/
def checkTreeEntries (cfg : CTFReaderInp) (tree : List Entry) (s : Reader) : Reader :=
  let s := { s with mCurrTreeEntry := s.mCurrTreeEntry + 1 }
  if s.mCurrTreeEntry ≥ tree.length ∨
      (0 < cfg.maxTFsPerFile ∧ s.mCurrTreeEntry ≥ cfg.maxTFsPerFile) then
    { s with mCTFTree := none, mCTFFile := none,
             mFileFetcher := s.mFileFetcher.map
               (FileFetcher.popFromQueue (decide (cfg.maxLoops < 1))) }
  else s

/-- `CTFReaderSpec::stopReader` (lines 135-151). -/
def stopReader (s : Reader) : Reader :=
  match s.mFileFetcher with
  | none => s
  | some _ => { s with mRunning := false, mFileFetcher := none, mCTFTree := none,
                       mCTFFile := none }

/-! ## Processing one entry -/

/-- The free function `readFromTree` (lines 62-74) for the `CTFHeader`
branch. -/
def readFromTree (tree : List Entry) (ev : Nat) : Option CTFHeader :=
  tree[ev]?.bind (fun e => e.header)

/-- The stored bytes that `C::readFromTree(bufVec, tree, lbl, ev)` puts into
the block of detector `det`; the codec is declared outside the sources and is
taken to deliver what the branch holds. -/
def readDetector (tree : List Entry) (det : DetID) (ev : Nat) : List Nat :=
  match tree[ev]? with
  | some e => e.data det
  | none => []

/-- `CTFReaderSpec::processDetector` (lines 526-539).  The block is created
by `make` before the header bit is looked at: with the stored bytes when the
detector is present, empty otherwise. -/
def processDetector (cfg : CTFReaderInp) (tree : List Entry) (det : DetID) (h : CTFHeader)
    (s : Reader) : Res Unit :=
  if cfg.detMask.contains det then
    if h.detectors.contains det then
      .ok () { s with outputs := s.outputs ++
        [.detData det cfg.subspec (readDetector tree det s.mCurrTreeEntry)] }
    else
      let s := { s with outputs := s.outputs ++ [.detData det cfg.subspec []] }
      if !cfg.allowMissingDetectors then .fatal (.missingDetector det) s else .ok () s
  else .ok () s

/-- The sequence of `processDetector` calls of `processTF` (lines 448-463);
an exception ends it. -/
def processDetectors (cfg : CTFReaderInp) (tree : List Entry) (h : CTFHeader) :
    List DetID → Reader → Res Unit
  | [], s => .ok () s
  | det :: rest, s =>
    match processDetector cfg tree det h s with
    | .ok _ s1 => processDetectors cfg tree h rest s1
    | .fatal e s1 => .fatal e s1

/-- The header as `processTF` prepares it (lines 394-407) from the stored
header `h0`, given `mImposeRunStartMS`, `mUseLocalTFCounter` and
`mCTFCounterAcc`. -/
def prepareHeader (env : Env) (imposeRunStartMS : Nat) (useLocalTFCounter : Bool)
    (ctfCounterAcc : Nat) (h0 : CTFHeader) : CTFHeader :=
  let h1 := if imposeRunStartMS > 0 then
      { h0 with creationTime := env.imposedCreationTime imposeRunStartMS h0.firstTForbit }
    else h0
  let h2 := if h1.creationTime = 0 then tryToFixCTFHeader env h1 else h1
  if useLocalTFCounter then { h2 with tfCounter := ctfCounterAcc } else h2

/-- Lines 417-420 of `processTF`: the frame selector is rebuilt from the
run/time-range table when the table is not empty and the run number differs
from the previous one; the run number is then remembered.  The run number is
a `uint32_t` and `mRunNumberPrev` an `int`: the two are compared, and the run
number is stored, as 32-bit values. -/
def updateSelector (env : Env) (s : Reader) (runNumber : Nat) : Res Unit :=
  let rebuilt : Res Unit :=
    if s.mRunTimeRanges ≠ [] ∧ toInt32 runNumber ≠ s.mRunNumberPrev then
      runTimeRangesToIRFrameSelector env s runNumber
    else .ok () s
  match rebuilt with
  | .fatal e s1 => .fatal e s1
  | .ok _ s1 => .ok () { s1 with mRunNumberPrev := toInt32 runNumber }

/-- The query window of `processTF` (lines 423-424), in 32-bit unsigned
arithmetic. -/
def queryWindow (env : Env) (tfLength : Int) (firstTForbit : Nat) : IRFrame :=
  let len1 : Nat := ((tfLength - 1) % 2 ^ 32).toNat
  let lim : Nat := (0xffffffff + 2 ^ 32 - len1) % 2 ^ 32
  { min := { bc := 0, orbit := firstTForbit },
    max := { bc := env.LHCMaxBunches - 1,
             orbit := if firstTForbit < lim then (firstTForbit + len1) % 2 ^ 32
                      else 0xffffffff } }

/-- Outcome of the first part of `processTF`. -/
inductive Selection where
  | accepted (h : CTFHeader) (s : Reader)
  | rejected (s : Reader)
  | failed (e : Fatal) (s : Reader)

/-- First part of `CTFReaderSpec::processTF` (lines 390-443): read and
prepare the header, update the frame selector, and decide whether the entry
is used. -/
def selectTF (cfg : CTFReaderInp) (env : Env) (tree : List Entry) (s : Reader) : Selection :=
  match readFromTree tree s.mCurrTreeEntry with
  | none => .failed .noCTFHeader s
  | some h0 =>
    let h := prepareHeader env s.mImposeRunStartMS s.mUseLocalTFCounter s.mCTFCounterAcc h0
    match updateSelector env s h.run with
    | .fatal e s1 => .failed e s1
    | .ok _ s2 =>
      if s2.mIRFrameSelector.isSet then
        let irSpan := s2.mIRFrameSelector.getMatchingFrames env.LHCMaxBunches
          (queryWindow env s2.mTFLength h.firstTForbit)
        let acc : Bool :=
          if cfg.skipSkimmedOutTF then
            (if irSpan.length > 0 then !cfg.invertIRFramesSelection
             else cfg.invertIRFramesSelection)
          else true
        if !acc then .rejected s2
        else .accepted h { s2 with outputs := s2.outputs ++ [.selIRFrames irSpan] }
      else .accepted h s2

/-- The detector blocks that the `processDetector` calls of `processTF` add
for an entry with header `h` when none of them throws: one per detector of
the mask, in the order of the calls, empty when the header lacks the
detector. -/
def detBlocks (cfg : CTFReaderInp) (tree : List Entry) (ev : Nat) (h : CTFHeader)
    (dets : List DetID) : List Output :=
  (dets.filter (fun d => cfg.detMask.contains d)).map
    (fun d => .detData d cfg.subspec
      (if h.detectors.contains d then readDetector tree d ev else []))

/-- Second part of `CTFReaderSpec::processTF` (lines 445-493): send the
header and the detector blocks, count the entry, acknowledge it and advance
the entry cursor. -/
def sendTF (cfg : CTFReaderInp) (tree : List Entry) (h : CTFHeader) (s : Reader) : Res Bool :=
  let s := { s with outputs := s.outputs ++ [.header cfg.subspec h] }
  match processDetectors cfg tree h detOrder s with
  | .fatal e s1 => .fatal e s1
  | .ok _ s1 =>
    let s2 := { s1 with mCTFCounterAcc := s1.mCTFCounterAcc + 1 }
    let s3 := if !cfg.sup0xccdb then
        { s2 with outputs := s2.outputs ++
            [.tfDist s2.mCurrTreeEntry h.firstTForbit (h.run % 2 ^ 32)] }
      else s2
    let entryStr := LogRec.readCTF s3.mCTFCounter s3.mCurrTreeEntry tree.length
      (s3.mCTFFile.getD 0)
    let s4 := checkTreeEntries cfg tree s3
    .ok true { s4 with log := s4.log ++ [entryStr], mCTFCounter := s4.mCTFCounter + 1 }

/-- `CTFReaderSpec::processTF` (lines 388-494) on the open tree `tree`. -/
def processTF (cfg : CTFReaderInp) (env : Env) (tree : List Entry) (s : Reader) : Res Bool :=
  match selectTF cfg env tree s with
  | .failed e s1 => .fatal e s1
  | .rejected s1 => .ok false s1
  | .accepted h s1 => sendTF cfg tree h s1

/-! ## The loop of `run` -/

/-- How one pass through the body of `while (mRunning)` ends. -/
inductive Step where
  | cont (s : Reader) (waitAcknowledged : Bool)
  | brk (s : Reader)
  | fatal (e : Fatal) (s : Reader)

/-- Lines 330-334 of `run`: the entry is not used; log it, advance the entry
cursor and the raw counter. -/
def skipEntry (cfg : CTFReaderInp) (tree : List Entry) (s : Reader) : Reader :=
  let s := { s with log := s.log ++
    [.skipping s.mCTFCounter s.mCurrTreeEntry tree.length (s.mCTFFile.getD 0)] }
  let s := checkTreeEntries cfg tree s
  { s with mCTFCounter := s.mCTFCounter + 1 }

/-- Lines 322-335 of `run`: one pass with a tree open. -/
def visitEntry (cfg : CTFReaderInp) (env : Env) (tree : List Entry) (s : Reader)
    (waitAcknowledged : Bool) : Step :=
  if cfg.ctfIDs.isEmpty then
    match processTF cfg env tree { s with mSelIDEntry := s.mSelIDEntry + 1 } with
    | .fatal e s1 => .fatal e s1
    | .ok true s1 => .brk s1
    | .ok false s1 => .cont (skipEntry cfg tree s1) waitAcknowledged
  else
    match cfg.ctfIDs[s.mSelIDEntry]? with
    | none => .fatal .idIndexOutOfRange s
    | some id =>
      if id = s.mCTFCounter then
        match processTF cfg env tree { s with mSelIDEntry := s.mSelIDEntry + 1 } with
        | .fatal e s1 => .fatal e s1
        | .ok true s1 => .brk s1
        | .ok false s1 => .cont (skipEntry cfg tree s1) waitAcknowledged
      else .cont (skipEntry cfg tree s) waitAcknowledged

/-- Lines 337-359 of `run`: one pass with no tree open. -/
def fetchFile (cfg : CTFReaderInp) (s : Reader) (waitAcknowledged : Bool) : Step :=
  match s.mFileFetcher with
  | none => .fatal .nullPointer s
  | some ff =>
    match ff.getNextFileInQueue with
    | none =>
      if !ff.isRunning then .brk { s with mRunning := false }
      else .cont { s with mFileFetcher := some ff.waitFor } true
    | some f =>
      let s := if waitAcknowledged then { s with mNWaits := s.mNWaits + 1 } else s
      .cont (openCTFFile cfg s f) false

/-- The body of `while (mRunning)` in `run` (lines 322-359). -/
def runStep (cfg : CTFReaderInp) (env : Env) (s : Reader) (waitAcknowledged : Bool) : Step :=
  match s.mCTFTree with
  | some tree => visitEntry cfg env tree s waitAcknowledged
  | none => fetchFile cfg s waitAcknowledged

/-- How the loop of `run` ends; `outOfFuel` is the loop still turning after
the given number of passes. -/
inductive LoopEnd where
  | done (s : Reader)
  | fatal (e : Fatal) (s : Reader)
  | outOfFuel

/-- The loop `while (mRunning)` of `run` (lines 321-360), at most `fuel`
passes. -/
def runLoop (cfg : CTFReaderInp) (env : Env) : Nat → Reader → Bool → LoopEnd
  | 0, s, _ => if s.mRunning then .outOfFuel else .done s
  | fuel + 1, s, w =>
    if s.mRunning then
      match runStep cfg env s w with
      | .cont s1 w1 => runLoop cfg env fuel s1 w1
      | .brk s1 => .done s1
      | .fatal e s1 => .fatal e s1
    else .done s

/-- The code of `run` after the loop (lines 362-384): the stop conditions,
and on stop the two control signals, `stopReader` and the summary file. -/
def finishRun (cfg : CTFReaderInp) (s : Reader) : Reader :=
  let queueDone : Bool :=
    match s.mFileFetcher with
    | some ff => ff.getNextFileInQueue.isNone && !ff.isRunning
    | none => false
  let s1 :=
    if s.mCTFCounter ≥ cfg.maxTFs ∨ (cfg.ctfIDs ≠ [] ∧ s.mSelIDEntry ≥ cfg.ctfIDs.length) then
      { s with mRunning := false }
    else if s.mRunning ∧ s.mCTFTree.isNone ∧ queueDone then
      { s with mRunning := false }
    else s
  if !s1.mRunning then
    let s2 := stopReader { s1 with endOfStream := true, readyToQuit := true }
    { s2 with summary := some s2.mCTFCounterAcc }
  else s1

/-- Number of loop passes that the supply still asks for: per item its
delay, one pass to open it and one per entry of its tree. -/
def queueFuel : List QueueItem → Nat
  | [] => 0
  | item :: rest =>
    item.delay + 2 + (match item.file.tree with | some t => t.length | none => 0) +
      queueFuel rest

/-- A bound on the number of passes the loop of `run` makes from `s`: the
entries left in the open tree, and what the supply behind it asks for. -/
def loopFuel (s : Reader) : Nat :=
  (match s.mCTFTree with
   | none => 0
   | some tree => (tree.length - s.mCurrTreeEntry) + 1) +
  (match s.mFileFetcher with
   | none => 0
   | some ff =>
     queueFuel (match s.mCTFTree with
                | none => ff.queue
                | some _ => ff.queue.tail) + ff.idle) + 1

/-- How a call of `run` ends. -/
inductive RunEnd where
  | done (s : Reader)
  | fatal (e : Fatal) (s : Reader)
  | outOfFuel

/-- `CTFReaderSpec::run` (lines 312-385): the loop, run with the bound
`loopFuel`, then the code after it. -/
def run (cfg : CTFReaderInp) (env : Env) (s : Reader) : RunEnd :=
  match runLoop cfg env (loopFuel s) s false with
  | .done s1 => .done (finishRun cfg s1)
  | .fatal e s1 => .fatal e s1
  | .outOfFuel => .outOfFuel

/-- Successive calls of `run`, at most `k`: the framework calls `run` again
as long as the reader has not asked to quit. -/
def runCalls (cfg : CTFReaderInp) (env : Env) : Nat → Reader → RunEnd
  | 0, s => .done s
  | k + 1, s =>
    if s.mRunning then
      match run cfg env s with
      | .done s1 => runCalls cfg env k s1
      | .fatal e s1 => .fatal e s1
      | .outOfFuel => .outOfFuel
    else .done s

/-! ## Example inputs -/

/-- An environment with 3564 bunches per orbit, 32 orbits per time frame and
integer stand-ins for the floating-point conversions. -/
def exEnv : Env :=
  { LHCMaxBunches := 3564,
    buildAggregatedRunInfo := (fun r => { runNumber := r, orbitsPerTF := 32, orbitSOR := 0, sor := 0 }),
    timeToOrbit := (fun _ t => t),
    ceilOrbitsToMS := (fun n => (n / 11 : Nat)),
    imposedCreationTime := (fun t0 orbit => t0 + orbit / 11) }

/-- A header of run 1 with first orbit `orbit` and the detectors `dets`. -/
def exHeader (orbit : Nat) (dets : List DetID) : CTFHeader :=
  { run := 1, creationTime := 5, firstTForbit := orbit, tfCounter := 100 + orbit,
    detectors := dets }

/-- An entry with the header `exHeader orbit dets`; every detector branch
holds the single byte `orbit`. -/
def exEntry (orbit : Nat) (dets : List DetID) : Entry :=
  { header := some (exHeader orbit dets), data := (fun _ => [orbit]) }

/-- A container named `name` with `n` entries that hold ITS and TPC. -/
def exFile (name n : Nat) : CTFFile :=
  { name := name, isOpen := true,
    tree := some ((List.range n).map (fun i => exEntry (32 * i) [.ITS, .TPC])) }

/-- A reader configuration: ITS and TPC enabled, nothing else restricted. -/
def exCfg : CTFReaderInp :=
  { ctfIDs := [], maxTFs := 0x7fffffff, maxTFsPerFile := 0x7fffffff, maxLoops := 1,
    skipSkimmedOutTF := true, invertIRFramesSelection := false,
    detMask := [.ITS, .TPC], allowMissingDetectors := false, sup0xccdb := false, subspec := 0 }

/-- A supply of two containers, of 4 and 6 entries, the second one ready
after two polls. -/
def exFetcher : FileFetcher :=
  { queue := [{ delay := 0, file := exFile 1 4 }, { delay := 2, file := exFile 2 6 }],
    idle := 0, popped := [] }

/-- A tree of one entry whose header lists ITS only. -/
def exTreeNoTPC : List Entry := [exEntry 0 [.ITS]]

/-- A running reader with `exTreeNoTPC` open at entry 0. -/
def exOpenNoTPC : Reader :=
  openCTFFile exCfg (Reader.start exFetcher false 0)
    { name := 7, isOpen := true, tree := some exTreeNoTPC }

/-- A container that does not open. -/
def exBadFile : CTFFile := { name := 9, isOpen := false, tree := none }

/-- A running reader with `exFile 1 4` open at entry 0 and a frame selector
holding the single window of orbits 0 to 40. -/
def exWithSelector : Reader :=
  { openCTFFile exCfg (Reader.start exFetcher false 0) (exFile 1 4) with
    mIRFrameSelector := IRFrameSelector.setOwnList 3564
      [{ min := { bc := 0, orbit := 0 }, max := { bc := 3564, orbit := 40 } }] }

/-- The state in which a `processTF` result leaves the reader. -/
def Res.state {α : Type} : Res α → Reader
  | .ok _ s => s
  | .fatal _ s => s

/-- The reader after `processTF` on `exOpenNoTPC` with missing detectors
allowed. -/
def exSentNoTPC : Reader :=
  (processTF { exCfg with allowMissingDetectors := true } exEnv exTreeNoTPC exOpenNoTPC).state

/-- The reader after `processTF` on `exOpenNoTPC` with missing detectors not
allowed. -/
def exFailedNoTPC : Reader :=
  (processTF exCfg exEnv exTreeNoTPC exOpenNoTPC).state

/-! ## Notions used to state the claims on `run` -/

/-- The number of entries of a container of `n` entries that the reader
visits before `checkTreeEntries` closes it: all of them, or `maxTFsPerFile`
if that limit is active and smaller. -/
def perFileCount (cfg : CTFReaderInp) (n : Nat) : Nat :=
  if 0 < cfg.maxTFsPerFile then min n cfg.maxTFsPerFile else n

/-- A place in the source: entry `entry` of the tree `tree`. -/
structure Slot where
  tree : List Entry
  entry : Nat

/-- The entries of a container that the reader can visit, in order; none if
the container fails to open. -/
def slotsOf (cfg : CTFReaderInp) (f : CTFFile) : List Slot :=
  if f.isOpen then
    match f.tree with
    | some t => (List.range' 0 (perFileCount cfg t.length)).map (fun i => { tree := t, entry := i })
    | none => []
  else []

/-- The entries that a supply offers to the reader, in the order in which the
raw counter `mCTFCounter` numbers them. -/
def sourceSlots (cfg : CTFReaderInp) : List QueueItem → List Slot
  | [] => []
  | item :: rest => slotsOf cfg item.file ++ sourceSlots cfg rest

/-- The entries that the reader in state `s` has still to visit: the rest of
the open tree, then what the supply offers behind it (the head of the queue
is the open container until it is popped). -/
def pendingSlots (cfg : CTFReaderInp) (s : Reader) : List Slot :=
  (match s.mCTFTree with
   | some t =>
     (List.range' s.mCurrTreeEntry (perFileCount cfg t.length - s.mCurrTreeEntry)).map
       (fun i => { tree := t, entry := i })
   | none => []) ++
  (match s.mFileFetcher with
   | some ff => sourceSlots cfg (match s.mCTFTree with
                                 | none => ff.queue
                                 | some _ => ff.queue.tail)
   | none => [])

/-- An entry that `processTF` can send: its header is found and no enabled
detector is missing unless missing detectors are allowed. -/
def goodSlot (cfg : CTFReaderInp) (sl : Slot) : Prop :=
  ∃ h0, readFromTree sl.tree sl.entry = some h0 ∧
    ∀ d, d ∈ cfg.detMask → d ∉ h0.detectors → cfg.allowMissingDetectors = true

/-- The messages that `processTF` adds for the entry `sl` when no frame
selector is set and `mCTFCounterAcc = acc`: the header record, the detector
blocks and, unless suppressed, the acknowledgement. -/
def emission (cfg : CTFReaderInp) (env : Env) (imposeRunStartMS : Nat)
    (useLocalTFCounter : Bool) (acc : Nat) (sl : Slot) : List Output :=
  match readFromTree sl.tree sl.entry with
  | none => []
  | some h0 =>
    let h := prepareHeader env imposeRunStartMS useLocalTFCounter acc h0
    [.header cfg.subspec h] ++ detBlocks cfg sl.tree sl.entry h detOrder ++
      (if cfg.sup0xccdb then [] else [.tfDist sl.entry h.firstTForbit (h.run % 2 ^ 32)])

/-- The messages for the entries at the raw positions `ids` of `slots`, the
first of them sent with `mCTFCounterAcc = acc`. -/
def emittedAt (cfg : CTFReaderInp) (env : Env) (imposeRunStartMS : Nat)
    (useLocalTFCounter : Bool) (slots : List Slot) : Nat → List Nat → List Output
  | _, [] => []
  | acc, x :: xs =>
    (match slots[x]? with
     | some sl => emission cfg env imposeRunStartMS useLocalTFCounter acc sl
     | none => []) ++
    emittedAt cfg env imposeRunStartMS useLocalTFCounter slots (acc + 1) xs

/-- The raw positions of the entries that were read and sent: the value of
`mCTFCounter` in each `Read CTF` message of the log. -/
def readPositions (log : List LogRec) : List Nat :=
  log.filterMap (fun r => match r with
    | .readCTF ctf _ _ _ => some ctf
    | .skipping _ _ _ _ => none)

/-- The entry indices visited, as the log records them (skipped or read). -/
def visitedEntries (log : List LogRec) : List Nat :=
  log.map (fun r => match r with
    | .readCTF _ entry _ _ => entry
    | .skipping _ entry _ _ => entry)

/-- The header records among the outputs. -/
def headersOf (outputs : List Output) : List CTFHeader :=
  outputs.filterMap (fun o => match o with
    | .header _ h => some h
    | _ => none)

/-- The stop test of `run` after the loop that does not depend on the
supply (line 362). -/
def limitReached (cfg : CTFReaderInp) (counter selIDEntry : Nat) : Prop :=
  counter ≥ cfg.maxTFs ∨ (cfg.ctfIDs ≠ [] ∧ selIDEntry ≥ cfg.ctfIDs.length)

/-- The raw positions `x :: rest` are what the selection of `run` picks next
from a state with `mSelIDEntry = sel` and `mCTFCounter = counter`: `x` is the
next position used (the current one without an ID list, the next listed ID
otherwise), and the stop test of line 362 fires after the last of them and
not before. -/
def Plan (cfg : CTFReaderInp) : Nat → Nat → List Nat → Prop
  | _, _, [] => True
  | sel, counter, x :: rest =>
    ((cfg.ctfIDs = [] ∧ x = counter) ∨ (cfg.ctfIDs[sel]? = some x ∧ counter ≤ x)) ∧
    (if rest = [] then limitReached cfg (x + 1) (sel + 1)
     else ¬ limitReached cfg (x + 1) (sel + 1) ∧ Plan cfg (sel + 1) (x + 1) rest)

/-- A running reader with no frame selector and no run/time-range table,
whose entry cursor is inside the open container and whose pending entries can
all be sent. -/
structure Clean (cfg : CTFReaderInp) (s : Reader) : Prop where
  running : s.mRunning = true
  fetcher : s.mFileFetcher.isSome = true
  unset : s.mIRFrameSelector.isSet = false
  noRanges : s.mRunTimeRanges = []
  cursor : ∀ t, s.mCTFTree = some t → s.mCurrTreeEntry < perFileCount cfg t.length
  good : ∀ sl ∈ pendingSlots cfg s, goodSlot cfg sl

/-- The reader gets from `s` to `s1` by passes of the loop of `run` that
visit `n` entries and send none. -/
structure Skipped (cfg : CTFReaderInp) (s s1 : Reader) (n : Nat) : Prop where
  clean : Clean cfg s1
  pending : pendingSlots cfg s1 = (pendingSlots cfg s).drop n
  counter : s1.mCTFCounter = s.mCTFCounter + n
  acc : s1.mCTFCounterAcc = s.mCTFCounterAcc
  sel : s1.mSelIDEntry = s.mSelIDEntry
  outputs : s1.outputs = s.outputs
  reads : readPositions s1.log = readPositions s.log
  useLocal : s1.mUseLocalTFCounter = s.mUseLocalTFCounter
  impose : s1.mImposeRunStartMS = s.mImposeRunStartMS

/-- The reader gets from `s` to `s1` by passes of the loop of `run` that
skip `d` entries and then send the next one. -/
structure Sent (cfg : CTFReaderInp) (env : Env) (s s1 : Reader) (d : Nat) : Prop where
  clean : Clean cfg s1
  pending : pendingSlots cfg s1 = (pendingSlots cfg s).drop (d + 1)
  counter : s1.mCTFCounter = s.mCTFCounter + d + 1
  acc : s1.mCTFCounterAcc = s.mCTFCounterAcc + 1
  sel : s1.mSelIDEntry = s.mSelIDEntry + 1
  outputs : ∃ sl, (pendingSlots cfg s)[d]? = some sl ∧
    s1.outputs = s.outputs ++
      emission cfg env s.mImposeRunStartMS s.mUseLocalTFCounter s.mCTFCounterAcc sl
  reads : readPositions s1.log = readPositions s.log ++ [s.mCTFCounter + d]
  useLocal : s1.mUseLocalTFCounter = s.mUseLocalTFCounter
  impose : s1.mImposeRunStartMS = s.mImposeRunStartMS

/-- The test of `goodSlot` as a computation. -/
def goodSlotB (cfg : CTFReaderInp) (sl : Slot) : Bool :=
  match readFromTree sl.tree sl.entry with
  | none => false
  | some h0 =>
    cfg.allowMissingDetectors || cfg.detMask.all (fun d => h0.detectors.contains d)

/-- The configuration `exCfg` with the explicit ID list `[3, 7, 9]`. -/
def exCfgIDs : CTFReaderInp := { exCfg with ctfIDs := [3, 7, 9] }

/-- The configuration `exCfg` with `max-tf = 2`. -/
def exCfgMax2 : CTFReaderInp := { exCfg with maxTFs := limitOf 2 }

/-- A supply of one container of 5 entries. -/
def exFetcher5 : FileFetcher :=
  { queue := [{ delay := 0, file := exFile 1 5 }], idle := 0, popped := [] }

/-- The state in which a call of `run`, or a sequence of calls, ends. -/
def RunEnd.state : RunEnd → Option Reader
  | .done s => some s
  | .fatal _ _ => none
  | .outOfFuel => none

/-- The state in which a pass of the loop ends, unless it throws. -/
def Step.state : Step → Option Reader
  | .cont s _ => some s
  | .brk s => some s
  | .fatal _ _ => none

/-- The state reached by the next `k` passes of the loop of `run` through
the open tree `tree`, across calls of `run`: a pass that leaves the loop with
`break` is followed by the code after the loop, and the next call of `run`
re-enters the loop if the reader is still running.  `none` if a pass throws
or the reader stops. -/
def drain (cfg : CTFReaderInp) (env : Env) (tree : List Entry) : Nat → Reader → Option Reader
  | 0, s => some s
  | k + 1, s =>
    match visitEntry cfg env tree s false with
    | .cont s1 _ => drain cfg env tree k s1
    | .brk s1 =>
      if (finishRun cfg s1).mRunning then drain cfg env tree k (finishRun cfg s1) else none
    | .fatal _ _ => none

/-- The reader after three calls of `run` on `exFetcher` with the local
counter in use. -/
def exAfter3 : Reader :=
  ((runCalls exCfg exEnv 3 (Reader.start exFetcher true 0)).state).getD
    (Reader.start exFetcher true 0)

/-- The reader with `exFile 1 4` open at entry 0, as `openCTFFile` leaves
it. -/
def exOpened : Reader :=
  openCTFFile exCfg (Reader.start exFetcher false 0) (exFile 1 4)

/-- The reader `exOpened` after two passes through its open tree. -/
def exDrained2 : Reader :=
  (drain exCfg exEnv ((List.range 4).map (fun i => exEntry (32 * i) [.ITS, .TPC])) 2
    exOpened).getD exOpened

end CTFReader

/-! ## Characters and strings of the C++ standard library

Strings are lists of characters.  The functions below follow the C++
standard library in the "C" locale. -/

namespace StdLib

/-- The exceptions thrown by the string conversions and by `EnumFlags`. -/
inductive Exception where
  | invalid_argument
  | out_of_range
  deriving DecidableEq, Repr

deriving instance DecidableEq for Except

/-- `std::isspace`: space, `\t`, `\n`, `\v`, `\f`, `\r`. -/
def isspace (c : Char) : Bool :=
  c.toNat == 32 || (9 ≤ c.toNat && c.toNat ≤ 13)

/-- `std::isdigit`. -/
def isdigit (c : Char) : Bool :=
  48 ≤ c.toNat && c.toNat ≤ 57

/-- `std::isalnum`. -/
def isalnum (c : Char) : Bool :=
  isdigit c || (65 ≤ c.toNat && c.toNat ≤ 90) || (97 ≤ c.toNat && c.toNat ≤ 122)

/-- `std::tolower`. -/
def tolower (c : Char) : Char :=
  if 65 ≤ c.toNat && c.toNat ≤ 90 then Char.ofNat (c.toNat + 32) else c

/-- The strings read by `std::getline(stream, line, delim)` called until it
fails: the text is cut at every `delim`, and nothing is read after the last
`delim` when no character follows it. -/
def getlines (delim : Char) : List Char → List (List Char)
  | [] => []
  | c :: cs =>
    if c == delim then [] :: getlines delim cs
    else
      match getlines delim cs with
      | [] => [[c]]
      | l :: ls => (c :: l) :: ls

/-- The value of a character as a digit of `strtol`: `0`-`9`, then the
letters of either case from 10 on. -/
def digitValue (c : Char) : Option Nat :=
  if 48 ≤ c.toNat && c.toNat ≤ 57 then some (c.toNat - 48)
  else if 97 ≤ c.toNat && c.toNat ≤ 122 then some (c.toNat - 87)
  else if 65 ≤ c.toNat && c.toNat ≤ 90 then some (c.toNat - 55)
  else none

/-- The digits in base `base` at the start of a string. -/
def leadingDigits (base : Nat) : List Char → List Nat
  | [] => []
  | c :: cs =>
    match digitValue c with
    | some d => if d < base then d :: leadingDigits base cs else []
    | none => []

/-- The number written by a list of digits, most significant first. -/
def valueOf (base : Nat) (ds : List Nat) : Nat :=
  ds.foldl (fun acc d => acc * base + d) 0

/-- The base `strtol` works in and the text its digits start at: with base 16
or 0 a `0x` in front of a hexadecimal digit is passed over, with base 0 a
leading `0` announces base 8 and anything else base 10. -/
def radix (base : Nat) (s : List Char) : Nat × List Char :=
  let hex : Option (List Char) :=
    match s with
    | c0 :: c1 :: r =>
      if c0 == '0' && (c1 == 'x' || c1 == 'X') && leadingDigits 16 r ≠ [] then some r else none
    | _ => none
  match hex with
  | some r => if base == 16 || base == 0 then (16, r) else (base, s)
  | none =>
    if base == 0 then (if s.head? == some '0' then (8, s) else (10, s)) else (base, s)

/-- The scan shared by `strtol` and `strtoul`: white space, an optional sign,
then digits.  `none` when no digit is found, otherwise whether a minus sign
was read and the number the digits write. -/
def scanInteger (s : List Char) (base : Nat) : Option (Bool × Nat) :=
  let s1 := s.dropWhile isspace
  let signed : Bool × List Char :=
    match s1 with
    | c :: r => if c == '-' then (true, r) else if c == '+' then (false, r) else (false, s1)
    | [] => (false, s1)
  let br := radix base signed.2
  let ds := leadingDigits br.1 br.2
  if ds.isEmpty then none else some (signed.1, valueOf br.1 ds)

/-- `std::stol(str)`: `invalid_argument` when no conversion can be made,
`out_of_range` when the value does not fit a 64-bit `long`. -/
def stol (s : List Char) : Except Exception Int :=
  match scanInteger s 10 with
  | none => .error .invalid_argument
  | some (neg, m) =>
    let v : Int := if neg then -(m : Int) else (m : Int)
    if -(2 : Int) ^ 63 ≤ v ∧ v < (2 : Int) ^ 63 then .ok v else .error .out_of_range

/-- `std::stoi(str)`: as `std::stol`, with the range of a 32-bit `int`. -/
def stoi (s : List Char) : Except Exception Int :=
  match scanInteger s 10 with
  | none => .error .invalid_argument
  | some (neg, m) =>
    let v : Int := if neg then -(m : Int) else (m : Int)
    if -(2 : Int) ^ 31 ≤ v ∧ v < (2 : Int) ^ 31 then .ok v else .error .out_of_range

/-- `std::stoul(str, nullptr, base)` for a 64-bit `unsigned long`: the number
is out of range when its digits write more than `2 ^ 64 - 1`, and a minus
sign negates it modulo `2 ^ 64`.  A base that `strtoul` does not know
(negative, 1, or above 36) converts nothing. -/
def stoul (s : List Char) (base : Int) : Except Exception Nat :=
  if base < 0 ∨ base = 1 ∨ base > 36 then .error .invalid_argument
  else
    match scanInteger s base.toNat with
    | none => .error .invalid_argument
    | some (neg, m) =>
      if m ≥ 2 ^ 64 then .error .out_of_range
      else .ok (if neg then (2 ^ 64 - m) % 2 ^ 64 else m)

/-- The decimal digits of `n`, least significant first; `fuel` bounds their
number. -/
def decimalDigits : Nat → Nat → List Nat
  | 0, _ => []
  | fuel + 1, n => if n < 10 then [n] else (n % 10) :: decimalDigits fuel (n / 10)

/-- `std::to_string` of an unsigned value. -/
def to_string (n : Nat) : List Char :=
  (decimalDigits (n + 1) n).reverse.map (fun d => Char.ofNat (48 + d))

/-- The number written by a list of digits, least significant first. -/
def leValue : List Nat → Nat
  | [] => 0
  | d :: ds => d + 10 * leValue ds

end StdLib

/-! ## String utilities of `CommonUtils/StringUtils.h` -/

namespace Str

/-- Modelled from the spec: `o2::utils::Str::trim` of
`CommonUtils/StringUtils.h`, a header that is not among the sources: the
white space at both ends of the string is removed. -/
def trim (s : List Char) : List Char :=
  ((s.dropWhile StdLib.isspace).reverse.dropWhile StdLib.isspace).reverse

/-- Modelled from the spec: `o2::utils::Str::tokenize(src, delim)` of
`CommonUtils/StringUtils.h`, a header that is not among the sources, with its
default arguments: the string is cut at every `delim`, each piece is trimmed
and the empty pieces are dropped. -/
def tokenize (src : List Char) (delim : Char) : List (List Char) :=
  ((StdLib.getlines delim src).map trim).filter (fun t => !t.isEmpty)

end Str

namespace CTFReader

/-! ## Loading the run / time-range table -/

/-- The fatal errors of `loadRunTimeSpans`, each with the line it reports. -/
inductive LoadFatal where
  | cannotOpen
  | notIncreasing (line : List Char)
  | mixedLimits (line : List Char)
  | otherUnit (line : List Char)
  deriving DecidableEq, Repr

/-- What `loadRunTimeSpans` reads and writes: the two members
`mRunTimeRanges` and `mConvRunTimeRangesToOrbits`, its counters of lines
(`cntl`) and of stored ranges (`cntr`), and the lines reported by `logError`
with their numbers. -/
structure Loading where
  mRunTimeRanges : List (Int × List (Int × Int))
  mConvRunTimeRangesToOrbits : Int
  cntl : Nat
  cntr : Nat
  errors : List (Nat × List Char)
  deriving DecidableEq, Repr

/-- The members as the constructor leaves them (lines 99 and 105), at the
call of `loadRunTimeSpans` in `init` (line 177). -/
def Loading.start : Loading :=
  { mRunTimeRanges := [],
    mConvRunTimeRangesToOrbits := -1,
    cntl := 0,
    cntr := 0,
    errors := [] }

/-- The reference epoch `ISTimeStamp` (line 256). -/
def ISTimeStamp : Int := 1514761200000

/-- Lines 233-237: every `;`, tab and `,` becomes a space. -/
def replaceSeparator (ch : Char) : Char :=
  if ch == ';' || ch == Char.ofNat 9 || ch == ',' then ' ' else ch

/-- What a line of the file is found to be. -/
inductive Line where
  | skipped
  | malformed (line : List Char)
  | triplet (run rmin rmax : Int) (line : List Char)
  deriving DecidableEq, Repr

/-- Lines 233-255 and 274-276 of `loadRunTimeSpans`: the separators are
replaced, the line is trimmed, an empty line or a line starting with `#` is
passed over; the line is cut into tokens, and it is a triplet when it has at
least three tokens and `std::stoi`, `std::stol`, `std::stol` convert the first
three; otherwise `logError` reports it. -/
def readLine (line0 : List Char) : Line :=
  let line := Str.trim (line0.map replaceSeparator)
  if line.length < 1 || line.head? == some '#' then .skipped
  else
    match Str.tokenize line ' ' with
    | t0 :: t1 :: t2 :: _ =>
      match StdLib.stoi t0, StdLib.stol t1, StdLib.stol t2 with
      | .ok run, .ok rmin, .ok rmax => .triplet run rmin rmax line
      | _, _, _ => .malformed line
    | _ => .malformed line

/-- `mRunTimeRanges[run].emplace_back(rmin, rmax)` (line 273).  The runs are
kept in the order in which they first appear; the code only looks a run up
and asks for the number of runs. -/
def addRange (run : Int) (rng : Int × Int) :
    List (Int × List (Int × Int)) → List (Int × List (Int × Int))
  | [] => [(run, [rng])]
  | (k, v) :: rest =>
    if k == run then (k, v ++ [rng]) :: rest else (k, v) :: addRange run rng rest

/-- Lines 256-273 of `loadRunTimeSpans`: the checks on a triplet and its
storage. -/
def storeRange (st : Loading) (run rmin rmax : Int) (line : List Char) :
    Except LoadFatal Loading :=
  let convmn : Int := if rmin > ISTimeStamp then 1 else 0
  let convmx : Int := if rmax > ISTimeStamp then 1 else 0
  if rmin > rmax then .error (.notIncreasing line)
  else if st.mConvRunTimeRangesToOrbits == -1 then
    if convmn ≠ convmx then .error (.mixedLimits line)
    else
      .ok { st with
        mConvRunTimeRangesToOrbits := convmn,
        mRunTimeRanges := addRange run (rmin, rmax) st.mRunTimeRanges,
        cntr := st.cntr + 1 }
  else if st.mConvRunTimeRangesToOrbits ≠ convmn ∨ st.mConvRunTimeRangesToOrbits ≠ convmx then
    .error (.otherUnit line)
  else
    .ok { st with
      mRunTimeRanges := addRange run (rmin, rmax) st.mRunTimeRanges,
      cntr := st.cntr + 1 }

/-- One pass of the loop of `loadRunTimeSpans` (lines 231-277). -/
def loadLine (st : Loading) (line0 : List Char) : Except LoadFatal Loading :=
  let st := { st with cntl := st.cntl + 1 }
  match readLine line0 with
  | .skipped => .ok st
  | .malformed line => .ok { st with errors := st.errors ++ [(st.cntl, line)] }
  | .triplet run rmin rmax line => storeRange st run rmin rmax line

/-- The loop of `loadRunTimeSpans` over the lines of the file; a fatal error
ends it. -/
def loadLines (st : Loading) : List (List Char) → Except LoadFatal Loading
  | [] => .ok st
  | l :: ls =>
    match loadLine st l with
    | .error e => .error e
    | .ok st1 => loadLines st1 ls

/-- `CTFReaderSpec::loadRunTimeSpans` (lines 223-281); `file` is the content
of the file, `none` when it cannot be opened. -/
def loadRunTimeSpans (file : Option (List Char)) (st : Loading) : Except LoadFatal Loading :=
  match file with
  | none => .error .cannotOpen
  | some text => loadLines { st with cntl := 0, cntr := 0 } (StdLib.getlines (Char.ofNat 10) text)

/-- The file of three lines: `l`, then `# note`, then an empty line. -/
def spansFile (l : List Char) : List Char :=
  l ++ Char.ofNat 10 :: ("# note".toList ++ [Char.ofNat 10, Char.ofNat 10])

/-- The file of three lines: `505207 133875 1635322620830`, `# note` and an
empty line. -/
def exSpansMixed : List Char := spansFile "505207 133875 1635322620830".toList

/-- The file of three lines: `505207 133875 133975`, `# note` and an empty
line. -/
def exSpansOrbits : List Char := spansFile "505207 133875 133975".toList

/-- The file of three lines: `505207 abc 5`, `7` and `505207 10 20`. -/
def exSpansMalformed : List Char :=
  "505207 abc 5".toList ++ [Char.ofNat 10] ++ "7".toList ++ [Char.ofNat 10] ++
    "505207 10 20".toList ++ [Char.ofNat 10]

/-- What a load ends with, without its line counter and its error log: the
table, the unit and the number of stored ranges, or the fatal error. -/
def outcome (r : Except LoadFatal Loading) :
    Except LoadFatal (List (Int × List (Int × Int)) × Int × Nat) :=
  match r with
  | .ok st => .ok (st.mRunTimeRanges, st.mConvRunTimeRangesToOrbits, st.cntr)
  | .error e => .error e

/-- The unit a limit speaks for: 1 above the reference epoch, 0 otherwise. -/
def convOf (x : Int) : Int := if x > ISTimeStamp then 1 else 0

/-- The state `storeRange` leaves when it accepts a triplet. -/
def stored (st : Loading) (run rmin rmax : Int) : Loading :=
  { st with
    mConvRunTimeRangesToOrbits := convOf rmin,
    mRunTimeRanges := addRange run (rmin, rmax) st.mRunTimeRanges,
    cntr := st.cntr + 1 }

/-- Two loading states with the same table, unit and range counter. -/
def Loading.same (a b : Loading) : Prop :=
  a.mRunTimeRanges = b.mRunTimeRanges ∧
    a.mConvRunTimeRangesToOrbits = b.mConvRunTimeRangesToOrbits ∧ a.cntr = b.cntr

end CTFReader

/-! ## The enum bit set `o2::utils::EnumFlags` -/

namespace EnumFlags

/-- What `details::enum_flags::FlagsHelper<E>` finds out about the enum `E`
at compile time: the number of digits of the underlying unsigned type and
the names of the members without and with their scope.  An enum that the
concept `EnumFlag` accepts has the values 0, 1, ... up to `count() - 1`
(lines 315-317), so a member is the position of its name. -/
structure FlagsHelper where
  digits : Nat
  Names : List (List Char)
  NamesScoped : List (List Char)

/-- `FlagsHelper::count` (line 158). -/
def FlagsHelper.count (H : FlagsHelper) : Nat := H.Names.length

/-- `FlagsHelper::Max_u_v` (line 162), the value of the last member. -/
def FlagsHelper.Max_u_v (H : FlagsHelper) : Nat := H.count - 1

/-- `FlagsHelper::MaxRep` (line 164). -/
def FlagsHelper.MaxRep (H : FlagsHelper) : Nat :=
  if H.Max_u_v ≥ 64 then 2 ^ 64 - 1 else (1 <<< H.Max_u_v) - 1

/-- `FlagsHelper::toLower` (lines 259-262). -/
def toLower (c : Char) : Char :=
  if 65 ≤ c.toNat && c.toNat ≤ 90 then Char.ofNat (c.toNat - 65 + 97) else c

/-- `FlagsHelper::isIEqual` on strings (lines 271-282). -/
def isIEqual (s1 s2 : List Char) : Bool :=
  s1.length == s2.length && (s1.zip s2).all (fun p => toLower p.1 == toLower p.2)

/-- `FlagsHelper::hasNone` (lines 285-294). -/
def FlagsHelper.hasNone (H : FlagsHelper) : Bool :=
  H.Names.any (fun n => isIEqual n "none".toList)

/-- `FlagsHelper::hasAll` (lines 297-306). -/
def FlagsHelper.hasAll (H : FlagsHelper) : Bool :=
  H.Names.any (fun n => isIEqual n "all".toList)

/-- The concept `EnumFlag` (lines 313-322) with the two static assertions of
`getValues` (lines 147-148): the enum is not empty, has no more members than
its underlying type has digits, and has no member named `none` or `all`. -/
def EnumFlag (H : FlagsHelper) : Bool :=
  decide (0 < H.count) && decide (H.count ≤ H.digits) && H.NamesScoped.length == H.count &&
    !H.hasNone && !H.hasAll

/-- `FlagsHelper::fromString` (lines 248-256). -/
def FlagsHelper.fromString (H : FlagsHelper) (str : List Char) : Option Nat :=
  (List.range H.count).find?
    (fun i => H.Names[i]? == some str || H.NamesScoped[i]? == some str)

/-- An object of `EnumFlags<E>`: its member `mBits`, of the unsigned type
with `digits` bits. -/
structure Flags where
  mBits : Nat
  deriving DecidableEq, Repr

/-- How a member function that may throw ends, with the object as the call
leaves it. -/
inductive Outcome where
  | ok (f : Flags)
  | throw (e : StdLib.Exception) (f : Flags)
  deriving DecidableEq, Repr

/-- `EnumFlags::to_bit` (lines 359-362). -/
def to_bit (H : FlagsHelper) (e : Nat) : Nat := (1 <<< e) % 2 ^ H.digits

/-- The constructor from a list of members (lines 376-379). -/
def Flags.ofList (H : FlagsHelper) (flags : List Nat) : Flags :=
  { mBits := flags.foldl (fun bits e => (bits ||| to_bit H e) % 2 ^ H.digits) 0 }

/-- `EnumFlags::All` (line 384), of the underlying type. -/
def All (H : FlagsHelper) : Nat := H.MaxRep % 2 ^ H.digits

/-- `EnumFlags::test` (lines 436-439). -/
def Flags.test (H : FlagsHelper) (f : Flags) (e : Nat) : Bool :=
  (f.mBits &&& to_bit H e) != 0

/-- The loop over the tokens in `setImpl` (lines 676-682). -/
def setTokens (H : FlagsHelper) : List (List Char) → Flags → Outcome
  | [], f => .ok f
  | tok :: rest, f =>
    match H.fromString tok with
    | some e => setTokens H rest { mBits := (f.mBits ||| to_bit H e) % 2 ^ H.digits }
    | none => .throw .invalid_argument f

/-- `EnumFlags::setImpl` (lines 655-687). -/
def setImpl (H : FlagsHelper) (f : Flags) (s : List Char) (base : Int) : Outcome :=
  if s.all StdLib.isdigit then
    if base == 2 && !(s.all (fun c => c == '0' || c == '1')) then .throw .invalid_argument f
    else
      match StdLib.stoul s base with
      | .error e => .throw e f
      | .ok v =>
        if v > H.MaxRep then .throw .out_of_range f else .ok { mBits := v % 2 ^ H.digits }
  else if s.all (fun c => StdLib.isalnum c || c == '|' || c == ' ' || c == ':') then
    let cs := s.map StdLib.tolower
    if cs == "all".toList then .ok { mBits := All H }
    else if cs == "none".toList then .ok { mBits := 0 }
    else setTokens H (Str.tokenize s '|') f
  else .throw .invalid_argument f

/-- `EnumFlags::set(const std::string&, int)` (lines 401-412). -/
def set (H : FlagsHelper) (f : Flags) (s : List Char) (base : Int) : Outcome :=
  let prev := f.mBits
  match setImpl H { mBits := 0 } s base with
  | .ok f1 => .ok f1
  | .throw e _ => .throw e { mBits := prev }

/-- `EnumFlags::serialize` (lines 608-611). -/
def serialize (f : Flags) : List Char := StdLib.to_string f.mBits

/-- `EnumFlags::deserialize` (lines 614-621). -/
def deserialize (H : FlagsHelper) (f : Flags) (data : List Char) : Outcome :=
  match StdLib.stoul data 10 with
  | .error e => .throw e f
  | .ok v =>
    if v > H.MaxRep then .throw .out_of_range f else .ok { mBits := v % 2 ^ H.digits }

/-- The enum `TestEnum` of `testEnumFlags.cxx` (lines 23-29). -/
def exTestEnum : FlagsHelper :=
  { digits := 8,
    Names := ["Bit1".toList, "Bit2".toList, "Bit3".toList, "Bit4".toList,
      "Bit5VeryLongName".toList],
    NamesScoped := ["TestEnum::Bit1".toList, "TestEnum::Bit2".toList, "TestEnum::Bit3".toList,
      "TestEnum::Bit4".toList, "TestEnum::Bit5VeryLongName".toList] }

end EnumFlags

namespace EnumFlags

/-- `EnumFlags::count` (lines 624-633): the loop runs over the positions from
`Min_u_v`, which is 0 for an enum the concept accepts, up to but not including
`Max_u_v`. -/
def Flags.count (H : FlagsHelper) (f : Flags) : Nat :=
  (List.range H.Max_u_v).foldl
    (fun c i => if (f.mBits &&& (1 <<< i) % 2 ^ H.digits) != 0 then c + 1 else c) 0

/-- The number of members of the enum for which `test` is true. -/
def Flags.active (H : FlagsHelper) (f : Flags) : Nat :=
  ((List.range H.count).filter (fun e => f.test H e)).length

end EnumFlags

namespace EnumFlags

/-- One name of a string given to `set`: the member it names, whether the
name is written with its scope, and the numbers of spaces before and after
it. -/
structure NameItem where
  member : Nat
  withScope : Bool
  before : Nat
  after : Nat

/-- The name of the member as the item writes it. -/
def NameItem.name (H : FlagsHelper) (x : NameItem) : List Char :=
  if x.withScope then H.NamesScoped.getD x.member [] else H.Names.getD x.member []

/-- The name with its spaces around it. -/
def NameItem.text (H : FlagsHelper) (x : NameItem) : List Char :=
  List.replicate x.before ' ' ++ x.name H ++ List.replicate x.after ' '

/-- The names of the items joined by `|`. -/
def joinNames (H : FlagsHelper) : List NameItem → List Char
  | [] => []
  | [x] => x.text H
  | x :: y :: rest => x.text H ++ '|' :: joinNames H (y :: rest)

/-- A character of a name or of a scope: a letter, a digit or `:`. -/
def nameChar (c : Char) : Bool := StdLib.isalnum c || c == ':'

/-- A name made of letters and digits only that does not start with a
digit. -/
def plainName (n : List Char) : Bool :=
  n.all StdLib.isalnum && (n.head?.map StdLib.isdigit == some false)

/-- The member names are different names made of letters and digits, and the
scoped names are the member names behind the prefix `scope`, which is empty
or made of letters, digits and `:` and ends with `:`. -/
def PlainNames (H : FlagsHelper) (scope : List Char) : Bool :=
  decide H.Names.Nodup && H.Names.all plainName &&
    (H.NamesScoped == H.Names.map (fun n => scope ++ n)) &&
    scope.all (fun c => StdLib.isalnum c || c == ':') &&
    (scope.isEmpty || scope.getLast? == some ':')

/-- An enum with two members whose names have an underscore:
`enum class Opt : uint8_t { Feature_A, Feature_B }`. -/
def exUnderscoreEnum : FlagsHelper :=
  { digits := 8,
    Names := ["Feature_A".toList, "Feature_B".toList],
    NamesScoped := ["Opt::Feature_A".toList, "Opt::Feature_B".toList] }

end EnumFlags

namespace CTFReader

/-- The configuration `exCfg` with the explicit ID list `[2]`. -/
def exCfgLastID : CTFReaderInp := { exCfg with ctfIDs := [2] }

/-- The error a call of `run` throws, with the ID-selection index, the raw
counter and the entry cursor at the throw. -/
def RunEnd.thrown : RunEnd → Option (Fatal × Nat × Nat × Nat)
  | .fatal e s => some (e, s.mSelIDEntry, s.mCTFCounter, s.mCurrTreeEntry)
  | .done _ => none
  | .outOfFuel => none

/-- The state in which the loop of `run` ends, unless it throws or is still
turning. -/
def LoopEnd.state : LoopEnd → Option Reader
  | .done s => some s
  | .fatal _ _ => none
  | .outOfFuel => none

end CTFReader

/-! ## `o2::framework::ConfigParamRegistry` (Framework/Core/src/ConfigParamRegistry.cxx) -/

namespace ConfigParamRegistry

/-- Modelled from the spec: `ConfigParamStore` (declared in
`Framework/ConfigParamStore.h`, which is not among the sources): `store` is
the property tree of the values, given by its top-level children (key and
value), and `provenance` gives the provenance recorded for a key. -/
structure ConfigParamStore where
  store : List (List Char × List Char)
  provenance : List Char → List Char

/-- The number of children of the tree with the key `key`
(`boost::property_tree::ptree::count`). -/
def ConfigParamStore.count (mStore : ConfigParamStore) (key : List Char) : Nat :=
  (mStore.store.filter (fun child => child.1 == key)).length

/-- `ConfigParamRegistry::isSet` (lines 23-26). -/
def isSet (mStore : ConfigParamStore) (key : List Char) : Bool :=
  mStore.count key != 0

/-- `ConfigParamRegistry::isDefault` (lines 33-36). -/
def isDefault (mStore : ConfigParamStore) (key : List Char) : Bool :=
  decide (mStore.count key > 0) && (mStore.provenance key != "default".toList)

/-- A store with the key `a` of provenance `default` and the key `b` of
provenance `fairmq`. -/
def exStore : ConfigParamStore :=
  { store := [("a".toList, "1".toList), ("b".toList, "2".toList)],
    provenance := (fun key => if key == "b".toList then "fairmq".toList else "default".toList) }

end ConfigParamRegistry

/-! ## Device selection of `GPUReconstructionOCL::InitDevice_Runtime` -/

namespace GPUReconstructionOCL

/-- What `clGetDeviceInfo` reports of a device, as far as the selection uses
it: the CPU and GPU bits of the device type, the clock frequency, the number
of compute units, the address bits and the little-endian flag. -/
structure Device where
  typeCPU : Bool
  typeGPU : Bool
  freq : Nat
  shaders : Nat
  nbits : Nat
  endian : Bool
  deriving DecidableEq, Repr

/-- The calls of `quit` in the selection. -/
inductive Quit where
  | noDevice
  | noSuchDevice
  | unsupportedDevice
  deriving DecidableEq, Repr

/-- The eligibility checks (lines 176-188) on a 64-bit host
(`sizeof(void*)` is 8). -/
def deviceOK (gpuDeviceOnly : Bool) (d : Device) : Bool :=
  let ok1 : Bool := if gpuDeviceOnly && (d.typeCPU || !d.typeGPU) then false else true
  let ok2 : Bool := if d.nbits / 8 != 8 then false else ok1
  if !d.endian then false else ok2

/-- The speed value of a device (line 190); the product of the two 32-bit
values is taken exactly. -/
def deviceSpeed (d : Device) : Int := (d.freq : Int) * (d.shaders : Int)

/-- The loop over the devices (lines 161-205) from device `i` on, with
`bestDevice` so far.  `bestDeviceSpeed` is declared in the body of the loop
(line 190) and so is `-1` in every pass. -/
def scanDevices (gpuDeviceOnly : Bool) : List Device → Nat → Nat → Nat
  | [], _, bestDevice => bestDevice
  | d :: rest, i, bestDevice =>
    let bestDeviceSpeed : Int := -1
    if !deviceOK gpuDeviceOnly d then scanDevices gpuDeviceOnly rest (i + 1) bestDevice
    else if deviceSpeed d > bestDeviceSpeed then scanDevices gpuDeviceOnly rest (i + 1) i
    else scanDevices gpuDeviceOnly rest (i + 1) bestDevice

/-- The choice of the device in `InitDevice_Runtime` (lines 144-222);
`(cl_uint)-1` is `2^32 - 1`. -/
def selectDevice (gpuDeviceOnly : Bool) (deviceNum : Int) (devices : List Device) :
    Except Quit Nat :=
  let bestDevice := scanDevices gpuDeviceOnly devices 0 (2 ^ 32 - 1)
  if bestDevice == 2 ^ 32 - 1 then .error .noDevice
  else if deviceNum > -1 then
    if deviceNum ≥ (devices.length : Int) then .error .noSuchDevice
    else if !((devices.map (deviceOK gpuDeviceOnly)).getD deviceNum.toNat false) then
      .error .unsupportedDevice
    else .ok deviceNum.toNat
  else .ok bestDevice

/-- The position, counted from `i`, of the last device of the list that
passes the eligibility checks. -/
def lastEligible (gpuDeviceOnly : Bool) : List Device → Nat → Option Nat
  | [], _ => none
  | d :: rest, i =>
    match lastEligible gpuDeviceOnly rest (i + 1) with
    | some j => some j
    | none => if deviceOK gpuDeviceOnly d then some i else none

/-- Two GPU devices: a fast one (2000 MHz, 100 units) followed by a slow one
(1000 MHz, 10 units). -/
def exDevices : List Device :=
  [{ typeCPU := false, typeGPU := true, freq := 2000, shaders := 100, nbits := 64,
     endian := true },
   { typeCPU := false, typeGPU := true, freq := 1000, shaders := 10, nbits := 64,
     endian := true }]

end GPUReconstructionOCL

/-! ## `o2::its::TimeFrame::getClusterROF` (ITStracking/TimeFrame.h) -/

namespace TimeFrame

/-- `std::lower_bound` on the positions `first` to `first + len` of `v`, by
halving, in at most `fuel` steps. -/
def lower_bound (v : List Int) (val : Int) : Nat → Nat → Nat → Nat
  | 0, first, _ => first
  | fuel + 1, first, len =>
    if len = 0 then first
    else
      let half := len / 2
      let middle := first + half
      if v.getD middle 0 < val then lower_bound v val fuel (middle + 1) (len - half - 1)
      else lower_bound v val fuel first half

/-- `TimeFrame::getClusterROF` (lines 485-488); `mROFramesClusters` is the
table of the layer. -/
def getClusterROF (mROFramesClusters : List (List Int)) (iLayer : Nat) (iCluster : Int) : Int :=
  let off := mROFramesClusters.getD iLayer []
  (lower_bound off (iCluster + 1) off.length 0 off.length : Nat) - 0 - 1

end TimeFrame

namespace CTFReader

/-! ## Lemmas on the processing of one entry -/

theorem mem_detOrder (d : DetID) : d ∈ detOrder := by
  cases d <;> simp [detOrder]

theorem detBlocks_nil (cfg : CTFReaderInp) (tree : List Entry) (ev : Nat) (h : CTFHeader) :
    detBlocks cfg tree ev h [] = [] := rfl

theorem detBlocks_cons (cfg : CTFReaderInp) (tree : List Entry) (ev : Nat) (h : CTFHeader)
    (d : DetID) (ds : List DetID) :
    detBlocks cfg tree ev h (d :: ds) =
      (if cfg.detMask.contains d then
        [Output.detData d cfg.subspec
          (if h.detectors.contains d then readDetector tree d ev else [])] else []) ++
      detBlocks cfg tree ev h ds := by
  unfold detBlocks
  by_cases hd : d ∈ cfg.detMask <;> simp [List.filter_cons, hd]

theorem detBlocks_append (cfg : CTFReaderInp) (tree : List Entry) (ev : Nat) (h : CTFHeader)
    (ds es : List DetID) :
    detBlocks cfg tree ev h (ds ++ es) =
      detBlocks cfg tree ev h ds ++ detBlocks cfg tree ev h es := by
  simp [detBlocks]

theorem processDetector_skip (cfg : CTFReaderInp) (tree : List Entry) (d : DetID)
    (h : CTFHeader) (s : Reader) (hm : d ∉ cfg.detMask) :
    processDetector cfg tree d h s = .ok () s := by
  simp [processDetector, hm]

theorem processDetector_present (cfg : CTFReaderInp) (tree : List Entry) (d : DetID)
    (h : CTFHeader) (s : Reader) (hm : d ∈ cfg.detMask) (hp : d ∈ h.detectors) :
    processDetector cfg tree d h s = .ok () { s with outputs := s.outputs ++
      [.detData d cfg.subspec (readDetector tree d s.mCurrTreeEntry)] } := by
  simp [processDetector, hm, hp]

theorem processDetector_allowed (cfg : CTFReaderInp) (tree : List Entry) (d : DetID)
    (h : CTFHeader) (s : Reader) (hm : d ∈ cfg.detMask) (hp : d ∉ h.detectors)
    (ha : cfg.allowMissingDetectors = true) :
    processDetector cfg tree d h s =
      .ok () { s with outputs := s.outputs ++ [.detData d cfg.subspec []] } := by
  simp [processDetector, hm, hp, ha]

theorem processDetector_missing (cfg : CTFReaderInp) (tree : List Entry) (d : DetID)
    (h : CTFHeader) (s : Reader) (hm : d ∈ cfg.detMask) (hp : d ∉ h.detectors)
    (ha : cfg.allowMissingDetectors = false) :
    processDetector cfg tree d h s =
      .fatal (.missingDetector d) { s with outputs := s.outputs ++ [.detData d cfg.subspec []] } := by
  simp [processDetector, hm, hp, ha]

theorem processDetectors_cons (cfg : CTFReaderInp) (tree : List Entry) (h : CTFHeader)
    (d : DetID) (ds : List DetID) (s : Reader) :
    processDetectors cfg tree h (d :: ds) s =
      match processDetector cfg tree d h s with
      | .ok _ s1 => processDetectors cfg tree h ds s1
      | .fatal e s1 => .fatal e s1 := rfl

/-- When no detector of `dets` is both enabled, absent and forbidden to be
absent, the calls succeed and add exactly `detBlocks`. -/
theorem processDetectors_ok (cfg : CTFReaderInp) (tree : List Entry) (h : CTFHeader) :
    ∀ (dets : List DetID) (s : Reader),
      (∀ d ∈ dets, d ∈ cfg.detMask → d ∉ h.detectors → cfg.allowMissingDetectors = true) →
      processDetectors cfg tree h dets s =
        .ok () { s with outputs := s.outputs ++ detBlocks cfg tree s.mCurrTreeEntry h dets } := by
  intro dets
  induction dets with
  | nil => intro s _; cases s; simp [processDetectors, detBlocks_nil]
  | cons d ds ih =>
    intro s hall
    have hds : ∀ x ∈ ds, x ∈ cfg.detMask → x ∉ h.detectors →
        cfg.allowMissingDetectors = true := fun x hx => hall x (List.mem_cons_of_mem _ hx)
    have hd := hall d (List.mem_cons_self _ _)
    rw [processDetectors_cons]
    by_cases hm : d ∈ cfg.detMask
    · by_cases hp : d ∈ h.detectors
      · rw [processDetector_present cfg tree d h s hm hp]
        simp [ih _ hds, detBlocks_cons, hm, hp]
      · rw [processDetector_allowed cfg tree d h s hm hp (hd hm hp)]
        simp [ih _ hds, detBlocks_cons, hm, hp]
    · rw [processDetector_skip cfg tree d h s hm]
      simp [ih _ hds, detBlocks_cons, hm]

/-- When the calls throw, they throw at the first detector that is enabled,
absent and not allowed to be absent; the blocks of the enabled detectors
before it and its own empty block have been created. -/
theorem processDetectors_fatal (cfg : CTFReaderInp) (tree : List Entry) (h : CTFHeader) :
    ∀ (dets : List DetID) (s : Reader) (e : Fatal) (s1 : Reader),
      processDetectors cfg tree h dets s = .fatal e s1 →
      ∃ d pre post, dets = pre ++ d :: post ∧ e = .missingDetector d ∧
        d ∈ cfg.detMask ∧ d ∉ h.detectors ∧ cfg.allowMissingDetectors = false ∧
        (∀ x ∈ pre, x ∈ cfg.detMask → x ∈ h.detectors) ∧
        s1 = { s with outputs := s.outputs ++
          (detBlocks cfg tree s.mCurrTreeEntry h pre ++ [Output.detData d cfg.subspec []]) } := by
  intro dets
  induction dets with
  | nil => intro s e s1 hf; simp [processDetectors] at hf
  | cons d ds ih =>
    intro s e s1 hf
    rw [processDetectors_cons] at hf
    by_cases hm : d ∈ cfg.detMask
    · by_cases hp : d ∈ h.detectors
      · rw [processDetector_present cfg tree d h s hm hp] at hf
        obtain ⟨d1, pre, post, hsplit, he, hm1, hp1, ha, hpre, hs1⟩ := ih _ e s1 hf
        refine ⟨d1, d :: pre, post, by simp [hsplit], he, hm1, hp1, ha, ?_, ?_⟩
        · intro x hx hxm
          rcases List.mem_cons.mp hx with rfl | hx
          · exact hp
          · exact hpre x hx hxm
        · rw [hs1]; simp [detBlocks_cons, hm, hp]
      · by_cases ha : cfg.allowMissingDetectors = true
        · rw [processDetector_allowed cfg tree d h s hm hp ha] at hf
          obtain ⟨d1, pre, post, hsplit, he, hm1, hp1, ha1, hpre, hs1⟩ := ih _ e s1 hf
          rw [ha] at ha1; cases ha1
        · have ha0 : cfg.allowMissingDetectors = false := by simpa using ha
          rw [processDetector_missing cfg tree d h s hm hp ha0] at hf
          injection hf with he hs1
          refine ⟨d, [], ds, rfl, he.symm, hm, hp, ha0, by simp, ?_⟩
          rw [← hs1]; simp [detBlocks_nil]
    · rw [processDetector_skip cfg tree d h s hm] at hf
      obtain ⟨d1, pre, post, hsplit, he, hm1, hp1, ha, hpre, hs1⟩ := ih _ e s1 hf
      refine ⟨d1, d :: pre, post, by simp [hsplit], he, hm1, hp1, ha, ?_, ?_⟩
      · intro x hx hxm
        rcases List.mem_cons.mp hx with rfl | hx
        · exact absurd hxm hm
        · exact hpre x hx hxm
      · rw [hs1]; simp [detBlocks_cons, hm]

theorem tryToFixCTFHeader_detectors (env : Env) (h : CTFHeader) :
    (tryToFixCTFHeader env h).detectors = h.detectors := by
  unfold tryToFixCTFHeader
  split
  · split
    · split <;> rfl
    · rfl
  · rfl

theorem prepareHeader_detectors (env : Env) (t0 : Nat) (b : Bool) (acc : Nat) (h0 : CTFHeader) :
    (prepareHeader env t0 b acc h0).detectors = h0.detectors := by
  unfold prepareHeader
  simp only []
  split <;> split <;> split <;> simp [tryToFixCTFHeader_detectors]

theorem selectTF_of_ok (cfg : CTFReaderInp) (env : Env) (tree : List Entry)
    (s : Reader) (h0 : CTFHeader) (s2 : Reader)
    (hr : readFromTree tree s.mCurrTreeEntry = some h0)
    (hu : updateSelector env s
      (prepareHeader env s.mImposeRunStartMS s.mUseLocalTFCounter s.mCTFCounterAcc h0).run =
        .ok () s2) :
    selectTF cfg env tree s =
      if s2.mIRFrameSelector.isSet = true then
        if cfg.skipSkimmedOutTF = true ∧
            (decide (s2.mIRFrameSelector.getMatchingFrames env.LHCMaxBunches
              (queryWindow env s2.mTFLength
                (prepareHeader env s.mImposeRunStartMS s.mUseLocalTFCounter s.mCTFCounterAcc
                  h0).firstTForbit) ≠ []) != cfg.invertIRFramesSelection) = false then
          .rejected s2
        else
          .accepted
            (prepareHeader env s.mImposeRunStartMS s.mUseLocalTFCounter s.mCTFCounterAcc h0)
            { s2 with outputs := s2.outputs ++
              [.selIRFrames (s2.mIRFrameSelector.getMatchingFrames env.LHCMaxBunches
                (queryWindow env s2.mTFLength
                  (prepareHeader env s.mImposeRunStartMS s.mUseLocalTFCounter s.mCTFCounterAcc
                    h0).firstTForbit))] }
      else
        .accepted
          (prepareHeader env s.mImposeRunStartMS s.mUseLocalTFCounter s.mCTFCounterAcc h0) s2 := by
  simp only [selectTF, hr, hu]
  by_cases hset : s2.mIRFrameSelector.isSet = true
  · simp only [hset, if_true]
    generalize s2.mIRFrameSelector.getMatchingFrames env.LHCMaxBunches
      (queryWindow env s2.mTFLength
        (prepareHeader env s.mImposeRunStartMS s.mUseLocalTFCounter s.mCTFCounterAcc
          h0).firstTForbit) = irSpan
    cases irSpan <;> cases cfg.skipSkimmedOutTF <;> cases cfg.invertIRFramesSelection <;> simp
  · simp [hset]

theorem selectTF_accepted_header (cfg : CTFReaderInp) (env : Env) (tree : List Entry)
    (s : Reader) (h : CTFHeader) (s0 : Reader)
    (hsel : selectTF cfg env tree s = .accepted h s0) :
    ∃ h0, readFromTree tree s.mCurrTreeEntry = some h0 ∧
      h = prepareHeader env s.mImposeRunStartMS s.mUseLocalTFCounter s.mCTFCounterAcc h0 := by
  cases hr : readFromTree tree s.mCurrTreeEntry with
  | none => simp [selectTF, hr] at hsel
  | some h0 =>
    refine ⟨h0, rfl, ?_⟩
    cases hu : updateSelector env s
      (prepareHeader env s.mImposeRunStartMS s.mUseLocalTFCounter s.mCTFCounterAcc h0).run with
    | fatal e s1 => simp [selectTF, hr, hu] at hsel
    | ok u s2 =>
      rw [selectTF_of_ok cfg env tree s h0 s2 hr hu] at hsel
      split at hsel
      · split at hsel
        · cases hsel
        · injection hsel with h1 _; exact h1.symm
      · injection hsel with h1 _; exact h1.symm

/-! ## Field lemmas for `checkTreeEntries` -/

@[simp] theorem checkTreeEntries_mIRFrameSelector (cfg : CTFReaderInp) (tree : List Entry) (s : Reader) :
    (checkTreeEntries cfg tree s).mIRFrameSelector = s.mIRFrameSelector := by
  unfold checkTreeEntries; simp only []; split <;> rfl

@[simp] theorem checkTreeEntries_mRunTimeRanges (cfg : CTFReaderInp) (tree : List Entry) (s : Reader) :
    (checkTreeEntries cfg tree s).mRunTimeRanges = s.mRunTimeRanges := by
  unfold checkTreeEntries; simp only []; split <;> rfl

@[simp] theorem checkTreeEntries_mRunning (cfg : CTFReaderInp) (tree : List Entry) (s : Reader) :
    (checkTreeEntries cfg tree s).mRunning = s.mRunning := by
  unfold checkTreeEntries; simp only []; split <;> rfl

@[simp] theorem checkTreeEntries_mUseLocalTFCounter (cfg : CTFReaderInp) (tree : List Entry) (s : Reader) :
    (checkTreeEntries cfg tree s).mUseLocalTFCounter = s.mUseLocalTFCounter := by
  unfold checkTreeEntries; simp only []; split <;> rfl

@[simp] theorem checkTreeEntries_mConvRunTimeRangesToOrbits (cfg : CTFReaderInp) (tree : List Entry) (s : Reader) :
    (checkTreeEntries cfg tree s).mConvRunTimeRangesToOrbits = s.mConvRunTimeRangesToOrbits := by
  unfold checkTreeEntries; simp only []; split <;> rfl

@[simp] theorem checkTreeEntries_mCTFCounter (cfg : CTFReaderInp) (tree : List Entry) (s : Reader) :
    (checkTreeEntries cfg tree s).mCTFCounter = s.mCTFCounter := by
  unfold checkTreeEntries; simp only []; split <;> rfl

@[simp] theorem checkTreeEntries_mCTFCounterAcc (cfg : CTFReaderInp) (tree : List Entry) (s : Reader) :
    (checkTreeEntries cfg tree s).mCTFCounterAcc = s.mCTFCounterAcc := by
  unfold checkTreeEntries; simp only []; split <;> rfl

@[simp] theorem checkTreeEntries_mNFailedFiles (cfg : CTFReaderInp) (tree : List Entry) (s : Reader) :
    (checkTreeEntries cfg tree s).mNFailedFiles = s.mNFailedFiles := by
  unfold checkTreeEntries; simp only []; split <;> rfl

@[simp] theorem checkTreeEntries_mFilesRead (cfg : CTFReaderInp) (tree : List Entry) (s : Reader) :
    (checkTreeEntries cfg tree s).mFilesRead = s.mFilesRead := by
  unfold checkTreeEntries; simp only []; split <;> rfl

@[simp] theorem checkTreeEntries_mTFLength (cfg : CTFReaderInp) (tree : List Entry) (s : Reader) :
    (checkTreeEntries cfg tree s).mTFLength = s.mTFLength := by
  unfold checkTreeEntries; simp only []; split <;> rfl

@[simp] theorem checkTreeEntries_mNWaits (cfg : CTFReaderInp) (tree : List Entry) (s : Reader) :
    (checkTreeEntries cfg tree s).mNWaits = s.mNWaits := by
  unfold checkTreeEntries; simp only []; split <;> rfl

@[simp] theorem checkTreeEntries_mRunNumberPrev (cfg : CTFReaderInp) (tree : List Entry) (s : Reader) :
    (checkTreeEntries cfg tree s).mRunNumberPrev = s.mRunNumberPrev := by
  unfold checkTreeEntries; simp only []; split <;> rfl

@[simp] theorem checkTreeEntries_mImposeRunStartMS (cfg : CTFReaderInp) (tree : List Entry) (s : Reader) :
    (checkTreeEntries cfg tree s).mImposeRunStartMS = s.mImposeRunStartMS := by
  unfold checkTreeEntries; simp only []; split <;> rfl

@[simp] theorem checkTreeEntries_mSelIDEntry (cfg : CTFReaderInp) (tree : List Entry) (s : Reader) :
    (checkTreeEntries cfg tree s).mSelIDEntry = s.mSelIDEntry := by
  unfold checkTreeEntries; simp only []; split <;> rfl

@[simp] theorem checkTreeEntries_outputs (cfg : CTFReaderInp) (tree : List Entry) (s : Reader) :
    (checkTreeEntries cfg tree s).outputs = s.outputs := by
  unfold checkTreeEntries; simp only []; split <;> rfl

@[simp] theorem checkTreeEntries_log (cfg : CTFReaderInp) (tree : List Entry) (s : Reader) :
    (checkTreeEntries cfg tree s).log = s.log := by
  unfold checkTreeEntries; simp only []; split <;> rfl

@[simp] theorem checkTreeEntries_endOfStream (cfg : CTFReaderInp) (tree : List Entry) (s : Reader) :
    (checkTreeEntries cfg tree s).endOfStream = s.endOfStream := by
  unfold checkTreeEntries; simp only []; split <;> rfl

@[simp] theorem checkTreeEntries_readyToQuit (cfg : CTFReaderInp) (tree : List Entry) (s : Reader) :
    (checkTreeEntries cfg tree s).readyToQuit = s.readyToQuit := by
  unfold checkTreeEntries; simp only []; split <;> rfl

@[simp] theorem checkTreeEntries_summary (cfg : CTFReaderInp) (tree : List Entry) (s : Reader) :
    (checkTreeEntries cfg tree s).summary = s.summary := by
  unfold checkTreeEntries; simp only []; split <;> rfl

@[simp] theorem checkTreeEntries_mCurrTreeEntry (cfg : CTFReaderInp) (tree : List Entry)
    (s : Reader) : (checkTreeEntries cfg tree s).mCurrTreeEntry = s.mCurrTreeEntry + 1 := by
  unfold checkTreeEntries; simp only []; split <;> rfl

/-- The number of entries of a container of `n` entries that the reader
visits: all of them, or `max-tf-per-file` if that is smaller. -/
theorem checkTreeEntries_open (cfg : CTFReaderInp) (tree : List Entry) (s : Reader)
    (h : s.mCurrTreeEntry + 1 < tree.length ∧
      ¬ (0 < cfg.maxTFsPerFile ∧ s.mCurrTreeEntry + 1 ≥ cfg.maxTFsPerFile)) :
    checkTreeEntries cfg tree s = { s with mCurrTreeEntry := s.mCurrTreeEntry + 1 } := by
  unfold checkTreeEntries
  simp only []
  rw [if_neg]
  rintro (h1 | h1)
  · exact absurd h1 (by omega)
  · exact h.2 h1

theorem checkTreeEntries_closed (cfg : CTFReaderInp) (tree : List Entry) (s : Reader)
    (h : s.mCurrTreeEntry + 1 ≥ tree.length ∨
      (0 < cfg.maxTFsPerFile ∧ s.mCurrTreeEntry + 1 ≥ cfg.maxTFsPerFile)) :
    checkTreeEntries cfg tree s =
      { s with mCurrTreeEntry := s.mCurrTreeEntry + 1, mCTFTree := none, mCTFFile := none,
               mFileFetcher := s.mFileFetcher.map
                 (FileFetcher.popFromQueue (decide (cfg.maxLoops < 1))) } := by
  unfold checkTreeEntries
  simp only []
  rw [if_pos h]

/-! ## Lemmas for `sendTF` -/

/-- The state in which `sendTF` ends when no detector call throws. -/
theorem sendTF_ok (cfg : CTFReaderInp) (tree : List Entry) (h : CTFHeader) (s : Reader)
    (hall : ∀ d, d ∈ cfg.detMask → d ∉ h.detectors → cfg.allowMissingDetectors = true) :
    sendTF cfg tree h s = .ok true
      { checkTreeEntries cfg tree
          { s with
            outputs := s.outputs ++ ([.header cfg.subspec h] ++
              detBlocks cfg tree s.mCurrTreeEntry h detOrder ++
              (if cfg.sup0xccdb then []
               else [.tfDist s.mCurrTreeEntry h.firstTForbit (h.run % 2 ^ 32)])),
            mCTFCounterAcc := s.mCTFCounterAcc + 1 } with
        log := s.log ++
          [.readCTF s.mCTFCounter s.mCurrTreeEntry tree.length (s.mCTFFile.getD 0)],
        mCTFCounter := s.mCTFCounter + 1 } := by
  unfold sendTF
  simp only []
  rw [processDetectors_ok cfg tree h detOrder _ (fun d _ => hall d)]
  cases hs : cfg.sup0xccdb <;> simp

/-- When `sendTF` throws, a detector call threw. -/
theorem sendTF_fatal (cfg : CTFReaderInp) (tree : List Entry) (h : CTFHeader) (s : Reader)
    (e : Fatal) (s1 : Reader) (hf : sendTF cfg tree h s = .fatal e s1) :
    processDetectors cfg tree h detOrder
      { s with outputs := s.outputs ++ [.header cfg.subspec h] } = .fatal e s1 := by
  unfold sendTF at hf
  simp only [] at hf
  split at hf
  · rename_i e0 s0 heq
    injection hf with h1 h2
    rw [← h1, ← h2]; exact heq
  · cases hf

theorem sendTF_of_fatal (cfg : CTFReaderInp) (tree : List Entry) (h : CTFHeader) (s : Reader)
    (e : Fatal) (s1 : Reader)
    (hf : processDetectors cfg tree h detOrder
      { s with outputs := s.outputs ++ [.header cfg.subspec h] } = .fatal e s1) :
    sendTF cfg tree h s = .fatal e s1 := by
  unfold sendTF
  simp only []
  rw [hf]

/-! ## Missing detectors -/

/-- A detector of `dets` that is enabled, absent and not allowed to be absent
makes the calls throw. -/
theorem processDetectors_fatal_of_missing (cfg : CTFReaderInp) (tree : List Entry)
    (h : CTFHeader) (d : DetID) (hm : d ∈ cfg.detMask) (hab : d ∉ h.detectors)
    (hna : cfg.allowMissingDetectors = false) :
    ∀ (dets : List DetID) (t : Reader), d ∈ dets →
      ∃ e t1, processDetectors cfg tree h dets t = .fatal e t1 := by
  intro dets
  induction dets with
  | nil => intro t hx; cases hx
  | cons y ys ih =>
    intro t hx
    rw [processDetectors_cons]
    by_cases hym : y ∈ cfg.detMask
    · by_cases hyp : y ∈ h.detectors
      · rw [processDetector_present cfg tree y h t hym hyp]
        rcases List.mem_cons.mp hx with rfl | hx1
        · exact absurd hyp hab
        · exact ih _ hx1
      · rw [processDetector_missing cfg tree y h t hym hyp hna]
        exact ⟨_, _, rfl⟩
    · rw [processDetector_skip cfg tree y h t hym]
      rcases List.mem_cons.mp hx with rfl | hx1
      · exact absurd hm hym
      · exact ih _ hx1

/-- `sendTF` throws as soon as a detector is enabled, absent and not allowed
to be absent. -/
theorem sendTF_fatal_of_missing (cfg : CTFReaderInp) (tree : List Entry)
    (h : CTFHeader) (s : Reader) (d : DetID) (hm : d ∈ cfg.detMask) (hab : d ∉ h.detectors)
    (hna : cfg.allowMissingDetectors = false) :
    ∃ e s1, sendTF cfg tree h s = .fatal e s1 := by
  obtain ⟨e, t1, hf⟩ := processDetectors_fatal_of_missing cfg tree h d hm hab hna detOrder
    { s with outputs := s.outputs ++ [.header cfg.subspec h] } (mem_detOrder d)
  exact ⟨e, t1, sendTF_of_fatal cfg tree h s e t1 hf⟩

/-- When `sendTF` does not throw, every enabled detector that is absent is
allowed to be absent. -/
theorem allowed_of_sendTF_ok (cfg : CTFReaderInp) (tree : List Entry)
    (h : CTFHeader) (s : Reader) (b : Bool) (s1 : Reader)
    (hok : sendTF cfg tree h s = .ok b s1) :
    ∀ d, d ∈ cfg.detMask → d ∉ h.detectors → cfg.allowMissingDetectors = true := by
  intro d hm hab
  by_contra hna
  have hna0 : cfg.allowMissingDetectors = false := by simpa using hna
  obtain ⟨e, t1, hf⟩ := sendTF_fatal_of_missing cfg tree h s d hm hab hna0
  rw [hf] at hok; cases hok

/-! ## What the first part of `processTF` leaves unchanged -/

theorem runTimeRanges_ok_eq (env : Env) (s : Reader) (r : Nat) (u : Unit) (s2 : Reader)
    (hu : runTimeRangesToIRFrameSelector env s r = .ok u s2) :
    s2 = { s with mIRFrameSelector := s2.mIRFrameSelector, mTFLength := s2.mTFLength } := by
  unfold runTimeRangesToIRFrameSelector at hu
  simp only [] at hu
  split at hu
  · injection hu with _ h2; rw [← h2]
  · split at hu
    · cases hu
    · injection hu with _ h2; rw [← h2]

theorem updateSelector_ok_eq (env : Env) (s : Reader) (r : Nat) (u : Unit) (s2 : Reader)
    (hu : updateSelector env s r = .ok u s2) :
    s2 = { s with mIRFrameSelector := s2.mIRFrameSelector, mTFLength := s2.mTFLength,
                  mRunNumberPrev := s2.mRunNumberPrev } := by
  unfold updateSelector at hu
  simp only [] at hu
  split at hu
  · cases hu
  · rename_i u1 s1 heq
    injection hu with _ h2
    split at heq
    · have h1 := runTimeRanges_ok_eq env s r u1 s1 heq
      rw [← h2, h1]
    · injection heq with _ h3
      rw [← h2, ← h3]

theorem updateSelector_clean (env : Env) (s : Reader) (r : Nat)
    (hno : s.mRunTimeRanges = []) :
    updateSelector env s r = .ok () { s with mRunNumberPrev := toInt32 r } := by
  unfold updateSelector
  simp [hno]

theorem selectTF_rejected_eq (cfg : CTFReaderInp) (env : Env) (tree : List Entry)
    (s s2 : Reader) (hsel : selectTF cfg env tree s = .rejected s2) :
    s2 = { s with mIRFrameSelector := s2.mIRFrameSelector, mTFLength := s2.mTFLength,
                  mRunNumberPrev := s2.mRunNumberPrev } := by
  cases hr : readFromTree tree s.mCurrTreeEntry with
  | none => simp [selectTF, hr] at hsel
  | some h0 =>
    cases hu : updateSelector env s
      (prepareHeader env s.mImposeRunStartMS s.mUseLocalTFCounter s.mCTFCounterAcc h0).run with
    | fatal e s1 => simp [selectTF, hr, hu] at hsel
    | ok u t2 =>
      rw [selectTF_of_ok cfg env tree s h0 t2 hr hu] at hsel
      have ht := updateSelector_ok_eq env s _ u t2 hu
      split at hsel
      · split at hsel
        · injection hsel with h1; rw [← h1]; exact ht
        · cases hsel
      · cases hsel

theorem selectTF_accepted_eq (cfg : CTFReaderInp) (env : Env) (tree : List Entry)
    (s : Reader) (h : CTFHeader) (s0 : Reader)
    (hsel : selectTF cfg env tree s = .accepted h s0) :
    s0 = { s with mIRFrameSelector := s0.mIRFrameSelector, mTFLength := s0.mTFLength,
                  mRunNumberPrev := s0.mRunNumberPrev, outputs := s0.outputs } ∧
    (s0.outputs = s.outputs ∨ ∃ fr, s0.outputs = s.outputs ++ [.selIRFrames fr]) := by
  cases hr : readFromTree tree s.mCurrTreeEntry with
  | none => simp [selectTF, hr] at hsel
  | some h0 =>
    cases hu : updateSelector env s
      (prepareHeader env s.mImposeRunStartMS s.mUseLocalTFCounter s.mCTFCounterAcc h0).run with
    | fatal e s1 => simp [selectTF, hr, hu] at hsel
    | ok u t2 =>
      rw [selectTF_of_ok cfg env tree s h0 t2 hr hu] at hsel
      have ht := updateSelector_ok_eq env s _ u t2 hu
      split at hsel
      · split at hsel
        · cases hsel
        · injection hsel with _ h2
          have ho := congrArg Reader.outputs h2
          have ho2 := congrArg Reader.outputs ht
          simp only [] at ho ho2
          refine ⟨?_, Or.inr ⟨_, by rw [← ho, ho2]⟩⟩
          cases s; cases t2; cases s0
          simp only [Reader.mk.injEq] at ht h2 ⊢
          simp_all
      · injection hsel with _ h2
        have ho2 := congrArg Reader.outputs ht
        simp only [] at ho2
        refine ⟨?_, Or.inl (by rw [← h2, ho2])⟩
        cases s; cases t2; cases s0
        simp only [Reader.mk.injEq] at ht h2 ⊢
        simp_all

theorem selectTF_clean (cfg : CTFReaderInp) (env : Env) (tree : List Entry)
    (s : Reader) (h0 : CTFHeader)
    (hr : readFromTree tree s.mCurrTreeEntry = some h0)
    (hno : s.mRunTimeRanges = []) (hun : s.mIRFrameSelector.isSet = false) :
    selectTF cfg env tree s =
      .accepted (prepareHeader env s.mImposeRunStartMS s.mUseLocalTFCounter s.mCTFCounterAcc h0)
        { s with mRunNumberPrev :=
          toInt32 (prepareHeader env s.mImposeRunStartMS s.mUseLocalTFCounter
            s.mCTFCounterAcc h0).run } := by
  rw [selectTF_of_ok cfg env tree s h0 _ hr (updateSelector_clean env s _ hno)]
  simp [hun]

/-- `processTF` returns `false` only for an entry that the selection
rejects. -/
theorem processTF_false (cfg : CTFReaderInp) (env : Env) (tree : List Entry)
    (s s1 : Reader) (hp : processTF cfg env tree s = .ok false s1) :
    selectTF cfg env tree s = .rejected s1 := by
  unfold processTF at hp
  split at hp
  · cases hp
  · injection hp with _ h2; rw [← h2]; assumption
  · rename_i h s0 _
    unfold sendTF at hp
    simp only [] at hp
    split at hp
    · cases hp
    · injection hp with h1 _; cases h1

/-- `processTF` returns `true` only for an entry that the selection accepts
and whose detector calls do not throw. -/
theorem processTF_true (cfg : CTFReaderInp) (env : Env) (tree : List Entry)
    (s s1 : Reader) (hp : processTF cfg env tree s = .ok true s1) :
    ∃ h s0, selectTF cfg env tree s = .accepted h s0 ∧ sendTF cfg tree h s0 = .ok true s1 := by
  unfold processTF at hp
  split at hp
  · cases hp
  · injection hp with h1 _; cases h1
  · rename_i h s0 heq
    exact ⟨h, s0, heq, hp⟩

/-! ## The loop of `run` terminates -/

theorem loopFuel_congr (s s1 : Reader) (h1 : s1.mCTFTree = s.mCTFTree)
    (h2 : s1.mCurrTreeEntry = s.mCurrTreeEntry) (h3 : s1.mFileFetcher = s.mFileFetcher) :
    loopFuel s1 = loopFuel s := by
  unfold loopFuel
  rw [h1, h2, h3]

theorem loopFuel_pos (s : Reader) : 0 < loopFuel s := by
  unfold loopFuel; omega

theorem loopFuel_checkTreeEntries (cfg : CTFReaderInp) (tree : List Entry) (s : Reader)
    (ht : s.mCTFTree = some tree) :
    loopFuel (checkTreeEntries cfg tree s) < loopFuel s := by
  by_cases hc : s.mCurrTreeEntry + 1 ≥ tree.length ∨
      (0 < cfg.maxTFsPerFile ∧ s.mCurrTreeEntry + 1 ≥ cfg.maxTFsPerFile)
  · rw [checkTreeEntries_closed cfg tree s hc]
    unfold loopFuel
    simp only [ht]
    cases hf : s.mFileFetcher with
    | none => simp
    | some ff => simp [FileFetcher.popFromQueue]
  · have hc1 : s.mCurrTreeEntry + 1 < tree.length := by
      by_contra h; exact hc (Or.inl (by omega))
    rw [checkTreeEntries_open cfg tree s ⟨hc1, fun h => hc (Or.inr h)⟩]
    unfold loopFuel
    simp only [ht]
    omega

theorem loopFuel_skipEntry (cfg : CTFReaderInp) (tree : List Entry) (s : Reader)
    (ht : s.mCTFTree = some tree) :
    loopFuel (skipEntry cfg tree s) < loopFuel s := by
  have h1 : loopFuel (skipEntry cfg tree s) =
      loopFuel (checkTreeEntries cfg tree
        { s with log := s.log ++ [.skipping s.mCTFCounter s.mCurrTreeEntry tree.length
          (s.mCTFFile.getD 0)] }) := by
    apply loopFuel_congr <;> rfl
  rw [h1]
  have h2 := loopFuel_checkTreeEntries cfg tree
    { s with log := s.log ++ [.skipping s.mCTFCounter s.mCurrTreeEntry tree.length
      (s.mCTFFile.getD 0)] } ht
  have h3 : loopFuel { s with log := s.log ++ [.skipping s.mCTFCounter s.mCurrTreeEntry
      tree.length (s.mCTFFile.getD 0)] } = loopFuel s := by
    apply loopFuel_congr <;> rfl
  omega

theorem loopFuel_rejected (cfg : CTFReaderInp) (env : Env) (tree : List Entry)
    (s s1 : Reader) (hp : processTF cfg env tree s = .ok false s1) :
    s1.mCTFTree = s.mCTFTree ∧ s1.mCurrTreeEntry = s.mCurrTreeEntry ∧
      s1.mFileFetcher = s.mFileFetcher := by
  have h := selectTF_rejected_eq cfg env tree s s1 (processTF_false cfg env tree s s1 hp)
  have h1 := congrArg Reader.mCTFTree h
  have h2 := congrArg Reader.mCurrTreeEntry h
  have h3 := congrArg Reader.mFileFetcher h
  exact ⟨h1, h2, h3⟩

theorem loopFuel_visitEntry (cfg : CTFReaderInp) (env : Env) (tree : List Entry)
    (s : Reader) (w : Bool) (s1 : Reader) (w1 : Bool) (ht : s.mCTFTree = some tree)
    (hstep : visitEntry cfg env tree s w = .cont s1 w1) :
    loopFuel s1 < loopFuel s := by
  have key : ∀ t : Reader, processTF cfg env tree { s with mSelIDEntry := s.mSelIDEntry + 1 } =
      .ok false t → loopFuel (skipEntry cfg tree t) < loopFuel s := by
    intro t hp
    obtain ⟨h1, h2, h3⟩ := loopFuel_rejected cfg env tree _ t hp
    have := loopFuel_skipEntry cfg tree t (by rw [h1]; exact ht)
    have h4 : loopFuel t = loopFuel s := loopFuel_congr s t (by rw [h1]) (by rw [h2]) (by rw [h3])
    omega
  unfold visitEntry at hstep
  split at hstep
  · split at hstep
    · cases hstep
    · cases hstep
    · rename_i t hp
      injection hstep with h1 _
      rw [← h1]; exact key t hp
  · split at hstep
    · cases hstep
    · split at hstep
      · split at hstep
        · cases hstep
        · cases hstep
        · rename_i t hp
          injection hstep with h1 _
          rw [← h1]; exact key t hp
      · injection hstep with h1 _
        rw [← h1]; exact loopFuel_skipEntry cfg tree s ht

theorem queueFuel_cons (item : QueueItem) (rest : List QueueItem) :
    queueFuel (item :: rest) =
      item.delay + 2 + (match item.file.tree with | some t => t.length | none => 0) +
        queueFuel rest := rfl

theorem loopFuel_openCTFFile (cfg : CTFReaderInp) (s : Reader) (ff : FileFetcher)
    (item : QueueItem) (rest : List QueueItem) (hn : s.mCTFTree = none)
    (hf : s.mFileFetcher = some ff) (hq : ff.queue = item :: rest) :
    loopFuel (openCTFFile cfg s item.file) < loopFuel s := by
  unfold openCTFFile loopFuel
  simp only [hn, hf]
  rw [hq, queueFuel_cons]
  cases hio : item.file.isOpen with
  | false => simp [FileFetcher.popFromQueue, hq]
  | true =>
    cases htr : item.file.tree with
    | none => simp [FileFetcher.popFromQueue, hq]
    | some t =>
      by_cases hl : t.length < 1
      · simp [hl, FileFetcher.popFromQueue, hq]
      · simp [hl, hq]; omega

theorem loopFuel_fetchFile (cfg : CTFReaderInp) (s : Reader) (w : Bool) (s1 : Reader)
    (w1 : Bool) (hn : s.mCTFTree = none) (hstep : fetchFile cfg s w = .cont s1 w1) :
    loopFuel s1 < loopFuel s := by
  unfold fetchFile at hstep
  split at hstep
  · cases hstep
  · rename_i ff hf
    cases hq : ff.queue with
    | nil =>
      simp only [FileFetcher.getNextFileInQueue, hq, FileFetcher.isRunning] at hstep
      by_cases hid : 0 < ff.idle
      · simp [hid] at hstep
        obtain ⟨h1, _⟩ := hstep
        rw [← h1]
        unfold loopFuel
        simp [hn, hf, FileFetcher.waitFor, hq, queueFuel]
        omega
      · simp [hid] at hstep
    | cons item rest =>
      simp only [FileFetcher.getNextFileInQueue, hq, FileFetcher.isRunning] at hstep
      by_cases hd : item.delay = 0
      · simp only [hd, if_true] at hstep
        injection hstep with h1 _
        rw [← h1]
        cases w with
        | false =>
          simpa using loopFuel_openCTFFile cfg s ff item rest hn hf hq
        | true =>
          have h2 := loopFuel_openCTFFile cfg { s with mNWaits := s.mNWaits + 1 } ff item rest
            hn hf hq
          have h3 : loopFuel { s with mNWaits := s.mNWaits + 1 } = loopFuel s := by
            apply loopFuel_congr <;> rfl
          simpa [h3] using h2
      · simp [hd] at hstep
        obtain ⟨h1, _⟩ := hstep
        rw [← h1]
        unfold loopFuel
        simp [hn, hf, FileFetcher.waitFor, hq, queueFuel_cons]
        omega

/-- Every pass of the loop that does not leave it brings the reader closer to
the end of the supply. -/
theorem loopFuel_runStep (cfg : CTFReaderInp) (env : Env) (s : Reader) (w : Bool)
    (s1 : Reader) (w1 : Bool) (hstep : runStep cfg env s w = .cont s1 w1) :
    loopFuel s1 < loopFuel s := by
  unfold runStep at hstep
  cases ht : s.mCTFTree with
  | none =>
    simp only [ht] at hstep
    exact loopFuel_fetchFile cfg s w s1 w1 ht hstep
  | some tree =>
    simp only [ht] at hstep
    exact loopFuel_visitEntry cfg env tree s w s1 w1 ht hstep

theorem runLoop_ne_outOfFuel (cfg : CTFReaderInp) (env : Env) :
    ∀ (fuel : Nat) (s : Reader) (w : Bool), loopFuel s ≤ fuel →
      runLoop cfg env fuel s w ≠ .outOfFuel := by
  intro fuel
  induction fuel with
  | zero =>
    intro s w h
    have := loopFuel_pos s
    omega
  | succ n ih =>
    intro s w h
    unfold runLoop
    by_cases hr : s.mRunning = true
    · simp only [hr, if_true]
      cases hstep : runStep cfg env s w with
      | cont s1 w1 =>
        have := loopFuel_runStep cfg env s w s1 w1 hstep
        exact ih s1 w1 (by omega)
      | brk s1 => simp
      | fatal e s1 => simp
    · simp [hr]

/-- A call of `run` always ends: the bound `loopFuel` on the passes of its
loop is never exhausted. -/
theorem run_ne_outOfFuel (cfg : CTFReaderInp) (env : Env) (s : Reader) :
    run cfg env s ≠ .outOfFuel := by
  unfold run
  have h := runLoop_ne_outOfFuel cfg env (loopFuel s) s false (Nat.le_refl _)
  cases hl : runLoop cfg env (loopFuel s) s false with
  | done s1 => simp
  | fatal e s1 => simp
  | outOfFuel => exact absurd hl h

/-! ## Passes of the loop from a clean state -/

@[simp] theorem checkTreeEntries_mCTFTree (cfg : CTFReaderInp) (tree : List Entry)
    (s : Reader) : (checkTreeEntries cfg tree s).mCTFTree =
      if s.mCurrTreeEntry + 1 ≥ perFileCount cfg tree.length then none else s.mCTFTree := by
  unfold checkTreeEntries perFileCount
  simp only []
  split <;> split <;> split <;> first | rfl | (exfalso; omega)

@[simp] theorem checkTreeEntries_mCTFFile (cfg : CTFReaderInp) (tree : List Entry)
    (s : Reader) : (checkTreeEntries cfg tree s).mCTFFile =
      if s.mCurrTreeEntry + 1 ≥ perFileCount cfg tree.length then none else s.mCTFFile := by
  unfold checkTreeEntries perFileCount
  simp only []
  split <;> split <;> split <;> first | rfl | (exfalso; omega)

@[simp] theorem checkTreeEntries_mFileFetcher (cfg : CTFReaderInp) (tree : List Entry)
    (s : Reader) : (checkTreeEntries cfg tree s).mFileFetcher =
      if s.mCurrTreeEntry + 1 ≥ perFileCount cfg tree.length then
        s.mFileFetcher.map (FileFetcher.popFromQueue (decide (cfg.maxLoops < 1)))
      else s.mFileFetcher := by
  unfold checkTreeEntries perFileCount
  simp only []
  split <;> split <;> split <;> first | rfl | (exfalso; omega)

theorem pendingSlots_congr (cfg : CTFReaderInp) (s s1 : Reader)
    (h1 : s1.mCTFTree = s.mCTFTree) (h2 : s1.mCurrTreeEntry = s.mCurrTreeEntry)
    (h3 : s1.mFileFetcher = s.mFileFetcher) :
    pendingSlots cfg s1 = pendingSlots cfg s := by
  unfold pendingSlots
  rw [h1, h2, h3]

/-- With a tree open and the cursor inside it, the first pending entry is the
one under the cursor, and `checkTreeEntries` removes it from the pending
entries. -/
theorem pendingSlots_checkTreeEntries (cfg : CTFReaderInp) (t : List Entry) (s : Reader)
    (ht : s.mCTFTree = some t) (hc : s.mCurrTreeEntry < perFileCount cfg t.length)
    (hf : s.mFileFetcher.isSome = true) :
    pendingSlots cfg s =
      { tree := t, entry := s.mCurrTreeEntry } :: pendingSlots cfg (checkTreeEntries cfg t s) := by
  obtain ⟨ff, hff⟩ := Option.isSome_iff_exists.mp hf
  unfold pendingSlots
  simp only [checkTreeEntries_mCTFTree, checkTreeEntries_mFileFetcher,
    checkTreeEntries_mCurrTreeEntry, ht, hff]
  have hsplit : perFileCount cfg t.length - s.mCurrTreeEntry =
      (perFileCount cfg t.length - (s.mCurrTreeEntry + 1)) + 1 := by omega
  rw [hsplit, List.range'_succ]
  by_cases hcl : s.mCurrTreeEntry + 1 ≥ perFileCount cfg t.length
  · have h0 : perFileCount cfg t.length - (s.mCurrTreeEntry + 1) = 0 := by omega
    simp [hcl, h0, FileFetcher.popFromQueue]
  · simp [hcl]

theorem readPositions_append (l1 l2 : List LogRec) :
    readPositions (l1 ++ l2) = readPositions l1 ++ readPositions l2 := by
  simp [readPositions, List.filterMap_append]

theorem clean_of_checkTreeEntries (cfg : CTFReaderInp) (t : List Entry) (s s1 : Reader)
    (hc : Clean cfg s) (ht : s.mCTFTree = some t)
    (h1 : s1.mCTFTree = (checkTreeEntries cfg t s).mCTFTree)
    (h2 : s1.mCurrTreeEntry = (checkTreeEntries cfg t s).mCurrTreeEntry)
    (h3 : s1.mFileFetcher = (checkTreeEntries cfg t s).mFileFetcher)
    (h4 : s1.mRunning = true) (h5 : s1.mIRFrameSelector.isSet = false)
    (h6 : s1.mRunTimeRanges = []) :
    Clean cfg s1 ∧ pendingSlots cfg s1 = (pendingSlots cfg s).drop 1 := by
  have hp := pendingSlots_checkTreeEntries cfg t s ht (hc.cursor t ht) hc.fetcher
  have hp1 : pendingSlots cfg s1 = pendingSlots cfg (checkTreeEntries cfg t s) :=
    pendingSlots_congr cfg _ _ h1 h2 h3
  have hdrop : pendingSlots cfg s1 = (pendingSlots cfg s).drop 1 := by
    rw [hp, hp1]; rfl
  refine ⟨⟨h4, ?_, h5, h6, ?_, ?_⟩, hdrop⟩
  · rw [h3, checkTreeEntries_mFileFetcher]
    obtain ⟨ff, hff⟩ := Option.isSome_iff_exists.mp hc.fetcher
    split <;> simp [hff]
  · intro t1 ht1
    rw [h1, checkTreeEntries_mCTFTree] at ht1
    rw [h2, checkTreeEntries_mCurrTreeEntry]
    split at ht1
    · cases ht1
    · rw [ht] at ht1
      injection ht1 with ht1
      rw [← ht1]; omega
  · intro sl hsl
    rw [hdrop] at hsl
    exact hc.good sl (List.mem_of_mem_drop hsl)

theorem isEmpty_false_of_getElem? {α : Type} (l : List α) (i : Nat) (a : α)
    (h : l[i]? = some a) : l.isEmpty = false := by
  cases l with
  | nil => simp at h
  | cons x xs => rfl

/-- A pass over an entry whose raw position is not the next listed ID. -/
theorem step_skip (cfg : CTFReaderInp) (env : Env) (s : Reader) (t : List Entry) (id : Nat)
    (w : Bool) (hc : Clean cfg s) (ht : s.mCTFTree = some t)
    (hid : cfg.ctfIDs[s.mSelIDEntry]? = some id) (hne : id ≠ s.mCTFCounter) :
    runStep cfg env s w = .cont (skipEntry cfg t s) w ∧
      Skipped cfg s (skipEntry cfg t s) 1 := by
  constructor
  · unfold runStep
    simp only [ht]
    unfold visitEntry
    simp [isEmpty_false_of_getElem? _ _ _ hid, hid, hne]
  · obtain ⟨hcl, hp⟩ := clean_of_checkTreeEntries cfg t s (skipEntry cfg t s) hc ht
      (by simp [skipEntry]) (by simp [skipEntry]) (by simp [skipEntry])
      (by simpa [skipEntry] using hc.running) (by simpa [skipEntry] using hc.unset)
      (by simpa [skipEntry] using hc.noRanges)
    refine ⟨hcl, hp, ?_, ?_, ?_, ?_, ?_, ?_, ?_⟩ <;>
      simp [skipEntry, readPositions_append, readPositions]

theorem perFileCount_pos (cfg : CTFReaderInp) (n : Nat) (hn : ¬ n < 1) :
    0 < perFileCount cfg n := by
  unfold perFileCount
  split <;> omega

theorem perFileCount_zero (cfg : CTFReaderInp) (n : Nat) (hn : n < 1) :
    perFileCount cfg n = 0 := by
  unfold perFileCount
  split <;> omega

theorem emission_of_read (cfg : CTFReaderInp) (env : Env) (t0 : Nat) (b : Bool) (acc : Nat)
    (sl : Slot) (h0 : CTFHeader) (hr : readFromTree sl.tree sl.entry = some h0) :
    emission cfg env t0 b acc sl =
      [.header cfg.subspec (prepareHeader env t0 b acc h0)] ++
        detBlocks cfg sl.tree sl.entry (prepareHeader env t0 b acc h0) detOrder ++
        (if cfg.sup0xccdb then []
         else [.tfDist sl.entry (prepareHeader env t0 b acc h0).firstTForbit
           ((prepareHeader env t0 b acc h0).run % 2 ^ 32)]) := by
  unfold emission
  rw [hr]

/-- The fields of the state in which `sendTF` ends when no detector call
throws. -/
theorem sendTF_ok_fields (cfg : CTFReaderInp) (tree : List Entry) (h : CTFHeader) (s : Reader)
    (hall : ∀ d, d ∈ cfg.detMask → d ∉ h.detectors → cfg.allowMissingDetectors = true) :
    ∃ s1, sendTF cfg tree h s = .ok true s1 ∧
      s1.mCTFTree = (checkTreeEntries cfg tree s).mCTFTree ∧
      s1.mCurrTreeEntry = (checkTreeEntries cfg tree s).mCurrTreeEntry ∧
      s1.mFileFetcher = (checkTreeEntries cfg tree s).mFileFetcher ∧
      s1.mRunning = s.mRunning ∧ s1.mIRFrameSelector = s.mIRFrameSelector ∧
      s1.mRunTimeRanges = s.mRunTimeRanges ∧
      s1.mCTFCounter = s.mCTFCounter + 1 ∧ s1.mCTFCounterAcc = s.mCTFCounterAcc + 1 ∧
      s1.mSelIDEntry = s.mSelIDEntry ∧
      s1.outputs = s.outputs ++ ([.header cfg.subspec h] ++
        detBlocks cfg tree s.mCurrTreeEntry h detOrder ++
        (if cfg.sup0xccdb then []
         else [.tfDist s.mCurrTreeEntry h.firstTForbit (h.run % 2 ^ 32)])) ∧
      s1.log = s.log ++
        [.readCTF s.mCTFCounter s.mCurrTreeEntry tree.length (s.mCTFFile.getD 0)] ∧
      s1.mUseLocalTFCounter = s.mUseLocalTFCounter ∧
      s1.mImposeRunStartMS = s.mImposeRunStartMS := by
  refine ⟨_, sendTF_ok cfg tree h s hall, ?_⟩
  simp

/-- A pass over an entry that the selection of `run` picks: it is sent and
the loop is left. -/
theorem step_send (cfg : CTFReaderInp) (env : Env) (s : Reader) (t : List Entry) (w : Bool)
    (hc : Clean cfg s) (ht : s.mCTFTree = some t)
    (hsel : cfg.ctfIDs = [] ∨ cfg.ctfIDs[s.mSelIDEntry]? = some s.mCTFCounter) :
    ∃ s1, runStep cfg env s w = .brk s1 ∧ Sent cfg env s s1 0 := by
  have hp := pendingSlots_checkTreeEntries cfg t s ht (hc.cursor t ht) hc.fetcher
  have hgood : goodSlot cfg { tree := t, entry := s.mCurrTreeEntry } :=
    hc.good _ (by rw [hp]; exact List.mem_cons_self _ _)
  obtain ⟨h0, hr, hall⟩ := hgood
  simp only [] at hr
  have hall1 : ∀ d, d ∈ cfg.detMask →
      d ∉ (prepareHeader env s.mImposeRunStartMS s.mUseLocalTFCounter s.mCTFCounterAcc
        h0).detectors → cfg.allowMissingDetectors = true := by
    intro d hm hab
    rw [prepareHeader_detectors] at hab
    exact hall d hm hab
  obtain ⟨s1, hsend, f1, f2, f3, f4, f5, f6, f7, f8, f9, f10, f11, f12, f13⟩ :=
    sendTF_ok_fields cfg t
      (prepareHeader env s.mImposeRunStartMS s.mUseLocalTFCounter s.mCTFCounterAcc h0)
      { s with mSelIDEntry := s.mSelIDEntry + 1,
               mRunNumberPrev := toInt32 (prepareHeader env s.mImposeRunStartMS
                 s.mUseLocalTFCounter s.mCTFCounterAcc h0).run } hall1
  have hproc : processTF cfg env t { s with mSelIDEntry := s.mSelIDEntry + 1 } =
      .ok true s1 := by
    unfold processTF
    rw [selectTF_clean cfg env t { s with mSelIDEntry := s.mSelIDEntry + 1 } h0 hr
      hc.noRanges hc.unset]
    exact hsend
  simp only [checkTreeEntries_mCTFTree, checkTreeEntries_mCurrTreeEntry,
    checkTreeEntries_mFileFetcher] at f1 f2 f3
  simp only [] at f4 f5 f6 f7 f8 f9 f10 f11 f12 f13
  refine ⟨s1, ?_, ?_⟩
  · unfold runStep
    simp only [ht]
    unfold visitEntry
    rcases hsel with hemp | hid
    · simp only [hemp, List.isEmpty_nil, if_true]
      rw [hproc]
    · simp only [isEmpty_false_of_getElem? _ _ _ hid, hid]
      simp only [if_true, Bool.false_eq_true, if_false]
      rw [hproc]
  · obtain ⟨hcl, hpd⟩ := clean_of_checkTreeEntries cfg t s s1 hc ht
      (by rw [f1]; simp) (by rw [f2]; simp) (by rw [f3]; simp)
      (by rw [f4]; exact hc.running) (by rw [f5]; exact hc.unset)
      (by rw [f6]; exact hc.noRanges)
    refine ⟨hcl, hpd, by rw [f7], f8, f9, ?_, ?_, f12, f13⟩
    · refine ⟨{ tree := t, entry := s.mCurrTreeEntry }, by rw [hp]; simp, ?_⟩
      rw [emission_of_read cfg env _ _ _ _ h0 hr, f10]
    · rw [f11]
      simp [readPositions_append, readPositions]

theorem slotsOf_bad (cfg : CTFReaderInp) (f : CTFFile)
    (hbad : ¬ (f.isOpen = true ∧ ∃ t, f.tree = some t ∧ ¬ t.length < 1)) :
    slotsOf cfg f = [] := by
  unfold slotsOf
  by_cases ho : f.isOpen = true
  · simp only [ho, if_true]
    cases htr : f.tree with
    | none => rfl
    | some t =>
      have : t.length < 1 := by
        by_contra hl
        exact hbad ⟨ho, t, htr, hl⟩
      simp [perFileCount_zero cfg _ this]
  · simp [ho]

theorem openCTFFile_good (cfg : CTFReaderInp) (s : Reader) (f : CTFFile) (t : List Entry)
    (ho : f.isOpen = true) (htr : f.tree = some t) (hl : ¬ t.length < 1) :
    openCTFFile cfg s f =
      { s with mFilesRead := s.mFilesRead + 1, mCTFFile := some f.name, mCTFTree := some t,
               mCurrTreeEntry := 0 } := by
  unfold openCTFFile
  simp [ho, htr, hl]

theorem openCTFFile_bad (cfg : CTFReaderInp) (s : Reader) (f : CTFFile)
    (hbad : ¬ (f.isOpen = true ∧ ∃ t, f.tree = some t ∧ ¬ t.length < 1)) :
    openCTFFile cfg s f =
      { s with mFilesRead := s.mFilesRead + 1, mCTFTree := none, mCTFFile := none,
               mNFailedFiles := s.mNFailedFiles + 1,
               mFileFetcher := s.mFileFetcher.map
                 (FileFetcher.popFromQueue (decide (cfg.maxLoops < 1))),
               mCurrTreeEntry := 0 } := by
  unfold openCTFFile
  by_cases ho : f.isOpen = true
  · cases htr : f.tree with
    | none => simp [ho]
    | some t =>
      have : t.length < 1 := by
        by_contra hl
        exact hbad ⟨ho, t, htr, hl⟩
      simp [ho, this]
  · simp [ho]

/-- Opening the container at the head of the queue changes neither the
pending entries nor what was counted and sent. -/
theorem skipped_openCTFFile (cfg : CTFReaderInp) (s s0 : Reader) (ff : FileFetcher)
    (item : QueueItem) (rest : List QueueItem) (hc : Clean cfg s) (hn : s.mCTFTree = none)
    (hf : s.mFileFetcher = some ff) (hq : ff.queue = item :: rest)
    (h0 : s0 = s ∨ s0 = { s with mNWaits := s.mNWaits + 1 }) :
    Skipped cfg s (openCTFFile cfg s0 item.file) 0 := by
  have hps : pendingSlots cfg s = slotsOf cfg item.file ++ sourceSlots cfg rest := by
    unfold pendingSlots
    simp [hn, hf, hq, sourceSlots]
  have hgood := hc.good
  have hrun := hc.running
  have hun := hc.unset
  have hnr := hc.noRanges
  by_cases hg : item.file.isOpen = true ∧ ∃ t, item.file.tree = some t ∧ ¬ t.length < 1
  · obtain ⟨ho, t, htr, hl⟩ := hg
    rw [openCTFFile_good cfg s0 item.file t ho htr hl]
    have hpend : pendingSlots cfg
        { s0 with mFilesRead := s0.mFilesRead + 1, mCTFFile := some item.file.name,
                  mCTFTree := some t, mCurrTreeEntry := 0 } = pendingSlots cfg s := by
      rw [hps]
      unfold pendingSlots slotsOf
      rcases h0 with rfl | rfl <;> simp [hf, hq, ho, htr]
    refine ⟨⟨?_, ?_, ?_, ?_, ?_, ?_⟩, ?_, ?_, ?_, ?_, ?_, ?_, ?_, ?_⟩
    · rcases h0 with rfl | rfl <;> simpa using hrun
    · rcases h0 with rfl | rfl <;> simp [hf]
    · rcases h0 with rfl | rfl <;> simpa using hun
    · rcases h0 with rfl | rfl <;> simpa using hnr
    · intro t1 ht1
      simp only [] at ht1
      injection ht1 with ht1
      rw [← ht1]
      exact perFileCount_pos cfg _ hl
    · intro sl hsl
      rw [hpend] at hsl
      exact hgood sl hsl
    · rw [hpend]; rfl
    all_goals rcases h0 with rfl | rfl <;> simp
  · rw [openCTFFile_bad cfg s0 item.file hg]
    have hpend : pendingSlots cfg
        { s0 with mFilesRead := s0.mFilesRead + 1, mCTFTree := none, mCTFFile := none,
                  mNFailedFiles := s0.mNFailedFiles + 1,
                  mFileFetcher := s0.mFileFetcher.map
                    (FileFetcher.popFromQueue (decide (cfg.maxLoops < 1))),
                  mCurrTreeEntry := 0 } = pendingSlots cfg s := by
      rw [hps, slotsOf_bad cfg _ hg]
      unfold pendingSlots
      rcases h0 with rfl | rfl <;> simp [hf, hq, FileFetcher.popFromQueue]
    refine ⟨⟨?_, ?_, ?_, ?_, ?_, ?_⟩, ?_, ?_, ?_, ?_, ?_, ?_, ?_, ?_⟩
    · rcases h0 with rfl | rfl <;> simpa using hrun
    · rcases h0 with rfl | rfl <;> simp [hf]
    · rcases h0 with rfl | rfl <;> simpa using hun
    · rcases h0 with rfl | rfl <;> simpa using hnr
    · intro t1 ht1
      simp at ht1
    · intro sl hsl
      rw [hpend] at hsl
      exact hgood sl hsl
    · rw [hpend]; rfl
    all_goals rcases h0 with rfl | rfl <;> simp

/-- A pass with no tree open, while entries are pending: the head of the
queue is opened, or awaited. -/
theorem step_fetch (cfg : CTFReaderInp) (env : Env) (s : Reader) (w : Bool)
    (hc : Clean cfg s) (hn : s.mCTFTree = none) (hpend : pendingSlots cfg s ≠ []) :
    ∃ s1 w1, runStep cfg env s w = .cont s1 w1 ∧ Skipped cfg s s1 0 := by
  obtain ⟨ff, hf⟩ := Option.isSome_iff_exists.mp hc.fetcher
  have hps : pendingSlots cfg s = sourceSlots cfg ff.queue := by
    unfold pendingSlots
    simp [hn, hf]
  cases hq : ff.queue with
  | nil => rw [hps, hq] at hpend; exact absurd rfl hpend
  | cons item rest =>
    unfold runStep
    simp only [hn]
    unfold fetchFile
    simp only [hf, FileFetcher.getNextFileInQueue, hq]
    by_cases hd : item.delay = 0
    · simp only [hd, if_true]
      refine ⟨_, false, rfl, ?_⟩
      apply skipped_openCTFFile cfg s _ ff item rest hc hn hf hq
      cases w
      · left; simp [hf]
      · right; simp [hf]
    · simp only [hd, if_false, FileFetcher.isRunning, hq]
      refine ⟨{ s with mFileFetcher := some ff.waitFor }, true, by simp, ?_⟩
      have hpend1 : pendingSlots cfg { s with mFileFetcher := some ff.waitFor } =
          pendingSlots cfg s := by
        rw [hps]
        unfold pendingSlots
        simp [hn, FileFetcher.waitFor, hq, sourceSlots]
      refine ⟨⟨hc.running, rfl, hc.unset, hc.noRanges, ?_, ?_⟩, ?_, rfl, rfl, rfl, rfl, rfl,
        rfl, rfl⟩
      · intro t1 ht1
        simp only [] at ht1
        rw [hn] at ht1; cases ht1
      · intro sl hsl
        rw [hpend1] at hsl
        exact hc.good sl hsl
      · rw [hpend1]; rfl

/-! ## The loop of `run` from a clean state -/

theorem Skipped.then_sent {cfg : CTFReaderInp} {env : Env} {s s1 s2 : Reader} {n d : Nat}
    (h1 : Skipped cfg s s1 n) (h2 : Sent cfg env s1 s2 d) : Sent cfg env s s2 (n + d) := by
  obtain ⟨sl, hsl, hout⟩ := h2.outputs
  refine ⟨h2.clean, ?_, ?_, ?_, ?_, ⟨sl, ?_, ?_⟩, ?_, ?_, ?_⟩
  · rw [h2.pending, h1.pending, List.drop_drop]
    congr 1
  · rw [h2.counter, h1.counter]; omega
  · rw [h2.acc, h1.acc]
  · rw [h2.sel, h1.sel]
  · rw [h1.pending, List.getElem?_drop] at hsl
    exact hsl
  · rw [hout, h1.outputs, h1.impose, h1.useLocal, h1.acc]
  · rw [h2.reads, h1.reads, h1.counter]
    congr 2; omega
  · rw [h2.useLocal, h1.useLocal]
  · rw [h2.impose, h1.impose]

theorem runLoop_succ (cfg : CTFReaderInp) (env : Env) (n : Nat) (s : Reader) (w : Bool)
    (hr : s.mRunning = true) :
    runLoop cfg env (n + 1) s w =
      match runStep cfg env s w with
      | .cont s1 w1 => runLoop cfg env n s1 w1
      | .brk s1 => .done s1
      | .fatal e s1 => .fatal e s1 := by
  rw [runLoop]
  simp [hr]

/-- From a clean state with more than `d` pending entries, where the
selection of `run` picks the entry `d` places ahead, the loop of `run` skips
`d` entries, sends that one and ends. -/
theorem loop_sends (cfg : CTFReaderInp) (env : Env) :
    ∀ (fuel : Nat) (s : Reader) (w : Bool) (d : Nat), Clean cfg s → loopFuel s ≤ fuel →
      d < (pendingSlots cfg s).length →
      ((cfg.ctfIDs = [] ∧ d = 0) ∨ cfg.ctfIDs[s.mSelIDEntry]? = some (s.mCTFCounter + d)) →
      ∃ s1, runLoop cfg env fuel s w = .done s1 ∧ Sent cfg env s s1 d := by
  intro fuel
  induction fuel with
  | zero =>
    intro s w d _ hf
    have := loopFuel_pos s
    omega
  | succ n ih =>
    intro s w d hc hf hd hsel
    rw [runLoop_succ cfg env n s w hc.running]
    cases ht : s.mCTFTree with
    | none =>
      have hne : pendingSlots cfg s ≠ [] := by
        intro h0; rw [h0] at hd; simp at hd
      obtain ⟨s1, w1, hstep, hsk⟩ := step_fetch cfg env s w hc ht hne
      have hfuel := loopFuel_runStep cfg env s w s1 w1 hstep
      rw [hstep]
      obtain ⟨s2, hloop, hsent⟩ := ih s1 w1 d hsk.clean (by omega)
        (by rw [hsk.pending]; simpa using hd)
        (by rw [hsk.sel, hsk.counter]; simpa using hsel)
      refine ⟨s2, hloop, ?_⟩
      have := hsk.then_sent hsent
      simpa using this
    | some t =>
      by_cases hd0 : d = 0
      · subst hd0
        obtain ⟨s1, hstep, hsent⟩ := step_send cfg env s t w hc ht
          (by rcases hsel with ⟨h1, _⟩ | h1
              · exact Or.inl h1
              · exact Or.inr (by simpa using h1))
        rw [hstep]
        exact ⟨s1, rfl, hsent⟩
      · have hid : cfg.ctfIDs[s.mSelIDEntry]? = some (s.mCTFCounter + d) := by
          rcases hsel with ⟨_, h1⟩ | h1
          · exact absurd h1 hd0
          · exact h1
        obtain ⟨hstep, hsk⟩ := step_skip cfg env s t (s.mCTFCounter + d) w hc ht hid
          (by omega)
        have hfuel := loopFuel_runStep cfg env s w _ w hstep
        rw [hstep]
        obtain ⟨s2, hloop, hsent⟩ := ih (skipEntry cfg t s) w (d - 1) hsk.clean (by omega)
          (by rw [hsk.pending, List.length_drop]; omega)
          (Or.inr (by rw [hsk.sel, hsk.counter, hid]; congr 1; omega))
        refine ⟨s2, hloop, ?_⟩
        have := hsk.then_sent hsent
        have h1 : 1 + (d - 1) = d := by omega
        rw [h1] at this
        exact this

/-! ## The code of `run` after the loop -/

theorem finishRun_continue (cfg : CTFReaderInp) (s : Reader) (hc : Clean cfg s)
    (hlim : ¬ limitReached cfg s.mCTFCounter s.mSelIDEntry)
    (hpend : pendingSlots cfg s ≠ []) :
    finishRun cfg s = s := by
  obtain ⟨ff, hf⟩ := Option.isSome_iff_exists.mp hc.fetcher
  have hq : ¬ (s.mCTFTree.isNone = true ∧
      (ff.getNextFileInQueue.isNone && !ff.isRunning) = true) := by
    rintro ⟨h1, h2⟩
    apply hpend
    have hn : s.mCTFTree = none := by simpa using h1
    unfold pendingSlots
    simp only [hn, hf]
    cases hqq : ff.queue with
    | nil => rfl
    | cons item rest =>
      simp [FileFetcher.isRunning, hqq] at h2
  unfold limitReached at hlim
  unfold finishRun
  simp only [hf]
  rw [if_neg hlim]
  have hrun := hc.running
  by_cases h1 : s.mCTFTree.isNone = true
  · have h2 : ¬ ((ff.getNextFileInQueue.isNone && !ff.isRunning) = true) := fun h => hq ⟨h1, h⟩
    simp [hrun, h1, h2]
  · simp [hrun, h1]

theorem finishRun_stop (cfg : CTFReaderInp) (s : Reader)
    (hlim : limitReached cfg s.mCTFCounter s.mSelIDEntry) :
    (finishRun cfg s).mRunning = false ∧ (finishRun cfg s).outputs = s.outputs ∧
      (finishRun cfg s).log = s.log ∧ (finishRun cfg s).endOfStream = true ∧
      (finishRun cfg s).readyToQuit = true ∧
      (finishRun cfg s).summary = some s.mCTFCounterAcc ∧
      (finishRun cfg s).mCTFCounterAcc = s.mCTFCounterAcc := by
  unfold limitReached at hlim
  unfold finishRun
  simp only []
  rw [if_pos hlim]
  simp only [Bool.not_false, if_true]
  unfold stopReader
  cases hf : s.mFileFetcher <;> simp

theorem run_of_loop (cfg : CTFReaderInp) (env : Env) (s s1 : Reader)
    (h : runLoop cfg env (loopFuel s) s false = .done s1) :
    run cfg env s = .done (finishRun cfg s1) := by
  unfold run
  rw [h]

theorem runCalls_succ (cfg : CTFReaderInp) (env : Env) (k : Nat) (s s1 : Reader)
    (hr : s.mRunning = true) (h : run cfg env s = .done s1) :
    runCalls cfg env (k + 1) s = runCalls cfg env k s1 := by
  rw [runCalls]
  simp [hr, h]

theorem runCalls_stopped (cfg : CTFReaderInp) (env : Env) (k : Nat) (s : Reader)
    (hr : s.mRunning = false) : runCalls cfg env k s = .done s := by
  cases k with
  | zero => rfl
  | succ n => rw [runCalls]; simp [hr]

/-! ## Successive calls of `run` from a clean state -/

theorem emittedAt_cons (cfg : CTFReaderInp) (env : Env) (t0 : Nat) (b : Bool)
    (slots : List Slot) (acc x : Nat) (xs : List Nat) :
    emittedAt cfg env t0 b slots acc (x :: xs) =
      (match slots[x]? with
       | some sl => emission cfg env t0 b acc sl
       | none => []) ++ emittedAt cfg env t0 b slots (acc + 1) xs := rfl

/-- From a clean state whose pending entries are the entries of `slots` from
the raw position `mCTFCounter` on, and for a non-empty plan `post` that stays
inside `slots`: the first `k` calls of `run` send the entries at the first
`k` positions of the plan, one per call, and the reader stops with the call
that sends the last one. -/
theorem calls_follow_plan (cfg : CTFReaderInp) (env : Env) (slots : List Slot) :
    ∀ (post : List Nat) (s : Reader) (k : Nat), post ≠ [] → Clean cfg s →
      Plan cfg s.mSelIDEntry s.mCTFCounter post →
      (∀ x ∈ post, x < slots.length) →
      pendingSlots cfg s = slots.drop s.mCTFCounter →
      ∃ s1, runCalls cfg env k s = .done s1 ∧
        s1.outputs = s.outputs ++
          emittedAt cfg env s.mImposeRunStartMS s.mUseLocalTFCounter slots s.mCTFCounterAcc
            (post.take k) ∧
        readPositions s1.log = readPositions s.log ++ post.take k ∧
        s1.mRunning = decide (k < post.length) ∧
        s1.mCTFCounterAcc = s.mCTFCounterAcc + min k post.length ∧
        (post.length ≤ k → s1.endOfStream = true ∧ s1.readyToQuit = true ∧
          s1.summary = some (s.mCTFCounterAcc + post.length)) := by
  intro post
  induction post with
  | nil => intro s k h; exact absurd rfl h
  | cons x rest ih =>
    intro s k _ hc hplan hin hslots
    cases k with
    | zero =>
      refine ⟨s, rfl, by simp [emittedAt], by simp, by simpa using hc.running, by simp, ?_⟩
      intro h; simp at h
    | succ k =>
      obtain ⟨hfirst, hrest⟩ := hplan
      have hx : s.mCTFCounter ≤ x := by
        rcases hfirst with ⟨_, h1⟩ | ⟨_, h1⟩ <;> omega
      have hxs : x < slots.length := hin x (List.mem_cons_self _ _)
      have hlen : (pendingSlots cfg s).length = slots.length - s.mCTFCounter := by
        rw [hslots, List.length_drop]
      obtain ⟨s1, hloop, hsent⟩ := loop_sends cfg env (loopFuel s) s false (x - s.mCTFCounter)
        hc (Nat.le_refl _) (by rw [hlen]; omega)
        (by rcases hfirst with ⟨h1, h2⟩ | ⟨h1, _⟩
            · exact Or.inl ⟨h1, by omega⟩
            · right; rw [h1]; congr 1; omega)
      have hrun := run_of_loop cfg env s s1 hloop
      have hcnt : s1.mCTFCounter = x + 1 := by rw [hsent.counter]; omega
      obtain ⟨sl, hsl, hout⟩ := hsent.outputs
      have hslx : slots[x]? = some sl := by
        rw [hslots, List.getElem?_drop] at hsl
        rw [← hsl]; congr 1; omega
      have hout1 : s1.outputs = s.outputs ++
          emittedAt cfg env s.mImposeRunStartMS s.mUseLocalTFCounter slots s.mCTFCounterAcc
            [x] := by
        rw [hout, emittedAt_cons, hslx]
        simp [emittedAt]
      have hreads1 : readPositions s1.log = readPositions s.log ++ [x] := by
        rw [hsent.reads]; congr 2; omega
      rw [runCalls_succ cfg env k s _ hc.running hrun]
      by_cases hr : rest = []
      · subst hr
        simp only [if_true] at hrest
        rw [← hcnt, ← hsent.sel] at hrest
        obtain ⟨h1, h2, h3, h4, h5, h6, h7⟩ := finishRun_stop cfg s1 hrest
        rw [runCalls_stopped cfg env k _ h1]
        refine ⟨_, rfl, ?_, ?_, ?_, ?_, ?_⟩
        · rw [h2, hout1]; simp
        · rw [h3, hreads1]; simp
        · rw [h1]; simp
        · rw [h7, hsent.acc]; simp
        · intro _
          refine ⟨h4, h5, ?_⟩
          rw [h6, hsent.acc]; simp
      · simp only [hr, if_false] at hrest
        obtain ⟨hnolim, hplan1⟩ := hrest
        rw [← hcnt, ← hsent.sel] at hnolim hplan1
        have hpend1 : pendingSlots cfg s1 = slots.drop s1.mCTFCounter := by
          rw [hsent.pending, hslots, List.drop_drop, hcnt]
          congr 1; omega
        obtain ⟨y, rest1, hyr⟩ := List.exists_cons_of_ne_nil hr
        have hy : y < slots.length := hin y (by rw [hyr]; simp)
        have hy1 : s1.mCTFCounter ≤ y := by
          rw [hyr] at hplan1
          obtain ⟨hf1, _⟩ := hplan1
          rcases hf1 with ⟨_, h1⟩ | ⟨_, h1⟩ <;> omega
        have hne : pendingSlots cfg s1 ≠ [] := by
          intro h0
          have := congrArg List.length h0
          rw [hpend1, List.length_drop] at this
          simp at this
          omega
        rw [finishRun_continue cfg s1 hsent.clean hnolim hne]
        obtain ⟨s2, hcalls, ho, hrd, hrn, hacc, hend⟩ := ih s1 k hr hsent.clean hplan1
          (fun z hz => hin z (List.mem_cons_of_mem _ hz)) hpend1
        refine ⟨s2, hcalls, ?_, ?_, ?_, ?_, ?_⟩
        · rw [ho, hout1, hsent.impose, hsent.useLocal, hsent.acc]
          simp [emittedAt_cons, emittedAt]
        · rw [hrd, hreads1]; simp
        · rw [hrn]; simp
        · rw [hacc, hsent.acc]; simp; omega
        · intro hk
          have hk1 : rest.length ≤ k := by simpa using hk
          obtain ⟨e1, e2, e3⟩ := hend hk1
          refine ⟨e1, e2, ?_⟩
          rw [e3, hsent.acc]; simp; omega

/-! ## Plans -/

/-- A strictly increasing ID list below `0x7fffffff`, with `max-tf`
unbounded, is the plan that the selection of `run` follows. -/
theorem plan_of_ids (cfg : CTFReaderInp) (hmax : cfg.maxTFs = 0x7fffffff) :
    ∀ (post pre : List Nat) (c : Nat), cfg.ctfIDs = pre ++ post →
      post.Pairwise (· < ·) → (∀ x ∈ post, x < 0x7fffffff) → (∀ x ∈ post, c ≤ x) →
      Plan cfg pre.length c post := by
  intro post
  induction post with
  | nil => intro pre c _ _ _ _; trivial
  | cons x rest ih =>
    intro pre c hids hsorted hint hge
    have hget : cfg.ctfIDs[pre.length]? = some x := by
      rw [hids, List.getElem?_append_right (Nat.le_refl _)]; simp
    have hlenids : cfg.ctfIDs.length = pre.length + 1 + rest.length := by
      rw [hids]; simp; omega
    refine ⟨Or.inr ⟨hget, hge x (List.mem_cons_self _ _)⟩, ?_⟩
    by_cases hr : rest = []
    · simp only [hr, if_true]
      right
      refine ⟨?_, ?_⟩
      · rw [hids]; simp
      · rw [hlenids, hr]; simp
    · simp only [hr, if_false]
      have hlt : ∀ y ∈ rest, x < y := (List.pairwise_cons.mp hsorted).1
      refine ⟨?_, ?_⟩
      · rintro (h1 | ⟨_, h2⟩)
        · obtain ⟨y, rest1, hyr⟩ := List.exists_cons_of_ne_nil hr
          have hy : y ∈ rest := by rw [hyr]; simp
          have := hlt y hy
          have := hint y (List.mem_cons_of_mem _ hy)
          rw [hmax] at h1
          omega
        · rw [hlenids] at h2
          have : 0 < rest.length := List.length_pos.mpr hr
          omega
      · have := ih (pre ++ [x]) (x + 1) (by rw [hids]; simp)
          (List.pairwise_cons.mp hsorted).2
          (fun y hy => hint y (List.mem_cons_of_mem _ hy))
          (fun y hy => hlt y hy)
        simpa using this

/-- Without an ID list and with `max-tf = counter + m`, the plan is the next
`m` raw positions. -/
theorem plan_of_maxTFs (cfg : CTFReaderInp) (hids : cfg.ctfIDs = []) :
    ∀ (m sel c : Nat), cfg.maxTFs = c + m → Plan cfg sel c (List.range' c m) := by
  intro m
  induction m with
  | zero => intro sel c _; trivial
  | succ n ih =>
    intro sel c hmax
    rw [List.range'_succ]
    refine ⟨Or.inl ⟨hids, rfl⟩, ?_⟩
    cases n with
    | zero =>
      simp only [List.range'_zero, if_true]
      left; omega
    | succ j =>
      have hne : List.range' (c + 1) (j + 1) ≠ [] := by simp [List.range'_succ]
      simp only [hne, if_false]
      refine ⟨?_, ih (sel + 1) (c + 1) (by omega)⟩
      rintro (h1 | ⟨h2, _⟩)
      · omega
      · exact h2 hids

/-! ## Counting the header records -/

theorem headersOf_append (l1 l2 : List Output) :
    headersOf (l1 ++ l2) = headersOf l1 ++ headersOf l2 := by
  simp [headersOf, List.filterMap_append]

theorem headersOf_detBlocks (cfg : CTFReaderInp) (tree : List Entry) (ev : Nat)
    (h : CTFHeader) (dets : List DetID) : headersOf (detBlocks cfg tree ev h dets) = [] := by
  induction dets with
  | nil => rfl
  | cons d ds ih =>
    rw [detBlocks_cons, headersOf_append, ih]
    split <;> simp [headersOf]

theorem headersOf_emission (cfg : CTFReaderInp) (env : Env) (t0 : Nat) (b : Bool) (acc : Nat)
    (sl : Slot) (h0 : CTFHeader) (hr : readFromTree sl.tree sl.entry = some h0) :
    headersOf (emission cfg env t0 b acc sl) = [prepareHeader env t0 b acc h0] := by
  rw [emission_of_read cfg env t0 b acc sl h0 hr, headersOf_append, headersOf_append,
    headersOf_detBlocks]
  split <;> simp [headersOf]

theorem headersOf_emittedAt_length (cfg : CTFReaderInp) (env : Env) (t0 : Nat) (b : Bool)
    (slots : List Slot) (hgood : ∀ sl ∈ slots, goodSlot cfg sl) :
    ∀ (ids : List Nat) (acc : Nat), (∀ x ∈ ids, x < slots.length) →
      (headersOf (emittedAt cfg env t0 b slots acc ids)).length = ids.length := by
  intro ids
  induction ids with
  | nil => intro acc _; rfl
  | cons x xs ih =>
    intro acc hin
    have hx := hin x (List.mem_cons_self _ _)
    obtain ⟨h0, hr, _⟩ := hgood slots[x] (List.getElem_mem _)
    rw [emittedAt_cons, List.getElem?_eq_getElem hx, headersOf_append,
      headersOf_emission cfg env t0 b acc _ h0 hr, List.length_append,
      ih (acc + 1) (fun y hy => hin y (List.mem_cons_of_mem _ hy))]
    simp; omega

theorem clean_start (cfg : CTFReaderInp) (ff : FileFetcher) (b : Bool) (t0 : Nat)
    (hgood : ∀ sl ∈ sourceSlots cfg ff.queue, goodSlot cfg sl) :
    Clean cfg (Reader.start ff b t0) ∧
      pendingSlots cfg (Reader.start ff b t0) = sourceSlots cfg ff.queue := by
  have hp : pendingSlots cfg (Reader.start ff b t0) = sourceSlots cfg ff.queue := by
    simp [pendingSlots, Reader.start]
  refine ⟨⟨rfl, rfl, rfl, rfl, ?_, ?_⟩, hp⟩
  · intro t ht; simp [Reader.start] at ht
  · intro sl hsl; rw [hp] at hsl; exact hgood sl hsl

theorem goodSlot_of_check (cfg : CTFReaderInp) (slots : List Slot)
    (h : slots.all (goodSlotB cfg) = true) : ∀ sl ∈ slots, goodSlot cfg sl := by
  intro sl hsl
  have h1 := List.all_eq_true.mp h sl hsl
  unfold goodSlotB at h1
  cases hr : readFromTree sl.tree sl.entry with
  | none => rw [hr] at h1; cases h1
  | some h0 =>
    rw [hr] at h1
    refine ⟨h0, hr, ?_⟩
    intro d hm hab
    rcases Bool.or_eq_true _ _ |>.mp h1 with h2 | h2
    · exact h2
    · have := List.all_eq_true.mp h2 d hm
      simp at this
      exact absurd this hab

/-! ## What a pass of the loop does, for every configuration -/

theorem selectTF_rejected_fields (cfg : CTFReaderInp) (env : Env) (tree : List Entry)
    (s s2 : Reader) (hsel : selectTF cfg env tree s = .rejected s2) :
    s2.mCTFTree = s.mCTFTree ∧ s2.mCurrTreeEntry = s.mCurrTreeEntry ∧
    s2.mFileFetcher = s.mFileFetcher ∧ s2.mRunning = s.mRunning ∧
    s2.mCTFCounter = s.mCTFCounter ∧ s2.mCTFCounterAcc = s.mCTFCounterAcc ∧
    s2.outputs = s.outputs ∧ s2.log = s.log ∧
    s2.mUseLocalTFCounter = s.mUseLocalTFCounter ∧ s2.mCTFFile = s.mCTFFile ∧
    s2.summary = s.summary ∧ s2.mSelIDEntry = s.mSelIDEntry := by
  have h := selectTF_rejected_eq cfg env tree s s2 hsel
  have h1 := congrArg Reader.mCTFTree h
  have h2 := congrArg Reader.mCurrTreeEntry h
  have h3 := congrArg Reader.mFileFetcher h
  have h4 := congrArg Reader.mRunning h
  have h5 := congrArg Reader.mCTFCounter h
  have h6 := congrArg Reader.mCTFCounterAcc h
  have h7 := congrArg Reader.outputs h
  have h8 := congrArg Reader.log h
  have h9 := congrArg Reader.mUseLocalTFCounter h
  have h10 := congrArg Reader.mCTFFile h
  have h11 := congrArg Reader.summary h
  have h12 := congrArg Reader.mSelIDEntry h
  exact ⟨h1, h2, h3, h4, h5, h6, h7, h8, h9, h10, h11, h12⟩

theorem selectTF_accepted_fields (cfg : CTFReaderInp) (env : Env) (tree : List Entry)
    (s : Reader) (h : CTFHeader) (s2 : Reader)
    (hsel : selectTF cfg env tree s = .accepted h s2) :
    s2.mCTFTree = s.mCTFTree ∧ s2.mCurrTreeEntry = s.mCurrTreeEntry ∧
    s2.mFileFetcher = s.mFileFetcher ∧ s2.mRunning = s.mRunning ∧
    s2.mCTFCounter = s.mCTFCounter ∧ s2.mCTFCounterAcc = s.mCTFCounterAcc ∧
    headersOf s2.outputs = headersOf s.outputs ∧ s2.log = s.log ∧
    s2.mUseLocalTFCounter = s.mUseLocalTFCounter ∧ s2.mCTFFile = s.mCTFFile ∧
    s2.summary = s.summary ∧ s2.mSelIDEntry = s.mSelIDEntry := by
  obtain ⟨h0, hout⟩ := selectTF_accepted_eq cfg env tree s h s2 hsel
  have h1 := congrArg Reader.mCTFTree h0
  have h2 := congrArg Reader.mCurrTreeEntry h0
  have h3 := congrArg Reader.mFileFetcher h0
  have h4 := congrArg Reader.mRunning h0
  have h5 := congrArg Reader.mCTFCounter h0
  have h6 := congrArg Reader.mCTFCounterAcc h0
  have h8 := congrArg Reader.log h0
  have h9 := congrArg Reader.mUseLocalTFCounter h0
  have h10 := congrArg Reader.mCTFFile h0
  have h11 := congrArg Reader.summary h0
  have h12 := congrArg Reader.mSelIDEntry h0
  refine ⟨h1, h2, h3, h4, h5, h6, ?_, h8, h9, h10, h11, h12⟩
  rcases hout with ho | ⟨fr, ho⟩
  · rw [ho]
  · rw [ho]; simp [headersOf]

/-- A pass over an entry that is not sent: the entry under the cursor is
logged as skipped, the cursor and the raw counter advance, nothing is
emitted. -/
theorem visitEntry_cont (cfg : CTFReaderInp) (env : Env) (tree : List Entry) (s : Reader)
    (w : Bool) (s1 : Reader) (w1 : Bool)
    (hstep : visitEntry cfg env tree s w = .cont s1 w1) :
    s1.mCTFTree = (checkTreeEntries cfg tree s).mCTFTree ∧
    s1.mCurrTreeEntry = s.mCurrTreeEntry + 1 ∧
    s1.mFileFetcher = (checkTreeEntries cfg tree s).mFileFetcher ∧
    s1.mRunning = s.mRunning ∧ s1.mCTFCounter = s.mCTFCounter + 1 ∧
    s1.mCTFCounterAcc = s.mCTFCounterAcc ∧ s1.outputs = s.outputs ∧
    s1.mUseLocalTFCounter = s.mUseLocalTFCounter ∧ s1.summary = s.summary ∧
    s1.log = s.log ++
      [.skipping s.mCTFCounter s.mCurrTreeEntry tree.length (s.mCTFFile.getD 0)] := by
  have key : ∀ t : Reader, processTF cfg env tree { s with mSelIDEntry := s.mSelIDEntry + 1 } =
      .ok false t → s1 = skipEntry cfg tree t →
      s1.mCTFTree = (checkTreeEntries cfg tree s).mCTFTree ∧
      s1.mCurrTreeEntry = s.mCurrTreeEntry + 1 ∧
      s1.mFileFetcher = (checkTreeEntries cfg tree s).mFileFetcher ∧
      s1.mRunning = s.mRunning ∧ s1.mCTFCounter = s.mCTFCounter + 1 ∧
      s1.mCTFCounterAcc = s.mCTFCounterAcc ∧ s1.outputs = s.outputs ∧
      s1.mUseLocalTFCounter = s.mUseLocalTFCounter ∧ s1.summary = s.summary ∧
      s1.log = s.log ++
        [.skipping s.mCTFCounter s.mCurrTreeEntry tree.length (s.mCTFFile.getD 0)] := by
    intro t hp hs1
    obtain ⟨h1, h2, h3, h4, h5, h6, h7, h8, h9, h10, h11, _⟩ :=
      selectTF_rejected_fields cfg env tree _ t (processTF_false cfg env tree _ t hp)
    simp only [] at h1 h2 h3 h4 h5 h6 h7 h8 h9 h10 h11
    rw [hs1]
    simp [skipEntry, h1, h2, h3, h4, h5, h6, h7, h8, h9, h10, h11]
  unfold visitEntry at hstep
  split at hstep
  · split at hstep
    · cases hstep
    · cases hstep
    · rename_i t hp
      injection hstep with h1 _
      exact key t hp h1.symm
  · split at hstep
    · cases hstep
    · split at hstep
      · split at hstep
        · cases hstep
        · cases hstep
        · rename_i t hp
          injection hstep with h1 _
          exact key t hp h1.symm
      · injection hstep with h1 _
        rw [← h1]
        simp [skipEntry]

/-- A pass over an entry that is sent: the entry under the cursor is logged
as read, the cursor, the raw counter and the accepted counter advance, and
exactly one header record is emitted; it carries the accepted counter if the
local counter is used. -/
theorem visitEntry_brk (cfg : CTFReaderInp) (env : Env) (tree : List Entry) (s : Reader)
    (w : Bool) (s1 : Reader) (hstep : visitEntry cfg env tree s w = .brk s1) :
    s1.mCTFTree = (checkTreeEntries cfg tree s).mCTFTree ∧
    s1.mCurrTreeEntry = s.mCurrTreeEntry + 1 ∧
    s1.mFileFetcher = (checkTreeEntries cfg tree s).mFileFetcher ∧
    s1.mRunning = s.mRunning ∧ s1.mCTFCounter = s.mCTFCounter + 1 ∧
    s1.mCTFCounterAcc = s.mCTFCounterAcc + 1 ∧
    (∃ h, headersOf s1.outputs = headersOf s.outputs ++ [h] ∧
      (s.mUseLocalTFCounter = true → h.tfCounter = s.mCTFCounterAcc)) ∧
    s1.mUseLocalTFCounter = s.mUseLocalTFCounter ∧ s1.summary = s.summary ∧
    s1.log = s.log ++
      [.readCTF s.mCTFCounter s.mCurrTreeEntry tree.length (s.mCTFFile.getD 0)] := by
  have hp : processTF cfg env tree { s with mSelIDEntry := s.mSelIDEntry + 1 } =
      .ok true s1 := by
    unfold visitEntry at hstep
    split at hstep
    · split at hstep
      · cases hstep
      · rename_i t hp
        injection hstep with h1
        rw [← h1]; exact hp
      · cases hstep
    · split at hstep
      · cases hstep
      · split at hstep
        · split at hstep
          · cases hstep
          · rename_i t hp
            injection hstep with h1
            rw [← h1]; exact hp
          · cases hstep
        · cases hstep
  obtain ⟨h, s0, hsel, hsend⟩ := processTF_true cfg env tree _ s1 hp
  obtain ⟨h1, h2, h3, h4, h5, h6, h7, h8, h9, h10, h11, _⟩ :=
    selectTF_accepted_fields cfg env tree _ h s0 hsel
  simp only [] at h1 h2 h3 h4 h5 h6 h7 h8 h9 h10 h11
  obtain ⟨h0, _, hh⟩ := selectTF_accepted_header cfg env tree _ h s0 hsel
  simp only [] at hh
  have hall := allowed_of_sendTF_ok cfg tree h s0 true s1 hsend
  obtain ⟨t1, hsend1, f1, f2, f3, f4, _, _, f7, f8, _, f10, f11, f12, _⟩ :=
    sendTF_ok_fields cfg tree h s0 hall
  rw [hsend1] at hsend
  injection hsend with _ hst
  subst hst
  simp only [checkTreeEntries_mCTFTree, checkTreeEntries_mCurrTreeEntry,
    checkTreeEntries_mFileFetcher] at f1 f2 f3 ⊢
  refine ⟨by rw [f1, h1, h2], by rw [f2, h2], by rw [f3, h2, h3], by rw [f4, h4],
    by rw [f7, h5], by rw [f8, h6], ⟨h, ?_, ?_⟩, by rw [f12, h9], ?_, ?_⟩
  · rw [f10, headersOf_append, headersOf_append, headersOf_append, headersOf_detBlocks, h7]
    split <;> simp [headersOf]
  · intro hl
    rw [hh, prepareHeader]
    simp [hl]
  · have := sendTF_ok cfg tree h s0 hall
    rw [hsend1] at this
    injection this with _ hst
    rw [hst]; simp [h11]
  · rw [f11, h8, h5, h2, h10]

/-! ## The counters and the draining of a container -/

theorem finishRun_of_running (cfg : CTFReaderInp) (s : Reader)
    (h : (finishRun cfg s).mRunning = true) : finishRun cfg s = s := by
  unfold finishRun at h ⊢
  simp only [] at h ⊢
  split at h
  · simp only [Bool.not_false, if_true] at h
    unfold stopReader at h
    cases hf : s.mFileFetcher <;> simp [hf] at h
  · split at h
    · simp only [Bool.not_false, if_true] at h
      unfold stopReader at h
      cases hf : s.mFileFetcher <;> simp [hf] at h
    · rename_i h1 h2
      rw [if_neg h1, if_neg h2]
      cases hr : s.mRunning with
      | true => simp
      | false =>
        simp only [hr, Bool.not_false, if_true] at h
        unfold stopReader at h
        cases hf : s.mFileFetcher <;> simp [hf, hr] at h

theorem finishRun_fields (cfg : CTFReaderInp) (s : Reader) :
    (finishRun cfg s).outputs = s.outputs ∧
    (finishRun cfg s).mCTFCounterAcc = s.mCTFCounterAcc ∧
    (finishRun cfg s).mUseLocalTFCounter = s.mUseLocalTFCounter ∧
    ((finishRun cfg s).mRunning = false → (finishRun cfg s).summary = some s.mCTFCounterAcc) := by
  by_cases hr : (finishRun cfg s).mRunning = true
  · have he := finishRun_of_running cfg s hr
    rw [he] at hr ⊢
    simp [hr]
  · unfold finishRun at hr ⊢
    simp only [] at hr ⊢
    unfold stopReader at hr ⊢
    split <;> [skip; split] <;> split <;> cases hf : s.mFileFetcher <;> simp_all

/-- The accepted counter counts the header records, and with the local
counter in use the header records are numbered from 0. -/
theorem counted_visit (cfg : CTFReaderInp) (env : Env) (tree : List Entry) (s : Reader)
    (w : Bool) (s1 : Reader)
    (hst : (visitEntry cfg env tree s w).state = some s1)
    (hacc : s.mCTFCounterAcc = (headersOf s.outputs).length)
    (hnum : s.mUseLocalTFCounter = true →
      (headersOf s.outputs).map (fun h => h.tfCounter) = List.range s.mCTFCounterAcc) :
    s1.mCTFCounterAcc = (headersOf s1.outputs).length ∧
    (s1.mUseLocalTFCounter = true →
      (headersOf s1.outputs).map (fun h => h.tfCounter) = List.range s1.mCTFCounterAcc) := by
  cases hv : visitEntry cfg env tree s w with
  | fatal e t => rw [hv] at hst; cases hst
  | cont t w1 =>
    rw [hv] at hst
    injection hst with hst
    subst hst
    obtain ⟨_, _, _, _, _, h6, h7, h8, _⟩ := visitEntry_cont cfg env tree s w _ w1 hv
    rw [h6, h7, h8]
    exact ⟨hacc, hnum⟩
  | brk t =>
    rw [hv] at hst
    injection hst with hst
    subst hst
    obtain ⟨_, _, _, _, _, h6, ⟨h, hh, hl⟩, h8, _⟩ := visitEntry_brk cfg env tree s w _ hv
    rw [h6, hh, h8]
    refine ⟨by simp [hacc], ?_⟩
    intro hloc
    rw [List.map_append, hnum hloc, List.range_succ]
    simp [hl hloc]

theorem openCTFFile_fields (cfg : CTFReaderInp) (s : Reader) (f : CTFFile) :
    (openCTFFile cfg s f).outputs = s.outputs ∧
    (openCTFFile cfg s f).mCTFCounterAcc = s.mCTFCounterAcc ∧
    (openCTFFile cfg s f).mUseLocalTFCounter = s.mUseLocalTFCounter := by
  unfold openCTFFile
  simp only []
  split <;> simp

theorem counted_fetch (cfg : CTFReaderInp) (s : Reader) (w : Bool) (s1 : Reader)
    (hst : (fetchFile cfg s w).state = some s1) :
    s1.outputs = s.outputs ∧ s1.mCTFCounterAcc = s.mCTFCounterAcc ∧
      s1.mUseLocalTFCounter = s.mUseLocalTFCounter := by
  unfold fetchFile at hst
  split at hst
  · cases hst
  · split at hst
    · split at hst
      · injection hst with hst; rw [← hst]; simp
      · injection hst with hst; rw [← hst]; simp
    · injection hst with hst
      rw [← hst]
      obtain ⟨h1, h2, h3⟩ := openCTFFile_fields cfg
        (if w = true then { s with mNWaits := s.mNWaits + 1 } else s) _
      rw [h1, h2, h3]
      cases w <;> simp

theorem counted_loop (cfg : CTFReaderInp) (env : Env) :
    ∀ (fuel : Nat) (s : Reader) (w : Bool) (s1 : Reader),
      runLoop cfg env fuel s w = .done s1 →
      s.mCTFCounterAcc = (headersOf s.outputs).length →
      (s.mUseLocalTFCounter = true →
        (headersOf s.outputs).map (fun h => h.tfCounter) = List.range s.mCTFCounterAcc) →
      s1.mCTFCounterAcc = (headersOf s1.outputs).length ∧
      (s1.mUseLocalTFCounter = true →
        (headersOf s1.outputs).map (fun h => h.tfCounter) = List.range s1.mCTFCounterAcc) := by
  intro fuel
  induction fuel with
  | zero =>
    intro s w s1 hl hacc hnum
    unfold runLoop at hl
    split at hl
    · cases hl
    · injection hl with hl; rw [← hl]; exact ⟨hacc, hnum⟩
  | succ n ih =>
    intro s w s1 hl hacc hnum
    by_cases hr : s.mRunning = true
    · rw [runLoop_succ cfg env n s w hr] at hl
      have hstep : ∀ t, (runStep cfg env s w).state = some t →
          t.mCTFCounterAcc = (headersOf t.outputs).length ∧
          (t.mUseLocalTFCounter = true →
            (headersOf t.outputs).map (fun h => h.tfCounter) =
              List.range t.mCTFCounterAcc) := by
        intro t ht
        unfold runStep at ht
        split at ht
        · exact counted_visit cfg env _ s w t ht hacc hnum
        · obtain ⟨h1, h2, h3⟩ := counted_fetch cfg s w t ht
          rw [h1, h2, h3]
          exact ⟨hacc, hnum⟩
      cases hs : runStep cfg env s w with
      | cont t w1 =>
        rw [hs] at hl
        obtain ⟨a, b⟩ := hstep t (by rw [hs]; rfl)
        exact ih t w1 s1 hl a b
      | brk t =>
        rw [hs] at hl
        injection hl with hl
        rw [← hl]
        exact hstep t (by rw [hs]; rfl)
      | fatal e t => rw [hs] at hl; cases hl
    · unfold runLoop at hl
      simp [hr] at hl
      rw [← hl]; exact ⟨hacc, hnum⟩

theorem counted_calls (cfg : CTFReaderInp) (env : Env) :
    ∀ (k : Nat) (s s1 : Reader), runCalls cfg env k s = .done s1 →
      s.mCTFCounterAcc = (headersOf s.outputs).length →
      (s.mUseLocalTFCounter = true →
        (headersOf s.outputs).map (fun h => h.tfCounter) = List.range s.mCTFCounterAcc) →
      (s.mRunning = false → s.summary = some s.mCTFCounterAcc) →
      s1.mCTFCounterAcc = (headersOf s1.outputs).length ∧
      (s1.mUseLocalTFCounter = true →
        (headersOf s1.outputs).map (fun h => h.tfCounter) = List.range s1.mCTFCounterAcc) ∧
      (s1.mRunning = false → s1.summary = some s1.mCTFCounterAcc) := by
  intro k
  induction k with
  | zero =>
    intro s s1 hc hacc hnum hsum
    injection hc with hc
    rw [← hc]; exact ⟨hacc, hnum, hsum⟩
  | succ n ih =>
    intro s s1 hc hacc hnum hsum
    by_cases hr : s.mRunning = true
    · rw [runCalls] at hc
      simp only [hr, if_true] at hc
      cases hrun : run cfg env s with
      | done t =>
        rw [hrun] at hc
        unfold run at hrun
        cases hl : runLoop cfg env (loopFuel s) s false with
        | done t0 =>
          rw [hl] at hrun
          injection hrun with hrun
          obtain ⟨a, b⟩ := counted_loop cfg env _ s false t0 hl hacc hnum
          obtain ⟨f1, f2, f3, f4⟩ := finishRun_fields cfg t0
          rw [hrun] at f1 f2 f3 f4
          exact ih t s1 hc (by rw [f1, f2]; exact a) (by rw [f1, f2, f3]; exact b)
            (by rw [f2]; exact f4)
        | fatal e t0 => rw [hl] at hrun; cases hrun
        | outOfFuel => rw [hl] at hrun; cases hrun
      | fatal e t => rw [hrun] at hc; cases hc
      | outOfFuel => rw [hrun] at hc; cases hc
    · have hr0 : s.mRunning = false := by simpa using hr
      rw [runCalls_stopped cfg env _ s hr0] at hc
      injection hc with hc
      rw [← hc]; exact ⟨hacc, hnum, hsum⟩

theorem visitedEntries_append (l1 l2 : List LogRec) :
    visitedEntries (l1 ++ l2) = visitedEntries l1 ++ visitedEntries l2 := by
  simp [visitedEntries]

/-- What a pass through the open tree that does not throw does to the
container, the queue and the log. -/
theorem visitEntry_state (cfg : CTFReaderInp) (env : Env) (tree : List Entry) (s : Reader)
    (w : Bool) (s1 : Reader) (hst : (visitEntry cfg env tree s w).state = some s1) :
    s1.mCTFTree = (checkTreeEntries cfg tree s).mCTFTree ∧
    s1.mCurrTreeEntry = s.mCurrTreeEntry + 1 ∧
    s1.mFileFetcher = (checkTreeEntries cfg tree s).mFileFetcher ∧
    s1.mRunning = s.mRunning ∧ s1.mCTFCounter = s.mCTFCounter + 1 ∧
    ∃ r, s1.log = s.log ++ [r] ∧ visitedEntries [r] = [s.mCurrTreeEntry] := by
  cases hv : visitEntry cfg env tree s w with
  | fatal e t => rw [hv] at hst; cases hst
  | cont t w1 =>
    rw [hv] at hst
    injection hst with hst
    subst hst
    obtain ⟨h1, h2, h3, h4, h5, _, _, _, _, h10⟩ := visitEntry_cont cfg env tree s w _ w1 hv
    exact ⟨h1, h2, h3, h4, h5, _, h10, rfl⟩
  | brk t =>
    rw [hv] at hst
    injection hst with hst
    subst hst
    obtain ⟨h1, h2, h3, h4, h5, _, _, _, _, h10⟩ := visitEntry_brk cfg env tree s w _ hv
    exact ⟨h1, h2, h3, h4, h5, _, h10, rfl⟩

theorem drain_succ (cfg : CTFReaderInp) (env : Env) (tree : List Entry) (k : Nat)
    (s s1 : Reader) (hd : drain cfg env tree (k + 1) s = some s1) :
    ∃ t, (visitEntry cfg env tree s false).state = some t ∧
      drain cfg env tree k t = some s1 := by
  rw [drain] at hd
  split at hd
  · rename_i t w1 hv
    exact ⟨t, by rw [hv]; rfl, hd⟩
  · rename_i t hv
    split at hd
    · rename_i hr
      rw [finishRun_of_running cfg t hr] at hd
      exact ⟨t, by rw [hv]; rfl, hd⟩
    · cases hd
  · cases hd

/-- While fewer entries have been visited than the container offers, the
tree stays open with the cursor on the next entry, and the queue is not
touched. -/
theorem drain_open (cfg : CTFReaderInp) (env : Env) (tree : List Entry) (ff : FileFetcher) :
    ∀ (k : Nat) (s s1 : Reader), s.mCTFTree = some tree → s.mFileFetcher = some ff →
      s.mCurrTreeEntry + k < perFileCount cfg tree.length →
      drain cfg env tree k s = some s1 →
      s1.mCTFTree = some tree ∧ s1.mCurrTreeEntry = s.mCurrTreeEntry + k ∧
      s1.mFileFetcher = some ff ∧
      ∃ l, s1.log = s.log ++ l ∧ visitedEntries l = List.range' s.mCurrTreeEntry k := by
  intro k
  induction k with
  | zero =>
    intro s s1 ht hf _ hd
    injection hd with hd
    subst hd
    exact ⟨ht, rfl, hf, [], by simp, rfl⟩
  | succ n ih =>
    intro s s1 ht hf hk hd
    obtain ⟨t, hv, hd1⟩ := drain_succ cfg env tree n s s1 hd
    obtain ⟨h1, h2, h3, _, _, r, hlog, hr⟩ := visitEntry_state cfg env tree s false t hv
    have hopen : ¬ (s.mCurrTreeEntry + 1 ≥ perFileCount cfg tree.length) := by omega
    simp only [checkTreeEntries_mCTFTree, checkTreeEntries_mFileFetcher, if_neg hopen]
      at h1 h3
    obtain ⟨a, b, c, l, hl, hvis⟩ := ih t s1 (by rw [h1, ht]) (by rw [h3, hf])
      (by rw [h2]; omega) hd1
    refine ⟨a, by rw [b, h2]; omega, c, r :: l, ?_, ?_⟩
    · rw [hl, hlog]; simp
    · have : visitedEntries (r :: l) = visitedEntries [r] ++ visitedEntries l := by
        rw [← visitedEntries_append]; rfl
      rw [this, hr, hvis, h2, List.range'_succ]
      rfl

/-- A sequence of calls of `run` always ends, normally or with a fatal
error. -/
theorem runCalls_ne_outOfFuel (cfg : CTFReaderInp) (env : Env) :
    ∀ (k : Nat) (s : Reader), runCalls cfg env k s ≠ .outOfFuel := by
  intro k
  induction k with
  | zero => intro s h; cases h
  | succ n ih =>
    intro s
    rw [runCalls]
    by_cases hr : s.mRunning = true
    · simp only [hr, if_true]
      cases hrun : run cfg env s with
      | done t => exact ih t
      | fatal e t => simp
      | outOfFuel => exact absurd hrun (run_ne_outOfFuel cfg env s)
    · simp [hr]

end CTFReader

/-! ## Lemmas on strings -/

namespace StdLib

end StdLib

namespace CTFReader

end CTFReader

namespace CTFReader

/-! ## Lemmas on the loading of the run / time-range table -/

theorem convOf_ne_neg_one (x : Int) : convOf x ≠ -1 := by
  unfold convOf
  split <;> decide

theorem convOf_eq_one (x : Int) : convOf x = 1 ↔ ISTimeStamp < x := by
  unfold convOf
  split
  · rename_i h
    simpa using h
  · rename_i h
    simp only [gt_iff_lt] at h
    simp [h]

theorem convOf_eq_zero (x : Int) : convOf x = 0 ↔ x ≤ ISTimeStamp := by
  unfold convOf
  split
  · rename_i h
    simp only [gt_iff_lt] at h
    simp
    exact h
  · rename_i h
    simp only [gt_iff_lt, not_lt] at h
    simp [h]

theorem storeRange_eq (st : Loading) (run rmin rmax : Int) (line : List Char) :
    storeRange st run rmin rmax line =
      if rmax < rmin then .error (.notIncreasing line)
      else if st.mConvRunTimeRangesToOrbits = -1 then
        if convOf rmin = convOf rmax then .ok (stored st run rmin rmax)
        else .error (.mixedLimits line)
      else if st.mConvRunTimeRangesToOrbits = convOf rmin ∧
          st.mConvRunTimeRangesToOrbits = convOf rmax then .ok (stored st run rmin rmax)
      else .error (.otherUnit line) := by
  unfold storeRange stored
  have hc : ∀ x : Int, (if x > ISTimeStamp then (1 : Int) else 0) = convOf x := fun x => rfl
  simp only [hc, beq_iff_eq]
  by_cases h1 : rmax < rmin
  · simp [h1]
  · by_cases h2 : st.mConvRunTimeRangesToOrbits = -1
    · by_cases h3 : convOf rmin = convOf rmax
      · simp [h1, h2, h3]
      · simp [h1, h2, h3]
    · by_cases h3 : st.mConvRunTimeRangesToOrbits = convOf rmin
      · by_cases h4 : st.mConvRunTimeRangesToOrbits = convOf rmax
        · simp [h1, h2, h3, h4]
        · simp [h1, h2, h3, h4]
      · simp [h1, h2, h3]

theorem storeRange_ok_iff (st st1 : Loading) (run rmin rmax : Int) (line : List Char) :
    storeRange st run rmin rmax line = .ok st1 ↔
      rmin ≤ rmax ∧ convOf rmin = convOf rmax ∧
        (st.mConvRunTimeRangesToOrbits = -1 ∨ st.mConvRunTimeRangesToOrbits = convOf rmin) ∧
        st1 = stored st run rmin rmax := by
  rw [storeRange_eq]
  by_cases h1 : rmax < rmin
  · simp [h1]
  · have h1' : rmin ≤ rmax := not_lt.mp h1
    simp only [h1, if_false, h1', true_and]
    by_cases h2 : st.mConvRunTimeRangesToOrbits = -1
    · simp only [h2, if_true, true_or, true_and]
      by_cases h3 : convOf rmin = convOf rmax
      · simp [h3, eq_comm]
      · simp [h3]
    · simp only [h2, if_false, false_or]
      by_cases h3 : st.mConvRunTimeRangesToOrbits = convOf rmin
      · by_cases h4 : convOf rmin = convOf rmax
        · simp [h3, h4, eq_comm]
        · have : ¬ (st.mConvRunTimeRangesToOrbits = convOf rmax) := by rw [h3]; exact h4
          simp [h3, h4]
      · simp [h3]

theorem storeRange_error_of (st : Loading) (run rmin rmax : Int) (line : List Char)
    (h : ¬ (rmin ≤ rmax ∧ convOf rmin = convOf rmax ∧
      (st.mConvRunTimeRangesToOrbits = -1 ∨ st.mConvRunTimeRangesToOrbits = convOf rmin))) :
    ∃ e, storeRange st run rmin rmax line = .error e := by
  cases hs : storeRange st run rmin rmax line with
  | error e => exact ⟨e, rfl⟩
  | ok st1 =>
    exfalso
    apply h
    obtain ⟨h1, h2, h3, -⟩ := (storeRange_ok_iff st st1 run rmin rmax line).mp hs
    exact ⟨h1, h2, h3⟩

theorem loadLines_append (st : Loading) (a b : List (List Char)) :
    loadLines st (a ++ b) =
      (match loadLines st a with
       | .error e => .error e
       | .ok st1 => loadLines st1 b) := by
  induction a generalizing st with
  | nil => rfl
  | cons l ls ih =>
    simp only [List.cons_append, loadLines]
    cases loadLine st l with
    | error e => rfl
    | ok st1 => exact ih st1

theorem outcome_eq_of_same {a b : Loading} (h : a.same b) :
    outcome (.ok a) = outcome (.ok b) := by
  obtain ⟨h1, h2, h3⟩ := h
  simp [outcome, h1, h2, h3]

theorem stored_same {a b : Loading} (h : a.same b) (run rmin rmax : Int) :
    (stored a run rmin rmax).same (stored b run rmin rmax) := by
  obtain ⟨h1, h2, h3⟩ := h
  simp [Loading.same, stored, h1, h3]

theorem storeRange_same {a b : Loading} (h : a.same b) (run rmin rmax : Int) (line : List Char) :
    (∃ e, storeRange a run rmin rmax line = .error e ∧ storeRange b run rmin rmax line = .error e) ∨
    (∃ a1 b1, storeRange a run rmin rmax line = .ok a1 ∧ storeRange b run rmin rmax line = .ok b1 ∧
      a1.same b1) := by
  have hs := stored_same h run rmin rmax
  obtain ⟨h1, h2, h3⟩ := h
  rw [storeRange_eq, storeRange_eq, h2]
  split_ifs
  · left; exact ⟨_, rfl, rfl⟩
  · right; exact ⟨_, _, rfl, rfl, hs⟩
  · left; exact ⟨_, rfl, rfl⟩
  · right; exact ⟨_, _, rfl, rfl, hs⟩
  · left; exact ⟨_, rfl, rfl⟩

theorem loadLine_same {a b : Loading} (h : a.same b) (l : List Char) :
    (∃ e, loadLine a l = .error e ∧ loadLine b l = .error e) ∨
    (∃ a1 b1, loadLine a l = .ok a1 ∧ loadLine b l = .ok b1 ∧ a1.same b1) := by
  unfold loadLine
  cases readLine l with
  | skipped => right; exact ⟨_, _, rfl, rfl, h⟩
  | malformed line => right; exact ⟨_, _, rfl, rfl, h⟩
  | triplet run rmin rmax line =>
    exact storeRange_same (a := { a with cntl := a.cntl + 1 }) (b := { b with cntl := b.cntl + 1 })
      h run rmin rmax line

theorem loadLines_same {a b : Loading} (h : a.same b) (ls : List (List Char)) :
    outcome (loadLines a ls) = outcome (loadLines b ls) := by
  induction ls generalizing a b with
  | nil => exact outcome_eq_of_same h
  | cons l ls ih =>
    simp only [loadLines]
    rcases loadLine_same h l with ⟨e, h1, h2⟩ | ⟨a1, b1, h1, h2, h3⟩
    · rw [h1, h2]
    · rw [h1, h2]
      exact ih h3

/-- A line that is passed over or reported leaves the table, the unit and the
range counter as they are. -/
theorem loadLine_not_triplet (st : Loading) (l : List Char)
    (h : readLine l = .skipped ∨ ∃ line, readLine l = .malformed line) :
    ∃ st1, loadLine st l = .ok st1 ∧ st1.same st ∧ st1.cntl = st.cntl + 1 ∧
      (readLine l = .skipped → st1.errors = st.errors) ∧
      (∀ line, readLine l = .malformed line → st1.errors = st.errors ++ [(st.cntl + 1, line)]) := by
  unfold loadLine
  rcases h with h | ⟨line, h⟩
  · rw [h]
    refine ⟨_, rfl, ⟨rfl, rfl, rfl⟩, rfl, ?_, ?_⟩
    · intro _
      rfl
    · intro _ h1
      cases h1
  · rw [h]
    refine ⟨_, rfl, ⟨rfl, rfl, rfl⟩, rfl, ?_, ?_⟩
    · intro h1
      cases h1
    · intro _ h1
      cases h1
      rfl

theorem loadLines_remove (st : Loading) (ls1 ls2 : List (List Char)) (l : List Char)
    (h : readLine l = .skipped ∨ ∃ line, readLine l = .malformed line) :
    outcome (loadLines st (ls1 ++ l :: ls2)) = outcome (loadLines st (ls1 ++ ls2)) := by
  rw [loadLines_append, loadLines_append]
  cases loadLines st ls1 with
  | error e => rfl
  | ok st1 =>
    obtain ⟨st2, h1, h2, -⟩ := loadLine_not_triplet st1 l h
    simp only [loadLines, h1]
    exact loadLines_same h2 ls2

end CTFReader

namespace CTFReader

theorem loadLine_ok_cases (st st1 : Loading) (l : List Char) (h : loadLine st l = .ok st1) :
    ((readLine l = .skipped ∨ ∃ line, readLine l = .malformed line) ∧ st1.same st) ∨
    (∃ run rmin rmax line, readLine l = .triplet run rmin rmax line ∧
      rmin ≤ rmax ∧ convOf rmin = convOf rmax ∧
      (st.mConvRunTimeRangesToOrbits = -1 ∨ st.mConvRunTimeRangesToOrbits = convOf rmin) ∧
      st1 = stored { st with cntl := st.cntl + 1 } run rmin rmax) := by
  cases hr : readLine l with
  | skipped =>
    left
    obtain ⟨st2, h1, h2, -⟩ := loadLine_not_triplet st l (Or.inl hr)
    rw [h] at h1
    cases h1
    exact ⟨Or.inl rfl, h2⟩
  | malformed line =>
    left
    obtain ⟨st2, h1, h2, -⟩ := loadLine_not_triplet st l (Or.inr ⟨line, hr⟩)
    rw [h] at h1
    cases h1
    exact ⟨Or.inr ⟨line, rfl⟩, h2⟩
  | triplet run rmin rmax line =>
    right
    unfold loadLine at h
    rw [hr] at h
    exact ⟨run, rmin, rmax, line, rfl, (storeRange_ok_iff _ _ _ _ _ _).mp h⟩

/-- Once the unit is determined it stays. -/
theorem loadLine_conv (st st1 : Loading) (l : List Char) (h : loadLine st l = .ok st1)
    (hc : st.mConvRunTimeRangesToOrbits ≠ -1) :
    st1.mConvRunTimeRangesToOrbits = st.mConvRunTimeRangesToOrbits := by
  rcases loadLine_ok_cases st st1 l h with ⟨-, -, h2, -⟩ | ⟨run, rmin, rmax, line, -, -, -, h3, h4⟩
  · exact h2
  · rcases h3 with h3 | h3
    · exact absurd h3 hc
    · rw [h4, h3]
      rfl

theorem loadLines_conv (st st1 : Loading) (ls : List (List Char)) (h : loadLines st ls = .ok st1)
    (hc : st.mConvRunTimeRangesToOrbits ≠ -1) :
    st1.mConvRunTimeRangesToOrbits = st.mConvRunTimeRangesToOrbits := by
  induction ls generalizing st with
  | nil =>
    simp only [loadLines] at h
    cases h
    rfl
  | cons l ls ih =>
    simp only [loadLines] at h
    cases hl : loadLine st l with
    | error e => rw [hl] at h; cases h
    | ok st2 =>
      rw [hl] at h
      have h2 := loadLine_conv st st2 l hl hc
      rw [← h2]
      exact ih st2 h (by rw [h2]; exact hc)

/-- After a load that succeeds, every triplet line is in increasing order and
both its limits speak for the unit the load ends with. -/
theorem loadLines_ok_triplet (st st1 : Loading) (ls : List (List Char))
    (h : loadLines st ls = .ok st1) (l : List Char) (hl : l ∈ ls)
    (run rmin rmax : Int) (line : List Char) (hr : readLine l = .triplet run rmin rmax line) :
    rmin ≤ rmax ∧ st1.mConvRunTimeRangesToOrbits = convOf rmin ∧
      st1.mConvRunTimeRangesToOrbits = convOf rmax := by
  induction ls generalizing st with
  | nil => cases hl
  | cons l0 ls ih =>
    simp only [loadLines] at h
    cases hl0 : loadLine st l0 with
    | error e => rw [hl0] at h; cases h
    | ok st2 =>
      rw [hl0] at h
      rcases List.mem_cons.mp hl with heq | hmem
      · subst heq
        rcases loadLine_ok_cases st st2 l hl0 with ⟨h1, -⟩ | ⟨r, a, b, ln, h1, h2, h3, -, h5⟩
        · rw [hr] at h1
          rcases h1 with h1 | ⟨_, h1⟩ <;> cases h1
        · rw [hr] at h1
          cases h1
          have hc2 : st2.mConvRunTimeRangesToOrbits = convOf rmin := by rw [h5]; rfl
          have hfix := loadLines_conv st2 st1 ls h (by rw [hc2]; exact convOf_ne_neg_one _)
          exact ⟨h2, by rw [hfix, hc2], by rw [hfix, hc2, h3]⟩
      · exact ih st2 h hmem

theorem mem_addRange (run : Int) (rng : Int × Int) (t : List (Int × List (Int × Int)))
    (p : Int × List (Int × Int)) (hp : p ∈ addRange run rng t) (r : Int × Int) (hr : r ∈ p.2) :
    (∃ q ∈ t, r ∈ q.2) ∨ r = rng := by
  induction t with
  | nil =>
    simp only [addRange, List.mem_singleton] at hp
    subst hp
    right
    simpa using hr
  | cons q rest ih =>
    obtain ⟨k0, v0⟩ := q
    unfold addRange at hp
    split at hp
    · rcases List.mem_cons.mp hp with h | h
      · subst h
        rcases List.mem_append.mp hr with h1 | h1
        · left; exact ⟨(k0, v0), List.mem_cons_self _ _, h1⟩
        · right; simpa using h1
      · left; exact ⟨p, List.mem_cons_of_mem _ h, hr⟩
    · rcases List.mem_cons.mp hp with h | h
      · subst h
        left; exact ⟨(k0, v0), List.mem_cons_self _ _, hr⟩
      · rcases ih h with ⟨q, hq, hq2⟩ | h1
        · left; exact ⟨q, List.mem_cons_of_mem _ hq, hq2⟩
        · right; exact h1

end CTFReader

namespace CTFReader

/-- Every range a load that succeeds holds was there at the start or is that
of one of the triplet lines. -/
theorem loadLines_mem (st st1 : Loading) (ls : List (List Char))
    (h : loadLines st ls = .ok st1) (p : Int × List (Int × Int)) (hp : p ∈ st1.mRunTimeRanges)
    (r : Int × Int) (hr : r ∈ p.2) :
    (∃ q ∈ st.mRunTimeRanges, r ∈ q.2) ∨
      (∃ l ∈ ls, ∃ run line, readLine l = .triplet run r.1 r.2 line) := by
  induction ls generalizing st with
  | nil =>
    simp only [loadLines] at h
    cases h
    left
    exact ⟨p, hp, hr⟩
  | cons l0 ls ih =>
    simp only [loadLines] at h
    cases hl0 : loadLine st l0 with
    | error e => rw [hl0] at h; cases h
    | ok st2 =>
      rw [hl0] at h
      rcases ih st2 h with ⟨q, hq, hq2⟩ | ⟨l, hl, run, line, hrl⟩
      · rcases loadLine_ok_cases st st2 l0 hl0 with ⟨-, h2, -⟩ | ⟨run, a, b, ln, h1, -, -, -, h5⟩
        · left
          rw [h2] at hq
          exact ⟨q, hq, hq2⟩
        · have ht : st2.mRunTimeRanges = addRange run (a, b) st.mRunTimeRanges := by rw [h5]; rfl
          rw [ht] at hq
          rcases mem_addRange run (a, b) _ q hq r hq2 with h6 | h6
          · left; exact h6
          · right
            subst h6
            exact ⟨l0, List.mem_cons_self _ _, run, ln, h1⟩
      · right
        exact ⟨l, List.mem_cons_of_mem _ hl, run, line, hrl⟩

theorem loadRunTimeSpans_some (text : List Char) (st : Loading) :
    loadRunTimeSpans (some text) st =
      loadLines { st with cntl := 0, cntr := 0 } (StdLib.getlines (Char.ofNat 10) text) := rfl

end CTFReader

namespace CTFReader

end CTFReader

namespace StdLib

theorem getlines_append_delim (d : Char) (l rest : List Char) (hl : d ∉ l) :
    getlines d (l ++ d :: rest) = l :: getlines d rest := by
  induction l with
  | nil => simp [getlines]
  | cons c cs ih =>
    have hc : (c == d) = false := by
      have : c ≠ d := fun h => hl (by simp [h])
      simpa using this
    have hcs : d ∉ cs := fun h => hl (List.mem_cons_of_mem _ h)
    have h1 : getlines d ((c :: cs) ++ d :: rest) =
        (match getlines d (cs ++ d :: rest) with
         | [] => [[c]]
         | l :: ls => (c :: l) :: ls) := by
      simp only [List.cons_append, getlines, hc, Bool.false_eq_true, if_false]
      rfl
    rw [h1, ih hcs]

end StdLib

namespace CTFReader

theorem loadLine_cntl (st st1 : Loading) (l : List Char) (h : loadLine st l = .ok st1) :
    st1.cntl = st.cntl + 1 ∧ ∀ x ∈ st.errors, x ∈ st1.errors := by
  rcases loadLine_ok_cases st st1 l h with ⟨h1, -⟩ | ⟨run, a, b, ln, -, -, -, -, h5⟩
  · obtain ⟨st2, h2, -, h3, h4, h5⟩ := loadLine_not_triplet st l h1
    rw [h] at h2
    cases h2
    refine ⟨h3, ?_⟩
    rcases h1 with h1 | ⟨line, h1⟩
    · rw [h4 h1]
      exact fun x hx => hx
    · rw [h5 line h1]
      exact fun x hx => List.mem_append_left _ hx
  · subst h5
    exact ⟨rfl, fun x hx => hx⟩

theorem loadLines_cntl (st st1 : Loading) (ls : List (List Char)) (h : loadLines st ls = .ok st1) :
    st1.cntl = st.cntl + ls.length ∧ ∀ x ∈ st.errors, x ∈ st1.errors := by
  induction ls generalizing st with
  | nil =>
    simp only [loadLines] at h
    cases h
    exact ⟨rfl, fun x hx => hx⟩
  | cons l0 ls ih =>
    simp only [loadLines] at h
    cases hl0 : loadLine st l0 with
    | error e => rw [hl0] at h; cases h
    | ok st2 =>
      rw [hl0] at h
      obtain ⟨h1, h2⟩ := loadLine_cntl st st2 l0 hl0
      obtain ⟨h3, h4⟩ := ih st2 h
      refine ⟨?_, fun x hx => h4 x (h2 x hx)⟩
      rw [h3, h1, List.length_cons]
      omega

/-- A reported line is in the error log of a load that succeeds, under its
line number. -/
theorem loadLines_reports (st st1 : Loading) (ls1 ls2 : List (List Char)) (l line : List Char)
    (hm : readLine l = .malformed line) (h : loadLines st (ls1 ++ l :: ls2) = .ok st1) :
    (st.cntl + ls1.length + 1, line) ∈ st1.errors := by
  rw [loadLines_append] at h
  cases h1 : loadLines st ls1 with
  | error e => rw [h1] at h; cases h
  | ok st2 =>
    rw [h1] at h
    simp only [loadLines] at h
    obtain ⟨st3, h3, -, -, -, h4⟩ := loadLine_not_triplet st2 l (Or.inr ⟨line, hm⟩)
    rw [h3] at h
    have h5 := (loadLines_cntl st3 st1 ls2 h).2
    apply h5
    rw [h4 line hm, (loadLines_cntl st st2 ls1 h1).1]
    simp

end CTFReader

namespace CTFReader

theorem convOf_eq_iff (a b : Int) :
    convOf a = convOf b ↔ (ISTimeStamp < a ↔ ISTimeStamp < b) := by
  unfold convOf
  by_cases ha : a > ISTimeStamp <;> by_cases hb : b > ISTimeStamp <;>
    simp only [gt_iff_lt] at ha hb <;> simp [ha, hb]

theorem getlines_spansFile (l : List Char) (hnl : Char.ofNat 10 ∉ l) :
    StdLib.getlines (Char.ofNat 10) (spansFile l) = [l, "# note".toList, []] := by
  unfold spansFile
  rw [StdLib.getlines_append_delim _ _ _ hnl]
  rfl

end CTFReader

namespace CTFReader

/-! ## Lemmas on the snap, the empty queue and the run-start table -/

theorem find_of_pairwise (l : List RunStartData) (k : Nat)
    (hp : l.Pairwise (fun a b => a.run ≠ b.run)) (row : RunStartData) (hrow : row ∈ l)
    (hk : row.run = k) :
    l.find? (fun tf0 => k == tf0.run) = some row := by
  induction l with
  | nil => cases hrow
  | cons x xs ih =>
    rw [List.pairwise_cons] at hp
    rcases List.mem_cons.mp hrow with h | h
    · subst h
      simp [List.find?, hk]
    · have hne : x.run ≠ row.run := hp.1 row h
      have : (k == x.run) = false := by
        rw [← hk]
        simpa using fun h => hne h.symm
      simp only [List.find?, this]
      exact ih hp.2 h

theorem tf0Data_pairwise : tf0Data.Pairwise (fun a b => a.run ≠ b.run) := by
  decide

theorem tf0Data_bounds : ∀ row ∈ tf0Data, 505207 ≤ row.run ∧ row.run ≤ 505720 := by
  decide

end CTFReader

/-! ## Lemmas on the decimal conversions -/

namespace StdLib

theorem decimalDigits_spec (fuel n : Nat) (h : n < fuel) :
    leValue (decimalDigits fuel n) = n ∧ (∀ d ∈ decimalDigits fuel n, d < 10) ∧
      decimalDigits fuel n ≠ [] := by
  induction fuel generalizing n with
  | zero => omega
  | succ f ih =>
    unfold decimalDigits
    by_cases hn : n < 10
    · simp [hn, leValue]
    · simp only [hn, if_false]
      have h1 : n / 10 < f := by omega
      obtain ⟨h2, h3, -⟩ := ih (n / 10) h1
      refine ⟨?_, ?_, by simp⟩
      · simp only [leValue, h2]
        omega
      · intro d hd
        rcases List.mem_cons.mp hd with h4 | h4
        · omega
        · exact h3 d h4

theorem valueOf_reverse (ds : List Nat) : valueOf 10 ds.reverse = leValue ds := by
  unfold valueOf
  rw [List.foldl_reverse]
  induction ds with
  | nil => rfl
  | cons d ds ih =>
    simp only [List.foldr_cons, leValue, ih]
    omega

theorem digit_char (d : Nat) (hd : d < 10) :
    digitValue (Char.ofNat (48 + d)) = some d ∧ isspace (Char.ofNat (48 + d)) = false ∧
      isdigit (Char.ofNat (48 + d)) = true ∧
      (Char.ofNat (48 + d) == '-') = false ∧ (Char.ofNat (48 + d) == '+') = false ∧
      (Char.ofNat (48 + d) == 'x') = false ∧ (Char.ofNat (48 + d) == 'X') = false := by
  interval_cases d <;> decide

theorem leadingDigits_digits (ds : List Nat) (h : ∀ d ∈ ds, d < 10) :
    leadingDigits 10 (ds.map (fun d => Char.ofNat (48 + d))) = ds := by
  induction ds with
  | nil => rfl
  | cons d ds ih =>
    have hd : d < 10 := h d (List.mem_cons_self _ _)
    simp only [List.map_cons, leadingDigits, (digit_char d hd).1, hd, if_true]
    rw [ih (fun x hx => h x (List.mem_cons_of_mem _ hx))]

theorem scanInteger_digits (ds : List Nat) (h : ∀ d ∈ ds, d < 10) (hne : ds ≠ []) :
    scanInteger (ds.map (fun d => Char.ofNat (48 + d))) 10 = some (false, valueOf 10 ds) := by
  cases ds with
  | nil => exact absurd rfl hne
  | cons d0 ds =>
    have hd0 : d0 < 10 := h d0 (List.mem_cons_self _ _)
    obtain ⟨-, h1, -, h2, h3, -, -⟩ := digit_char d0 hd0
    have hrad : radix 10 ((d0 :: ds).map (fun d => Char.ofNat (48 + d))) =
        (10, (d0 :: ds).map (fun d => Char.ofNat (48 + d))) := by
      unfold radix
      cases ds with
      | nil => simp
      | cons d1 ds1 =>
        have hd1 : d1 < 10 := h d1 (by simp)
        obtain ⟨-, -, -, -, -, h4, h5⟩ := digit_char d1 hd1
        simp [h4, h5]
    have hlead := leadingDigits_digits (d0 :: ds) h
    unfold scanInteger
    simp only [List.map_cons, List.dropWhile_cons, h1, Bool.false_eq_true, if_false, h2, h3]
    simp only [List.map_cons] at hrad hlead
    rw [hrad]
    simp only [hlead]
    simp

theorem stoul_to_string (n : Nat) (hn : n < 2 ^ 64) : stoul (to_string n) 10 = .ok n := by
  obtain ⟨h1, h2, h3⟩ := decimalDigits_spec (n + 1) n (Nat.lt_succ_self n)
  have hscan : scanInteger (to_string n) 10 = some (false, n) := by
    unfold to_string
    rw [scanInteger_digits _ (fun d hd => h2 d (List.mem_reverse.mp hd))
      (by simpa using h3), valueOf_reverse, h1]
  unfold stoul
  have hb : ¬ ((10 : Int) < 0 ∨ (10 : Int) = 1 ∨ (10 : Int) > 36) := by decide
  have h10 : (10 : Int).toNat = 10 := rfl
  simp only [hb, if_false, h10, hscan]
  have : ¬ n ≥ 2 ^ 64 := by omega
  rw [if_neg this]
  rfl

end StdLib

/-! ## Lemmas on `EnumFlags` -/

namespace EnumFlags

theorem EnumFlag_count (H : FlagsHelper) (hH : EnumFlag H = true) :
    0 < H.count ∧ H.count ≤ H.digits := by
  unfold EnumFlag at hH
  simp only [Bool.and_eq_true, decide_eq_true_eq] at hH
  exact ⟨hH.1.1.1.1, hH.1.1.1.2⟩

theorem MaxRep_eq (H : FlagsHelper) (h : H.count ≤ 64) : H.MaxRep = 2 ^ H.Max_u_v - 1 := by
  unfold FlagsHelper.MaxRep
  have : ¬ H.Max_u_v ≥ 64 := by
    unfold FlagsHelper.Max_u_v
    omega
  rw [if_neg this, Nat.one_shiftLeft]

theorem deserialize_serialize (H : FlagsHelper) (f g : Flags) (hf : f.mBits < 2 ^ 64) :
    deserialize H g (serialize f) =
      if f.mBits > H.MaxRep then .throw .out_of_range g
      else .ok { mBits := f.mBits % 2 ^ H.digits } := by
  unfold deserialize serialize
  rw [StdLib.stoul_to_string _ hf]

theorem ofList_single (H : FlagsHelper) (e : Nat) (he : e < H.digits) :
    Flags.ofList H [e] = { mBits := 2 ^ e } := by
  have h1 : 2 ^ e < 2 ^ H.digits := Nat.pow_lt_pow_right (by decide) he
  simp [Flags.ofList, to_bit, Nat.one_shiftLeft, Nat.mod_eq_of_lt h1]

end EnumFlags

/-! ## Lemmas on the bits of `EnumFlags` -/

namespace EnumFlags

theorem to_bit_eq (H : FlagsHelper) (e : Nat) (he : e < H.digits) : to_bit H e = 2 ^ e := by
  have h1 : 2 ^ e < 2 ^ H.digits := Nat.pow_lt_pow_right (by decide) he
  simp [to_bit, Nat.one_shiftLeft, Nat.mod_eq_of_lt h1]

theorem test_eq_testBit (H : FlagsHelper) (f : Flags) (e : Nat) (he : e < H.digits) :
    f.test H e = f.mBits.testBit e := by
  unfold Flags.test
  rw [to_bit_eq H e he, Nat.and_two_pow]
  cases h : f.mBits.testBit e <;> simp [h]

theorem count_eq_filter (H : FlagsHelper) (f : Flags) :
    f.count H =
      ((List.range H.Max_u_v).filter
        (fun i => (f.mBits &&& (1 <<< i) % 2 ^ H.digits) != 0)).length := by
  unfold Flags.count
  generalize List.range H.Max_u_v = l
  have key : ∀ (l : List Nat) (c : Nat),
      l.foldl (fun c i => if (f.mBits &&& (1 <<< i) % 2 ^ H.digits) != 0 then c + 1 else c) c =
        c + (l.filter (fun i => (f.mBits &&& (1 <<< i) % 2 ^ H.digits) != 0)).length := by
    intro l
    induction l with
    | nil => intro c; rfl
    | cons x xs ih =>
      intro c
      simp only [List.foldl_cons, List.filter_cons]
      rw [ih]
      split
      · simp only [List.length_cons]
        omega
      · rfl
  rw [key l 0]
  simp

theorem count_eq_tests (H : FlagsHelper) (f : Flags) :
    f.count H = ((List.range H.Max_u_v).filter (fun e => f.test H e)).length := by
  rw [count_eq_filter]
  rfl

theorem Max_u_v_succ (H : FlagsHelper) (hH : EnumFlag H = true) : H.Max_u_v + 1 = H.count := by
  obtain ⟨hc0, -⟩ := EnumFlag_count H hH
  unfold FlagsHelper.Max_u_v
  omega

end EnumFlags

namespace EnumFlags

theorem All_eq (H : FlagsHelper) (hH : EnumFlag H = true) (h64 : H.digits ≤ 64) :
    All H = 2 ^ H.Max_u_v - 1 := by
  obtain ⟨hc0, hcd⟩ := EnumFlag_count H hH
  have hmax := Max_u_v_succ H hH
  unfold All
  rw [MaxRep_eq H (le_trans hcd h64)]
  apply Nat.mod_eq_of_lt
  have h1 : 2 ^ H.Max_u_v ≤ 2 ^ H.digits := Nat.pow_le_pow_right (by decide) (by omega)
  have h2 : 0 < 2 ^ H.Max_u_v := Nat.two_pow_pos _
  omega

theorem test_All (H : FlagsHelper) (hH : EnumFlag H = true) (h64 : H.digits ≤ 64) (e : Nat)
    (he : e < H.count) :
    Flags.test H ⟨All H⟩ e = decide (e < H.Max_u_v) := by
  obtain ⟨hc0, hcd⟩ := EnumFlag_count H hH
  rw [test_eq_testBit H _ e (by omega)]
  show (All H).testBit e = _
  rw [All_eq H hH h64, Nat.testBit_two_pow_sub_one]

theorem tolower_letter (c : Char) (x : Char) (hx : StdLib.isdigit x = false)
    (hx2 : StdLib.isalnum x = true) (h : StdLib.tolower c = x) :
    StdLib.isdigit c = false ∧ StdLib.isalnum c = true := by
  unfold StdLib.tolower at h
  split at h
  · rename_i hr
    simp only [Bool.and_eq_true, decide_eq_true_eq] at hr
    constructor
    · simp only [StdLib.isdigit, Bool.and_eq_false_iff, decide_eq_false_iff_not]
      right
      omega
    · simp only [StdLib.isalnum, Bool.or_eq_true, Bool.and_eq_true, decide_eq_true_eq]
      left
      right
      exact hr
  · subst h
    exact ⟨hx, hx2⟩

theorem setImpl_all (H : FlagsHelper) (f : Flags) (s : List Char) (base : Int)
    (hs : s.map StdLib.tolower = "all".toList) :
    setImpl H f s base = .ok ⟨All H⟩ := by
  have hl : s.length = 3 := by
    have := congrArg List.length hs
    simpa using this
  match s, hl with
  | [c1, c2, c3], _ =>
    simp only [List.map_cons, List.map_nil] at hs
    have hs' : StdLib.tolower c1 = 'a' ∧ StdLib.tolower c2 = 'l' ∧ StdLib.tolower c3 = 'l' := by
      have h0 : "all".toList = ['a', 'l', 'l'] := rfl
      rw [h0] at hs
      simp only [List.cons.injEq, and_true] at hs
      exact hs
    obtain ⟨h1, h2, h3⟩ := hs'
    obtain ⟨d1, a1⟩ := tolower_letter c1 'a' (by decide) (by decide) h1
    obtain ⟨-, a2⟩ := tolower_letter c2 'l' (by decide) (by decide) h2
    obtain ⟨-, a3⟩ := tolower_letter c3 'l' (by decide) (by decide) h3
    have hcs : ([c1, c2, c3].map StdLib.tolower == "all".toList) = true := by
      simp only [List.map_cons, List.map_nil, h1, h2, h3]
      decide
    unfold setImpl
    simp only [List.all_cons, d1, Bool.false_and, Bool.false_eq_true, if_false, a1, a2, a3,
      Bool.true_or, Bool.true_and, List.all_nil, Bool.and_self, if_true, hcs]

end EnumFlags

/-! ## Lemmas on `set` with a list of names -/

namespace StdLib

theorem getlines_no_delim (d : Char) (p : List Char) (hd : d ∉ p) (hp : p ≠ []) :
    getlines d p = [p] := by
  induction p with
  | nil => exact absurd rfl hp
  | cons c cs ih =>
    have hc : (c == d) = false := by
      have : c ≠ d := fun h => hd (by simp [h])
      simpa using this
    have hcs : d ∉ cs := fun h => hd (List.mem_cons_of_mem _ h)
    cases cs with
    | nil => simp [getlines, hc]
    | cons c2 cs2 =>
      have h1 := ih hcs (by simp)
      have h2 : getlines d (c :: c2 :: cs2) =
          (match getlines d (c2 :: cs2) with
           | [] => [[c]]
           | l :: ls => (c :: l) :: ls) := by
        simp only [getlines, hc, Bool.false_eq_true, if_false]
      rw [h2, h1]

theorem alnum_facts (c : Char) (h : isalnum c = true) :
    isspace c = false ∧ c ≠ '|' ∧ c ≠ ' ' ∧ c ≠ ':' := by
  have hn : (48 ≤ c.toNat ∧ c.toNat ≤ 57) ∨ (65 ≤ c.toNat ∧ c.toNat ≤ 90) ∨
      (97 ≤ c.toNat ∧ c.toNat ≤ 122) := by
    simp only [isalnum, isdigit, Bool.or_eq_true, Bool.and_eq_true, decide_eq_true_eq] at h
    rcases h with (h | h) | h
    · exact Or.inl h
    · exact Or.inr (Or.inl h)
    · exact Or.inr (Or.inr h)
  refine ⟨?_, ?_, ?_, ?_⟩
  · simp only [isspace, Bool.or_eq_false_iff, beq_eq_false_iff_ne, ne_eq, Bool.and_eq_false_iff,
      decide_eq_false_iff_not]
    constructor
    · omega
    · omega
  · intro hc
    subst hc
    revert hn
    decide
  · intro hc
    subst hc
    revert hn
    decide
  · intro hc
    subst hc
    revert hn
    decide

end StdLib

namespace EnumFlags

theorem nameChar_facts (c : Char) (h : nameChar c = true) :
    StdLib.isspace c = false ∧ c ≠ '|' ∧ c ≠ ' ' := by
  unfold nameChar at h
  simp only [Bool.or_eq_true, beq_iff_eq] at h
  rcases h with h | h
  · obtain ⟨h1, h2, h3, -⟩ := StdLib.alnum_facts c h
    exact ⟨h1, h2, h3⟩
  · subst h
    decide

theorem dropWhile_replicate_space (a : Nat) (r : List Char) :
    (List.replicate a ' ' ++ r).dropWhile StdLib.isspace = r.dropWhile StdLib.isspace := by
  induction a with
  | zero => rfl
  | succ k ih =>
    have hs : StdLib.isspace ' ' = true := by decide
    simp only [List.replicate_succ, List.cons_append, List.dropWhile_cons, hs, if_true, ih]

theorem dropWhile_of_head (n r : List Char) (c : Char) (hn : n.head? = some c)
    (hc : StdLib.isspace c = false) :
    (n ++ r).dropWhile StdLib.isspace = n ++ r := by
  cases n with
  | nil => cases hn
  | cons d ds =>
    simp only [List.head?_cons, Option.some.injEq] at hn
    subst hn
    simp [List.dropWhile_cons, hc]

theorem trim_spaces (a b : Nat) (n : List Char) (hne : n ≠ [])
    (hn : ∀ c ∈ n, StdLib.isspace c = false) :
    Str.trim (List.replicate a ' ' ++ n ++ List.replicate b ' ') = n := by
  obtain ⟨c, hc⟩ : ∃ c, n.head? = some c := by
    cases n with
    | nil => exact absurd rfl hne
    | cons d ds => exact ⟨d, rfl⟩
  have hcm : c ∈ n := List.mem_of_mem_head? hc
  obtain ⟨c2, hc2⟩ : ∃ c2, n.reverse.head? = some c2 := by
    cases hr : n.reverse with
    | nil => exact absurd (List.reverse_eq_nil_iff.mp hr) hne
    | cons d ds => exact ⟨d, rfl⟩
  have hc2m : c2 ∈ n := List.mem_reverse.mp (List.mem_of_mem_head? hc2)
  unfold Str.trim
  rw [List.append_assoc, dropWhile_replicate_space, dropWhile_of_head n _ c hc (hn c hcm),
    List.reverse_append, List.reverse_replicate, dropWhile_replicate_space,
    ← List.append_nil n.reverse, dropWhile_of_head n.reverse [] c2 hc2 (hn c2 hc2m)]
  simp

end EnumFlags

namespace EnumFlags

theorem plain_facts (H : FlagsHelper) (scope : List Char) (hP : PlainNames H scope = true) :
    H.Names.Nodup ∧ (∀ n ∈ H.Names, plainName n = true) ∧
      H.NamesScoped = H.Names.map (fun n => scope ++ n) ∧
      (∀ c ∈ scope, nameChar c = true) ∧ (scope = [] ∨ scope.getLast? = some ':') := by
  unfold PlainNames at hP
  simp only [Bool.and_eq_true, decide_eq_true_eq, List.all_eq_true, beq_iff_eq,
    Bool.or_eq_true, List.isEmpty_iff] at hP
  obtain ⟨⟨⟨⟨h1, h2⟩, h3⟩, h4⟩, h5⟩ := hP
  refine ⟨h1, h2, h3, ?_, h5⟩
  intro c hc
  have := h4 c hc
  simpa [nameChar] using this

theorem plainName_facts (n : List Char) (h : plainName n = true) :
    n ≠ [] ∧ (∀ c ∈ n, StdLib.isalnum c = true) ∧ ∃ c, n.head? = some c ∧ StdLib.isdigit c = false := by
  unfold plainName at h
  simp only [Bool.and_eq_true, List.all_eq_true, beq_iff_eq] at h
  obtain ⟨h1, h2⟩ := h
  cases n with
  | nil => simp at h2
  | cons d ds =>
    simp only [List.head?_cons, Option.map_some', Option.some.injEq] at h2
    exact ⟨by simp, h1, d, rfl, h2⟩

/-- The name an item writes, for a member of the enum. -/
theorem name_eq (H : FlagsHelper) (scope : List Char) (hP : PlainNames H scope = true)
    (x : NameItem) (hx : x.member < H.count) :
    ∃ n, H.Names[x.member]? = some n ∧ n ∈ H.Names ∧
      x.name H = (if x.withScope then scope else []) ++ n := by
  obtain ⟨-, -, h3, -, -⟩ := plain_facts H scope hP
  have hlt : x.member < H.Names.length := hx
  refine ⟨H.Names[x.member], List.getElem?_eq_getElem hlt, List.getElem_mem _, ?_⟩
  unfold NameItem.name
  by_cases hs : x.withScope = true
  · simp only [hs, if_true]
    rw [h3]
    simp [List.getD, hlt]
  · simp only [hs, Bool.false_eq_true, if_false, List.nil_append]
    simp [List.getD, hlt]

theorem name_chars (H : FlagsHelper) (scope : List Char) (hP : PlainNames H scope = true)
    (x : NameItem) (hx : x.member < H.count) :
    x.name H ≠ [] ∧ (∀ c ∈ x.name H, nameChar c = true) ∧
      (∃ c ∈ x.name H, StdLib.isdigit c = false) := by
  obtain ⟨-, h2, -, h4, -⟩ := plain_facts H scope hP
  obtain ⟨n, hn, hmem, hname⟩ := name_eq H scope hP x hx
  obtain ⟨p1, p2, c0, p3, p4⟩ := plainName_facts n (h2 n hmem)
  rw [hname]
  refine ⟨by simp [p1], ?_, c0, ?_, p4⟩
  · intro c hc
    rcases List.mem_append.mp hc with h | h
    · split at h
      · exact h4 c h
      · cases h
    · simp [nameChar, p2 c h]
  · exact List.mem_append_right _ (List.mem_of_mem_head? p3)

theorem text_facts (H : FlagsHelper) (scope : List Char) (hP : PlainNames H scope = true)
    (x : NameItem) (hx : x.member < H.count) :
    x.text H ≠ [] ∧ '|' ∉ x.text H ∧ Str.trim (x.text H) = x.name H ∧
      (∀ c ∈ x.text H, nameChar c = true ∨ c = ' ') := by
  obtain ⟨h1, h2, -⟩ := name_chars H scope hP x hx
  have hall : ∀ c ∈ x.text H, nameChar c = true ∨ c = ' ' := by
    intro c hc
    unfold NameItem.text at hc
    rcases List.mem_append.mp hc with h | h
    · rcases List.mem_append.mp h with h | h
      · exact Or.inr (List.eq_of_mem_replicate h)
      · exact Or.inl (h2 c h)
    · exact Or.inr (List.eq_of_mem_replicate h)
  refine ⟨?_, ?_, ?_, hall⟩
  · unfold NameItem.text
    simp [h1]
  · intro hc
    rcases hall _ hc with h | h
    · exact (nameChar_facts _ h).2.1 rfl
    · exact absurd h (by decide)
  · unfold NameItem.text
    exact trim_spaces _ _ _ h1 (fun c hc => (nameChar_facts c (h2 c hc)).1)

theorem getlines_joinNames (H : FlagsHelper) (scope : List Char) (hP : PlainNames H scope = true)
    (items : List NameItem) (hi : ∀ x ∈ items, x.member < H.count) :
    StdLib.getlines '|' (joinNames H items) = items.map (fun x => x.text H) := by
  induction items with
  | nil => rfl
  | cons x rest ih =>
    obtain ⟨t1, t2, -, -⟩ := text_facts H scope hP x (hi x (List.mem_cons_self _ _))
    cases rest with
    | nil =>
      simp only [joinNames, List.map_cons, List.map_nil]
      exact StdLib.getlines_no_delim _ _ t2 t1
    | cons y rest2 =>
      simp only [joinNames, List.map_cons]
      rw [StdLib.getlines_append_delim _ _ _ t2]
      have := ih (fun z hz => hi z (List.mem_cons_of_mem _ hz))
      simp only [List.map_cons] at this
      rw [this]

theorem tokenize_joinNames (H : FlagsHelper) (scope : List Char)
    (hP : PlainNames H scope = true)
    (items : List NameItem) (hi : ∀ x ∈ items, x.member < H.count) :
    Str.tokenize (joinNames H items) '|' = items.map (fun x => x.name H) := by
  unfold Str.tokenize
  rw [getlines_joinNames H scope hP items hi, List.map_map]
  induction items with
  | nil => rfl
  | cons x rest ih =>
    obtain ⟨-, -, t3, -⟩ := text_facts H scope hP x (hi x (List.mem_cons_self _ _))
    obtain ⟨n1, -, -⟩ := name_chars H scope hP x (hi x (List.mem_cons_self _ _))
    have hne : (x.name H).isEmpty = false := by
      cases h : x.name H with
      | nil => exact absurd h n1
      | cons _ _ => rfl
    simp only [List.map_cons, Function.comp, t3, List.filter_cons, hne, Bool.not_false, if_true]
    rw [← ih (fun z hz => hi z (List.mem_cons_of_mem _ hz))]

end EnumFlags

namespace EnumFlags

theorem find_range_unique (p : Nat → Bool) (n e : Nat) (he : e < n) (hpe : p e = true)
    (hu : ∀ i, i < n → p i = true → i = e) :
    (List.range n).find? p = some e := by
  induction n with
  | zero => omega
  | succ k ih =>
    rw [List.range_succ, List.find?_append]
    by_cases hk : e < k
    · rw [ih hk (fun i hi hp => hu i (by omega) hp)]
      rfl
    · have hek : e = k := by omega
      have hnone : (List.range k).find? p = none := by
        rw [List.find?_eq_none]
        intro i hi hp
        have := hu i (by have := List.mem_range.mp hi; omega) hp
        have := List.mem_range.mp hi
        omega
      rw [hnone]
      subst hek
      simp [List.find?, hpe]

theorem colon_in_scope (scope : List Char) (hne : scope ≠ [])
    (h : scope = [] ∨ scope.getLast? = some ':') : ':' ∈ scope := by
  rcases h with h | h
  · exact absurd h hne
  · exact List.mem_of_getLast?_eq_some h

theorem fromString_name (H : FlagsHelper) (scope : List Char) (hP : PlainNames H scope = true)
    (x : NameItem) (hx : x.member < H.count) :
    H.fromString (x.name H) = some x.member := by
  obtain ⟨hnd, h2, h3, h4, h5⟩ := plain_facts H scope hP
  obtain ⟨n, hn, hmem, hname⟩ := name_eq H scope hP x hx
  have hlen : x.member < H.Names.length := hx
  have hnE : H.Names[x.member] = n := by
    have := List.getElem?_eq_getElem hlen
    rw [this] at hn
    exact Option.some.inj hn
  have halnum : ∀ m ∈ H.Names, ':' ∉ m := by
    intro m hm hc
    have := (plainName_facts m (h2 m hm)).2.1 _ hc
    exact (StdLib.alnum_facts _ this).2.2.2 rfl
  have hscoped : ∀ i (hi : i < H.Names.length), H.NamesScoped[i]? = some (scope ++ H.Names[i]) := by
    intro i hi
    rw [h3]
    simp [hi]
  unfold FlagsHelper.fromString
  apply find_range_unique _ _ _ hx
  · rw [hname]
    by_cases hs : x.withScope = true
    · simp only [hs, if_true, hscoped _ hlen, hnE]
      simp
    · simp only [hs, Bool.false_eq_true, if_false, List.nil_append, hn]
      simp
  · intro i hi hp
    have hil : i < H.Names.length := hi
    simp only [List.getElem?_eq_getElem hil, hscoped i hil, Bool.or_eq_true, beq_iff_eq,
      Option.some.injEq] at hp
    have hinj : H.Names[i] = n → i = x.member := by
      intro h
      rw [← hnE] at h
      exact (List.Nodup.getElem_inj_iff hnd).mp h
    have hmi : H.Names[i] ∈ H.Names := List.getElem_mem _
    rw [hname] at hp
    by_cases hs : x.withScope = true
    · simp only [hs, if_true] at hp
      rcases hp with hp | hp
      · by_cases hsc : scope = []
        · rw [hsc] at hp
          exact hinj (by simpa using hp)
        · exfalso
          apply halnum _ hmi
          rw [hp]
          exact List.mem_append_left _ (colon_in_scope scope hsc h5)
      · exact hinj (List.append_cancel_left hp)
    · simp only [hs, Bool.false_eq_true, if_false, List.nil_append] at hp
      rcases hp with hp | hp
      · exact hinj hp
      · by_cases hsc : scope = []
        · rw [hsc] at hp
          exact hinj (by simpa using hp)
        · exfalso
          apply halnum _ hmem
          rw [← hp]
          exact List.mem_append_left _ (colon_in_scope scope hsc h5)

theorem setTokens_names (H : FlagsHelper) (scope : List Char) (hP : PlainNames H scope = true)
    (hcd : H.count ≤ H.digits)
    (items : List NameItem) (hi : ∀ x ∈ items, x.member < H.count) (f0 : Flags) :
    ∃ f1, setTokens H (items.map (fun x => x.name H)) f0 = .ok f1 ∧
      ∀ j, j < H.digits →
        f1.mBits.testBit j = (f0.mBits.testBit j || decide (j ∈ items.map (fun x => x.member))) := by
  induction items generalizing f0 with
  | nil => exact ⟨f0, rfl, fun j _ => by simp⟩
  | cons x rest ih =>
    have hx := hi x (List.mem_cons_self _ _)
    obtain ⟨f1, h1, h2⟩ := ih (fun z hz => hi z (List.mem_cons_of_mem _ hz))
      { mBits := (f0.mBits ||| to_bit H x.member) % 2 ^ H.digits }
    refine ⟨f1, ?_, ?_⟩
    · simp only [List.map_cons, setTokens, fromString_name H scope hP x hx]
      exact h1
    · intro j hj
      rw [h2 j hj]
      simp only [Nat.testBit_mod_two_pow, hj, decide_True, Bool.true_and, Nat.testBit_or,
        to_bit_eq H x.member (by omega), Nat.testBit_two_pow, List.map_cons, List.mem_cons]
      by_cases hjx : x.member = j
      · simp [hjx]
      · have : ¬ j = x.member := fun h => hjx h.symm
        simp [hjx, this]

end EnumFlags

namespace EnumFlags

theorem text_mem_joinNames (H : FlagsHelper) (x : NameItem) (rest : List NameItem) (c : Char)
    (hc : c ∈ x.text H) : c ∈ joinNames H (x :: rest) := by
  cases rest with
  | nil => exact hc
  | cons y r =>
    simp only [joinNames]
    exact List.mem_append_left _ hc

theorem joinNames_chars (H : FlagsHelper) (scope : List Char) (hP : PlainNames H scope = true)
    (items : List NameItem) (hi : ∀ x ∈ items, x.member < H.count) :
    ∀ c ∈ joinNames H items, nameChar c = true ∨ c = ' ' ∨ c = '|' := by
  induction items with
  | nil => intro c hc; cases hc
  | cons x rest ih =>
    obtain ⟨-, -, -, t4⟩ := text_facts H scope hP x (hi x (List.mem_cons_self _ _))
    intro c hc
    cases rest with
    | nil =>
      rcases t4 c hc with h | h
      · exact Or.inl h
      · exact Or.inr (Or.inl h)
    | cons y r =>
      simp only [joinNames] at hc
      rcases List.mem_append.mp hc with h | h
      · rcases t4 c h with h1 | h1
        · exact Or.inl h1
        · exact Or.inr (Or.inl h1)
      · rcases List.mem_cons.mp h with h1 | h1
        · exact Or.inr (Or.inr h1)
        · exact ih (fun z hz => hi z (List.mem_cons_of_mem _ hz)) c h1

theorem toLower_eq (c : Char) : toLower c = StdLib.tolower c := by
  unfold toLower StdLib.tolower
  split
  · rename_i h
    simp only [Bool.and_eq_true, decide_eq_true_eq] at h
    have : c.toNat - 65 + 97 = c.toNat + 32 := by omega
    rw [this]
  · rfl

theorem isIEqual_of_map (n w : List Char) (h : n.map StdLib.tolower = w)
    (hw : ∀ x ∈ w, StdLib.tolower x = x) : isIEqual n w = true := by
  subst h
  unfold isIEqual
  simp only [List.length_map, beq_self_eq_true, Bool.true_and, List.all_eq_true, beq_iff_eq]
  intro p hp
  rw [List.zip_map_right] at hp
  obtain ⟨q, hq, rfl⟩ := List.mem_map.mp hp
  obtain ⟨c, hc, rfl⟩ : ∃ c, c ∈ n ∧ q = (c, c) := by
    have : ∀ (l : List Char) (q : Char × Char), q ∈ l.zip l → ∃ c, c ∈ l ∧ q = (c, c) := by
      intro l
      induction l with
      | nil => intro q hq; cases hq
      | cons a as ih =>
        intro q hq
        simp only [List.zip_cons_cons, List.mem_cons] at hq
        rcases hq with h | h
        · exact ⟨a, by simp, h⟩
        · obtain ⟨c, h1, h2⟩ := ih q h
          exact ⟨c, by simp [h1], h2⟩
    exact this n q hq
  simp only [Prod.map_apply, id_eq, toLower_eq]
  exact (hw _ (List.mem_map_of_mem _ hc)).symm

end EnumFlags

namespace EnumFlags

theorem join_not_word (H : FlagsHelper) (scope : List Char) (hP : PlainNames H scope = true)
    (items : List NameItem) (hne : items ≠ []) (hi : ∀ x ∈ items, x.member < H.count)
    (w : List Char) (hw1 : '|' ∉ w) (hw2 : ' ' ∉ w) (hw3 : ':' ∉ w)
    (h : (joinNames H items).map StdLib.tolower = w) :
    ∃ n ∈ H.Names, n.map StdLib.tolower = w := by
  obtain ⟨-, -, -, -, h5⟩ := plain_facts H scope hP
  have hmem : ∀ c, StdLib.tolower c = c → c ∈ joinNames H items → c ∈ w := by
    intro c hc hin
    rw [← h, ← hc]
    exact List.mem_map_of_mem _ hin
  cases items with
  | nil => exact absurd rfl hne
  | cons x rest =>
    cases rest with
    | cons y r =>
      exfalso
      apply hw1
      apply hmem _ (by decide)
      simp [joinNames]
    | nil =>
      have hx := hi x (List.mem_cons_self _ _)
      obtain ⟨n, -, hnm, hname⟩ := name_eq H scope hP x hx
      have hjoin : joinNames H [x] =
          List.replicate x.before ' ' ++ x.name H ++ List.replicate x.after ' ' := rfl
      have hb : x.before = 0 := by
        by_contra hb
        apply hw2
        apply hmem _ (by decide)
        rw [hjoin]
        apply List.mem_append_left
        apply List.mem_append_left
        exact List.mem_replicate.mpr ⟨hb, rfl⟩
      have ha : x.after = 0 := by
        by_contra ha
        apply hw2
        apply hmem _ (by decide)
        rw [hjoin]
        apply List.mem_append_right
        exact List.mem_replicate.mpr ⟨ha, rfl⟩
      have hpre : (if x.withScope then scope else []) = [] := by
        by_contra hpre
        have hsc : x.withScope = true ∧ scope ≠ [] := by
          by_cases hs : x.withScope = true
          · simp only [hs, if_true] at hpre
            exact ⟨hs, hpre⟩
          · simp [hs] at hpre
        apply hw3
        apply hmem _ (by decide)
        rw [hjoin, hname]
        apply List.mem_append_left
        apply List.mem_append_right
        apply List.mem_append_left
        simp only [hsc.1, if_true]
        exact colon_in_scope scope hsc.2 h5
      refine ⟨n, hnm, ?_⟩
      rw [← h, hjoin, hname, hb, ha, hpre]
      simp

theorem EnumFlag_names (H : FlagsHelper) (hH : EnumFlag H = true) :
    H.hasNone = false ∧ H.hasAll = false := by
  unfold EnumFlag at hH
  simp only [Bool.and_eq_true, Bool.not_eq_true'] at hH
  exact ⟨hH.1.2, hH.2⟩

theorem setImpl_names (H : FlagsHelper) (hH : EnumFlag H = true) (scope : List Char)
    (hP : PlainNames H scope = true) (items : List NameItem) (hne : items ≠ [])
    (hi : ∀ x ∈ items, x.member < H.count) (f0 : Flags) (base : Int) :
    setImpl H f0 (joinNames H items) base =
      setTokens H (items.map (fun x => x.name H)) f0 := by
  obtain ⟨hnone, hall⟩ := EnumFlag_names H hH
  have hdig : (joinNames H items).all StdLib.isdigit = false := by
    cases items with
    | nil => exact absurd rfl hne
    | cons x rest =>
      obtain ⟨-, -, c, hc, hcd⟩ := name_chars H scope hP x (hi x (List.mem_cons_self _ _))
      have hct : c ∈ x.text H := by
        unfold NameItem.text
        exact List.mem_append_left _ (List.mem_append_right _ hc)
      have hin := text_mem_joinNames H x rest c hct
      rw [Bool.eq_false_iff]
      intro hall
      have := List.all_eq_true.mp hall c hin
      rw [hcd] at this
      cases this
  have hchars : (joinNames H items).all
      (fun c => StdLib.isalnum c || c == '|' || c == ' ' || c == ':') = true := by
    rw [List.all_eq_true]
    intro c hc
    rcases joinNames_chars H scope hP items hi c hc with h | h | h
    · unfold nameChar at h
      simp only [Bool.or_eq_true, beq_iff_eq] at h ⊢
      rcases h with h | h
      · exact Or.inl (Or.inl (Or.inl h))
      · exact Or.inr h
    · subst h; decide
    · subst h; decide
  have hnotall : ((joinNames H items).map StdLib.tolower == "all".toList) = false := by
    rw [Bool.eq_false_iff]
    intro hc
    have hc' := eq_of_beq hc
    obtain ⟨n, hn, hw⟩ := join_not_word H scope hP items hne hi "all".toList
      (by decide) (by decide) (by decide) hc'
    have : H.hasAll = true := by
      unfold FlagsHelper.hasAll
      rw [List.any_eq_true]
      exact ⟨n, hn, isIEqual_of_map n _ hw (by decide)⟩
    rw [hall] at this
    cases this
  have hnotnone : ((joinNames H items).map StdLib.tolower == "none".toList) = false := by
    rw [Bool.eq_false_iff]
    intro hc
    have hc' := eq_of_beq hc
    obtain ⟨n, hn, hw⟩ := join_not_word H scope hP items hne hi "none".toList
      (by decide) (by decide) (by decide) hc'
    have : H.hasNone = true := by
      unfold FlagsHelper.hasNone
      rw [List.any_eq_true]
      exact ⟨n, hn, isIEqual_of_map n _ hw (by decide)⟩
    rw [hnone] at this
    cases this
  unfold setImpl
  simp only [hdig, Bool.false_eq_true, if_false, hchars, if_true, hnotall, hnotnone,
    tokenize_joinNames H scope hP items hi]

end EnumFlags

namespace CTFReader

/-! ## Lemmas on the rebuild of the frame selector -/

end CTFReader

namespace CTFReader

theorem tryToFixCTFHeader_row (env : Env) (h : CTFHeader) (row : RunStartData)
    (hrow : row ∈ tf0Data) (hrun : row.run = h.run) :
    tryToFixCTFHeader env h =
      { h with creationTime := row.tstampMS0 +
          (if env.ceilOrbitsToMS
                ((h.firstTForbit + 2 ^ 32 - row.firstTForbit % 2 ^ 32) % 2 ^ 32) > 0
           then (env.ceilOrbitsToMS
                ((h.firstTForbit + 2 ^ 32 - row.firstTForbit % 2 ^ 32) % 2 ^ 32)).toNat
           else 0) } := by
  have hhead : tf0Data.head? = some ⟨505207, 133875, 1635322620830⟩ := rfl
  have hlast : tf0Data.getLast? = some ⟨505720, 5359903, 1635730673978⟩ := rfl
  have hfind := find_of_pairwise tf0Data h.run tf0Data_pairwise row hrow hrun
  have hb := tf0Data_bounds row hrow
  have hpre : h.run ≥ 505207 ∧ h.run ≤ 505720 := by
    rw [← hrun]
    exact hb
  unfold tryToFixCTFHeader
  rw [hhead, hlast]
  simp only [hfind, hpre, and_self, if_true]

theorem tf0Data_orbits : ∀ row ∈ tf0Data, row.firstTForbit < 2 ^ 32 := by
  decide

end CTFReader

/-! ## Lemmas on the device selection -/

namespace GPUReconstructionOCL

theorem scanDevices_eq (g : Bool) (ds : List Device) (i best : Nat) :
    scanDevices g ds i best = (lastEligible g ds i).getD best := by
  induction ds generalizing i best with
  | nil => rfl
  | cons d rest ih =>
    have hs : deviceSpeed d > -1 := by
      unfold deviceSpeed
      have : (0 : Int) ≤ (d.freq : Int) * (d.shaders : Int) :=
        Int.mul_nonneg (Int.ofNat_nonneg _) (Int.ofNat_nonneg _)
      omega
    unfold scanDevices lastEligible
    by_cases hok : deviceOK g d = true
    · simp only [hok, Bool.not_true, Bool.false_eq_true, if_false, hs, if_true, ih]
      cases lastEligible g rest (i + 1) <;> rfl
    · simp only [hok, Bool.not_false, if_true, ih]
      cases lastEligible g rest (i + 1) <;> simp [hok]

theorem lastEligible_none (g : Bool) (ds : List Device) (i : Nat)
    (h : lastEligible g ds i = none) : ∀ d ∈ ds, deviceOK g d = false := by
  induction ds generalizing i with
  | nil => intro d hd; cases hd
  | cons a as iha =>
    intro d hd
    unfold lastEligible at h
    cases hq : lastEligible g as (i + 1) with
    | some q => rw [hq] at h; cases h
    | none =>
      rw [hq] at h
      simp only at h
      rcases List.mem_cons.mp hd with h6 | h6
      · subst h6
        by_contra hcon
        simp only [Bool.not_eq_false] at hcon
        rw [if_pos hcon] at h
        cases h
      · exact iha (i + 1) hq d h6

theorem lastEligible_spec (g : Bool) (ds : List Device) (i j : Nat)
    (h : lastEligible g ds i = some j) :
    i ≤ j ∧ j < i + ds.length ∧ (∃ d, ds[j - i]? = some d ∧ deviceOK g d = true) ∧
      ∀ k d, j < k → ds[k - i]? = some d → deviceOK g d = false := by
  induction ds generalizing i with
  | nil => cases h
  | cons d rest ih =>
    unfold lastEligible at h
    cases hr : lastEligible g rest (i + 1) with
    | some j2 =>
      rw [hr] at h
      simp only [Option.some.injEq] at h
      subst h
      obtain ⟨h1, h2, ⟨d2, h3, h4⟩, h5⟩ := ih (i + 1) hr
      refine ⟨by omega, by simp only [List.length_cons]; omega, ⟨d2, ?_, h4⟩, ?_⟩
      · have : j2 - i = (j2 - (i + 1)) + 1 := by omega
        rw [this, List.getElem?_cons_succ]
        exact h3
      · intro k d3 hk hd3
        apply h5 k d3 hk
        have : k - i = (k - (i + 1)) + 1 := by omega
        rw [this, List.getElem?_cons_succ] at hd3
        exact hd3
    | none =>
      rw [hr] at h
      simp only at h
      split at h
      · rename_i hok
        simp only [Option.some.injEq] at h
        subst h
        refine ⟨le_refl _, by simp only [List.length_cons]; omega, ⟨d, by simp, hok⟩, ?_⟩
        intro k d3 hk hd3
        have hk2 : k - i = (k - (i + 1)) + 1 := by omega
        rw [hk2, List.getElem?_cons_succ] at hd3
        exact lastEligible_none g rest (i + 1) hr d3 (List.getElem?_mem hd3)
      · cases h

end GPUReconstructionOCL

/-! ## Lemmas on the binary search -/

namespace TimeFrame

/-- On a non-decreasing table `std::lower_bound` returns the first position
whose value is not below `val`. -/
theorem lower_bound_spec (v : List Int) (val : Int)
    (hs : ∀ a b, a ≤ b → b < v.length → v.getD a 0 ≤ v.getD b 0)
    (fuel first len : Nat) (hfuel : len ≤ fuel) (hlen : first + len ≤ v.length)
    (hlo : ∀ j, j < first → v.getD j 0 < val)
    (hhi : ∀ j, first + len ≤ j → j < v.length → val ≤ v.getD j 0) :
    first ≤ lower_bound v val fuel first len ∧
    lower_bound v val fuel first len ≤ first + len ∧
    (∀ j, j < lower_bound v val fuel first len → v.getD j 0 < val) ∧
    (∀ j, lower_bound v val fuel first len ≤ j → j < v.length → val ≤ v.getD j 0) := by
  induction fuel generalizing first len with
  | zero =>
    have : len = 0 := by omega
    subst this
    exact ⟨le_refl _, by simp [lower_bound], hlo, hhi⟩
  | succ f ih =>
    unfold lower_bound
    by_cases h0 : len = 0
    · subst h0
      simp only [if_true]
      exact ⟨le_refl _, by omega, hlo, hhi⟩
    · simp only [h0, if_false]
      have hhalf : len / 2 < len := Nat.div_lt_self (by omega) (by decide)
      by_cases hm : v.getD (first + len / 2) 0 < val
      · simp only [hm, if_true]
        obtain ⟨r1, r2, r3, r4⟩ := ih (first + len / 2 + 1) (len - len / 2 - 1)
          (by omega) (by omega)
          (by
            intro j hj
            have hle : j ≤ first + len / 2 := by omega
            have := hs j (first + len / 2) hle (by omega)
            omega)
          (by
            intro j hj hjl
            exact hhi j (by omega) hjl)
        exact ⟨by omega, by omega, r3, r4⟩
      · simp only [hm, if_false]
        obtain ⟨r1, r2, r3, r4⟩ := ih first (len / 2) (by omega) (by omega) hlo
          (by
            intro j hj hjl
            have := hs (first + len / 2) j hj hjl
            omega)
        exact ⟨r1, by omega, r3, r4⟩

end TimeFrame

namespace CTFReader

/-! ## The claims -/

/-- Counterexample to C1 as stated: the ID list `[3]`, no frame selector,
`max-tf` unbounded and a source of one container of 5 entries (more than 3),
read with `max-tf-per-file = 2`: the reader visits the raw positions 0 and 1,
closes the container, finds the supply finished and stops; no entry is
emitted. -/
theorem id_beyond_per_file_limit_not_emitted :
    ((exFile 1 5).tree.map List.length = some 5) ∧
    ((runCalls { exCfg with ctfIDs := [3], maxTFsPerFile := limitOf 2 } exEnv 4
        (Reader.start exFetcher5 false 0)).state.map
      (fun s => (s.mRunning, s.outputs, readPositions s.log, s.mCTFCounter))) =
      some (false, [], [], 2) := by
  constructor
  · rfl
  · decide

/-- C1, amended: for a strictly increasing explicit ID list with all IDs
below `2 ^ 31 - 1`, no frame selector and no run/time-range table (the reader
as `init` leaves it), `max-tf` unbounded, and a supply whose containers,
each counted up to the per-file limit and not at all if it fails to open,
together offer more entries than the largest ID, all of which can be sent
(header found, no enabled detector missing unless allowed): after `k` calls
of `run` the raw positions of the entries read and sent are the first `k` IDs
in order, the outputs are exactly the messages of the entries at these
positions, one header record per call, and the reader is still running
exactly as long as `k` is less than the number of IDs: the call that sends
the last ID stops it, and further calls do not happen. -/
theorem explicit_ids_are_emitted (cfg : CTFReaderInp) (env : Env) (ff : FileFetcher)
    (useLocalTFCounter : Bool) (imposeRunStartMS : Nat) (v : Int) (k : Nat)
    (hne : cfg.ctfIDs ≠ []) (hsorted : cfg.ctfIDs.Pairwise (· < ·))
    (hint : ∀ x ∈ cfg.ctfIDs, x < 0x7fffffff)
    (hv : v ≤ 0) (hmax : cfg.maxTFs = limitOf v)
    (hsrc : ∀ x ∈ cfg.ctfIDs, x < (sourceSlots cfg ff.queue).length)
    (hgood : ∀ sl ∈ sourceSlots cfg ff.queue, goodSlot cfg sl) :
    ∃ s, runCalls cfg env k (Reader.start ff useLocalTFCounter imposeRunStartMS) = .done s ∧
      readPositions s.log = cfg.ctfIDs.take k ∧
      s.outputs = emittedAt cfg env imposeRunStartMS useLocalTFCounter
        (sourceSlots cfg ff.queue) 0 (cfg.ctfIDs.take k) ∧
      (headersOf s.outputs).length = min k cfg.ctfIDs.length ∧
      s.mRunning = decide (k < cfg.ctfIDs.length) := by
  obtain ⟨hclean, hpend⟩ := clean_start cfg ff useLocalTFCounter imposeRunStartMS hgood
  have hmax1 : cfg.maxTFs = 0x7fffffff := by
    rw [hmax]; unfold limitOf; rw [if_neg (by omega)]
  have hplan := plan_of_ids cfg hmax1 cfg.ctfIDs [] 0 rfl hsorted hint (fun _ _ => Nat.zero_le _)
  obtain ⟨s, hcalls, ho, hrd, hrn, _, _⟩ :=
    calls_follow_plan cfg env (sourceSlots cfg ff.queue) cfg.ctfIDs
      (Reader.start ff useLocalTFCounter imposeRunStartMS) k hne hclean hplan hsrc
      (by rw [hpend]; rfl)
  refine ⟨s, hcalls, by simpa [Reader.start] using hrd, by simpa [Reader.start] using ho,
    ?_, hrn⟩
  have ho1 : s.outputs = emittedAt cfg env imposeRunStartMS useLocalTFCounter
      (sourceSlots cfg ff.queue) 0 (cfg.ctfIDs.take k) := by
    simpa [Reader.start] using ho
  rw [ho1, headersOf_emittedAt_length cfg env _ _ _ hgood _ 0
    (fun x hx => hsrc x (List.mem_of_mem_take hx)), List.length_take]

/-- Witness of C1, amended: the ID list `[3, 7, 9]` on a supply of two
containers of 4 and 6 entries, three calls. -/
theorem explicit_ids_are_emitted_witness :
    ∃ s, runCalls exCfgIDs exEnv 3 (Reader.start exFetcher false 0) = .done s ∧
      readPositions s.log = [3, 7, 9].take 3 ∧
      s.outputs = emittedAt exCfgIDs exEnv 0 false
        (sourceSlots exCfgIDs exFetcher.queue) 0 ([3, 7, 9].take 3) ∧
      (headersOf s.outputs).length = min 3 3 ∧
      s.mRunning = decide (3 < 3) :=
  explicit_ids_are_emitted exCfgIDs exEnv exFetcher false 0 (-1) 3 (by decide) (by decide)
    (by decide) (by decide) (by decide) (by decide) (goodSlot_of_check _ _ (by decide))

/-- Counterexample to C2 as stated: `max-tf = 2`, no ID list, no frame
selector and a source of one container of 5 entries (at least 2), read with
`max-tf-per-file = 1`: the first call of `run` emits one entry and stops the
reader, because the container is closed after its first entry and the supply
is finished; a second entry is never emitted. -/
theorem per_file_limit_ends_before_max_tf :
    ((exFile 1 5).tree.map List.length = some 5) ∧
    ((runCalls { exCfg with maxTFs := limitOf 2, maxTFsPerFile := limitOf 1 } exEnv 2
        (Reader.start exFetcher5 false 0)).state.map
      (fun s => (s.mRunning, (headersOf s.outputs).length, readPositions s.log))) =
      some (false, 1, [0]) := by
  constructor
  · rfl
  · decide

/-- C2, amended: for `max-tf = N > 0`, no ID list, no frame selector and no
run/time-range table (the reader as `init` leaves it), and a supply whose
containers, each counted up to the per-file limit and not at all if it fails
to open, together offer at least `N` entries, all of which can be sent:
after `k` calls of `run` exactly `min k N` entries have been emitted, one per
call, those at the raw positions `0, 1, ...`; the reader is running exactly
as long as `k < N`: the call that emits the `N`-th entry stops it and signals
end-of-stream and quit, so no further entry is emitted whatever the supply
still holds. -/
theorem max_tf_entries_are_emitted (cfg : CTFReaderInp) (env : Env) (ff : FileFetcher)
    (useLocalTFCounter : Bool) (imposeRunStartMS : Nat) (N k : Nat)
    (hN : 0 < N) (hmax : cfg.maxTFs = limitOf (N : Int)) (hids : cfg.ctfIDs = [])
    (hsrc : N ≤ (sourceSlots cfg ff.queue).length)
    (hgood : ∀ sl ∈ sourceSlots cfg ff.queue, goodSlot cfg sl) :
    ∃ s, runCalls cfg env k (Reader.start ff useLocalTFCounter imposeRunStartMS) = .done s ∧
      readPositions s.log = (List.range' 0 N).take k ∧
      s.outputs = emittedAt cfg env imposeRunStartMS useLocalTFCounter
        (sourceSlots cfg ff.queue) 0 ((List.range' 0 N).take k) ∧
      (headersOf s.outputs).length = min k N ∧
      s.mRunning = decide (k < N) ∧
      (N ≤ k → s.endOfStream = true ∧ s.readyToQuit = true) := by
  obtain ⟨hclean, hpend⟩ := clean_start cfg ff useLocalTFCounter imposeRunStartMS hgood
  have hmax1 : cfg.maxTFs = 0 + N := by
    rw [hmax]; unfold limitOf
    rw [if_pos (by omega)]; simp
  have hplan := plan_of_maxTFs cfg hids N 0 0 hmax1
  have hin : ∀ x ∈ List.range' 0 N, x < (sourceSlots cfg ff.queue).length := by
    intro x hx
    have := List.mem_range'_1.mp hx
    omega
  obtain ⟨s, hcalls, ho, hrd, hrn, _, hend⟩ :=
    calls_follow_plan cfg env (sourceSlots cfg ff.queue) (List.range' 0 N)
      (Reader.start ff useLocalTFCounter imposeRunStartMS) k
      (by intro h; have := congrArg List.length h; simp at this; omega)
      hclean hplan hin (by rw [hpend]; rfl)
  have ho1 : s.outputs = emittedAt cfg env imposeRunStartMS useLocalTFCounter
      (sourceSlots cfg ff.queue) 0 ((List.range' 0 N).take k) := by
    simpa [Reader.start] using ho
  refine ⟨s, hcalls, by simpa [Reader.start] using hrd, ho1, ?_, by simpa using hrn, ?_⟩
  · rw [ho1, headersOf_emittedAt_length cfg env _ _ _ hgood _ 0
      (fun x hx => hin x (List.mem_of_mem_take hx)), List.length_take]
    simp
  · intro hk
    obtain ⟨e1, e2, _⟩ := hend (by simpa using hk)
    exact ⟨e1, e2⟩

/-- Witness of C2, amended: `max-tf = 2` on a supply of two containers of 4
and 6 entries, two calls. -/
theorem max_tf_entries_are_emitted_witness :
    ∃ s, runCalls exCfgMax2 exEnv 2 (Reader.start exFetcher false 0) = .done s ∧
      readPositions s.log = (List.range' 0 2).take 2 ∧
      s.outputs = emittedAt exCfgMax2 exEnv 0 false
        (sourceSlots exCfgMax2 exFetcher.queue) 0 ((List.range' 0 2).take 2) ∧
      (headersOf s.outputs).length = min 2 2 ∧
      s.mRunning = decide (2 < 2) ∧
      (2 ≤ 2 → s.endOfStream = true ∧ s.readyToQuit = true) :=
  max_tf_entries_are_emitted exCfgMax2 exEnv exFetcher false 0 2 2 (by decide) (by decide) rfl
    (by decide) (goodSlot_of_check _ _ (by decide))

/-- C4: every sequence of calls of `run`, started from the reader as `init`
leaves it (running, nothing emitted, accepted counter 0; any frame selector,
any configuration), ends normally or with a fatal error, and when it does not
end in a fatal error the accepted counter `mCTFCounterAcc` equals the number
of header records emitted so far; with the local counter in use the
`tfCounter` values of the emitted headers are `0, 1, 2, ...` without gap or
repeat; and once the reader has stopped the summary file holds the number of
emitted headers.  A pass that sends an entry raises the accepted counter by
exactly 1, and a pass over an entry that is skipped by the ID list or
rejected by the frame selection leaves it, and the outputs, unchanged. -/
theorem accepted_counter_counts_headers (cfg : CTFReaderInp) (env : Env) (s0 : Reader)
    (k : Nat) (hrun : s0.mRunning = true) (hacc : s0.mCTFCounterAcc = 0)
    (hout : s0.outputs = []) :
    runCalls cfg env k s0 ≠ .outOfFuel ∧
    (∀ s, runCalls cfg env k s0 = .done s →
      s.mCTFCounterAcc = (headersOf s.outputs).length ∧
      (s.mUseLocalTFCounter = true →
        (headersOf s.outputs).map (fun h => h.tfCounter) =
          List.range (headersOf s.outputs).length) ∧
      (s.mRunning = false → s.summary = some (headersOf s.outputs).length)) ∧
    (∀ tree t w t1, visitEntry cfg env tree t w = .brk t1 →
      t1.mCTFCounterAcc = t.mCTFCounterAcc + 1) ∧
    (∀ tree t w t1 w1, visitEntry cfg env tree t w = .cont t1 w1 →
      t1.mCTFCounterAcc = t.mCTFCounterAcc ∧ t1.outputs = t.outputs) := by
  refine ⟨runCalls_ne_outOfFuel cfg env k s0, ?_, ?_, ?_⟩
  · intro s hcalls
    obtain ⟨a, b, c⟩ := counted_calls cfg env k s0 s hcalls
      (by rw [hacc, hout]; rfl) (by intro _; rw [hacc, hout]; rfl)
      (by intro h; rw [hrun] at h; cases h)
    refine ⟨a, ?_, ?_⟩
    · intro h; rw [← a]; exact b h
    · intro h; rw [← a]; exact c h
  · intro tree t w t1 h
    exact (visitEntry_brk cfg env tree t w t1 h).2.2.2.2.2.1
  · intro tree t w t1 w1 h
    have := visitEntry_cont cfg env tree t w t1 w1 h
    exact ⟨this.2.2.2.2.2.1, this.2.2.2.2.2.2.1⟩

/-- Witness of C4: three calls of `run` on `exFetcher` with the local counter
in use. -/
theorem accepted_counter_counts_headers_witness :
    exAfter3.mCTFCounterAcc = (headersOf exAfter3.outputs).length ∧
    (exAfter3.mUseLocalTFCounter = true →
      (headersOf exAfter3.outputs).map (fun h => h.tfCounter) =
        List.range (headersOf exAfter3.outputs).length) :=
  have h := (accepted_counter_counts_headers exCfg exEnv (Reader.start exFetcher true 0)
    3 rfl rfl rfl).2.1 exAfter3 rfl
  ⟨h.1, h.2.1⟩

/-- C5: with the frame selector set (after the update of lines 417-420), the
first part of `processTF` decides by the truth table over `matches`
(`getMatchingFrames` returned a non-empty list), `invert` and `skip`: with
`skip` the entry is accepted iff `matches` differs from `invert` and is
rejected otherwise; without `skip` it is accepted in all four cases; an
accepted entry gets the list of matched frames as its `selIRFrames` output;
and `processTF` returns `false` exactly for a rejected entry. -/
theorem selectTF_truth_table (cfg : CTFReaderInp) (env : Env) (tree : List Entry)
    (s : Reader) (h0 : CTFHeader) (s2 : Reader)
    (hr : readFromTree tree s.mCurrTreeEntry = some h0)
    (hu : updateSelector env s
      (prepareHeader env s.mImposeRunStartMS s.mUseLocalTFCounter s.mCTFCounterAcc h0).run =
        .ok () s2)
    (hset : s2.mIRFrameSelector.isSet = true) :
    let h := prepareHeader env s.mImposeRunStartMS s.mUseLocalTFCounter s.mCTFCounterAcc h0
    let irSpan := s2.mIRFrameSelector.getMatchingFrames env.LHCMaxBunches
      (queryWindow env s2.mTFLength h.firstTForbit)
    let accepted := Selection.accepted h { s2 with outputs := s2.outputs ++ [.selIRFrames irSpan] }
    (cfg.skipSkimmedOutTF = true →
      ((decide (irSpan ≠ []) != cfg.invertIRFramesSelection) = true →
        selectTF cfg env tree s = accepted) ∧
      ((decide (irSpan ≠ []) != cfg.invertIRFramesSelection) = false →
        selectTF cfg env tree s = .rejected s2)) ∧
    (cfg.skipSkimmedOutTF = false → selectTF cfg env tree s = accepted) ∧
    (processTF cfg env tree s = .ok false s2 ↔ selectTF cfg env tree s = .rejected s2) := by
  intro h irSpan accepted
  refine ⟨?_, ?_, ⟨processTF_false cfg env tree s s2, fun hrej => by
    unfold processTF; rw [hrej]⟩⟩
  · rw [selectTF_of_ok cfg env tree s h0 s2 hr hu]
    refine fun hs => ⟨fun hx => ?_, fun hx => ?_⟩
    · simp only [hset, if_true]
      rw [if_neg]
      rintro ⟨_, h2⟩
      rw [hx] at h2; cases h2
    · simp only [hset, if_true]
      rw [if_pos ⟨hs, hx⟩]
  · rw [selectTF_of_ok cfg env tree s h0 s2 hr hu]
    intro hs
    simp only [hset, if_true]
    rw [if_neg]
    rintro ⟨h1, _⟩
    rw [hs] at h1; cases h1

/-- Witness of C5: entry 0 (orbits 0 to 127) of `exFile 1 4` against the
window of orbits 0 to 40, with `skip` on and `invert` off: accepted. -/
theorem selectTF_truth_table_witness :
    selectTF exCfg exEnv ((List.range 4).map (fun i => exEntry (32 * i) [.ITS, .TPC]))
        exWithSelector =
      .accepted (exHeader 0 [.ITS, .TPC])
        { exWithSelector with
          mRunNumberPrev := 1,
          outputs := [.selIRFrames
            [{ min := { bc := 0, orbit := 0 }, max := { bc := 3564, orbit := 40 } }]] } :=
  ((selectTF_truth_table exCfg exEnv ((List.range 4).map (fun i => exEntry (32 * i) [.ITS, .TPC]))
    exWithSelector (exHeader 0 [.ITS, .TPC]) { exWithSelector with mRunNumberPrev := 1 }
    rfl rfl rfl).1 rfl).1 (by decide)

/-- C6: for a container opened successfully by `openCTFFile`, with `n >= 1`
entries and the per-file limit `m = maxTFsPerFile > 0` (as `init` leaves it),
and as long as the reader has not stopped and no pass has thrown: after `k`
passes, `k < min n m`, the entries visited in this container (accepted,
skipped or rejected) are `0, ..., k - 1` in this order, each once, the tree
is still open with the cursor on `k < n`, and the queue is untouched (no
`popFromQueue` call yet); the next pass visits entry `k`, and it releases the
queue item, by exactly one call `popFromQueue(maxLoops < 1)`, and closes the
tree if and only if `k + 1 = min n m`, that is after the last of the entries
`0, ..., min n m - 1` has been visited. -/
theorem container_drained_once (cfg : CTFReaderInp) (env : Env) (s0 : Reader) (f : CTFFile)
    (tree : List Entry) (ff : FileFetcher) (k : Nat) (s1 : Reader)
    (hopen : f.isOpen = true) (htree : f.tree = some tree) (hn : 1 ≤ tree.length)
    (hm : 0 < cfg.maxTFsPerFile) (hf : s0.mFileFetcher = some ff)
    (hk : k < min tree.length cfg.maxTFsPerFile)
    (hd : drain cfg env tree k (openCTFFile cfg s0 f) = some s1) :
    (s1.mCTFTree = some tree ∧ s1.mCurrTreeEntry = k ∧ k < tree.length ∧
      s1.mFileFetcher = some ff ∧
      visitedEntries (s1.log.drop s0.log.length) = List.range' 0 k) ∧
    ∀ w s2, (visitEntry cfg env tree s1 w).state = some s2 →
      visitedEntries (s2.log.drop s0.log.length) = List.range' 0 (k + 1) ∧
      (k + 1 < min tree.length cfg.maxTFsPerFile →
        s2.mCTFTree = some tree ∧ s2.mCurrTreeEntry = k + 1 ∧ s2.mFileFetcher = some ff) ∧
      (k + 1 = min tree.length cfg.maxTFsPerFile →
        s2.mCTFTree = none ∧
        s2.mFileFetcher = some { ff with queue := ff.queue.tail,
                                         popped := ff.popped ++ [decide (cfg.maxLoops < 1)] }) := by
  have hpfc : perFileCount cfg tree.length = min tree.length cfg.maxTFsPerFile := by
    unfold perFileCount; rw [if_pos hm]
  have hl : ¬ tree.length < 1 := by omega
  rw [openCTFFile_good cfg s0 f tree hopen htree hl] at hd
  obtain ⟨a, b, c, l, hlog, hvis⟩ := drain_open cfg env tree ff k
    { s0 with mFilesRead := s0.mFilesRead + 1, mCTFFile := some f.name, mCTFTree := some tree,
              mCurrTreeEntry := 0 } s1 rfl hf
    (by rw [hpfc]; simpa using hk) hd
  simp only [] at b hlog hvis
  have b1 : s1.mCurrTreeEntry = k := by omega
  have hdrop : s1.log.drop s0.log.length = l := by rw [hlog]; simp
  refine ⟨⟨a, b1, by omega, c, by rw [hdrop, hvis]⟩, ?_⟩
  intro w s2 hv
  obtain ⟨h1, h2, h3, _, _, r, hlog2, hr⟩ := visitEntry_state cfg env tree s1 w s2 hv
  simp only [checkTreeEntries_mCTFTree, checkTreeEntries_mFileFetcher, hpfc, b1] at h1 h3
  refine ⟨?_, ?_, ?_⟩
  · have : s2.log.drop s0.log.length = l ++ [r] := by rw [hlog2, hlog]; simp
    rw [this, visitedEntries_append, hvis, hr, b1, List.range'_concat]
    simp
  · intro hlt
    have : ¬ (k + 1 ≥ min tree.length cfg.maxTFsPerFile) := by omega
    rw [if_neg this] at h1 h3
    exact ⟨by rw [h1, a], by rw [h2, b1], by rw [h3, c]⟩
  · intro heq
    have : k + 1 ≥ min tree.length cfg.maxTFsPerFile := by omega
    rw [if_pos this] at h1 h3
    refine ⟨h1, ?_⟩
    rw [h3, c]
    rfl

/-- Witness of C6: the container `exFile 1 4` after two passes. -/
theorem container_drained_once_witness :
    exDrained2.mCTFTree.isSome = true ∧ exDrained2.mCurrTreeEntry = 2 ∧
      exDrained2.mFileFetcher.isSome = true ∧
      visitedEntries (exDrained2.log.drop 0) = List.range' 0 2 :=
  have h := (container_drained_once exCfg exEnv (Reader.start exFetcher false 0) (exFile 1 4)
    ((List.range 4).map (fun i => exEntry (32 * i) [.ITS, .TPC])) exFetcher 2 exDrained2
    rfl rfl (by decide) (by decide) rfl (by decide) rfl).1
  ⟨by rw [h.1]; rfl, h.2.1, by rw [h.2.2.2.1]; rfl, h.2.2.2.2⟩

/-- C7: for a container that does not open, has no CTF tree, or whose tree
has fewer than one entry, `openCTFFile` (which cannot throw: it returns a
state) raises the failed-file counter by exactly 1, leaves no container open
and the entry cursor at 0, calls `popFromQueue` exactly once (the head of the
queue is dropped, one call is recorded, with `discard = maxLoops < 1`), and
leaves the raw counter, the accepted counter, the ID-selection index, the
outputs and the entry log unchanged; the next pass of the loop of `run`
fetches a file and visits no entry. -/
theorem openCTFFile_failed_container (cfg : CTFReaderInp) (env : Env) (s : Reader)
    (f : CTFFile) (w : Bool)
    (hbad : f.isOpen = false ∨ f.tree = none ∨ ∃ t, f.tree = some t ∧ t.length < 1) :
    (openCTFFile cfg s f).mNFailedFiles = s.mNFailedFiles + 1 ∧
    (openCTFFile cfg s f).mCTFTree = none ∧
    (openCTFFile cfg s f).mCTFFile = none ∧
    (openCTFFile cfg s f).mCurrTreeEntry = 0 ∧
    (∀ ff, s.mFileFetcher = some ff →
      (openCTFFile cfg s f).mFileFetcher =
        some { ff with queue := ff.queue.tail,
                       popped := ff.popped ++ [decide (cfg.maxLoops < 1)] }) ∧
    (openCTFFile cfg s f).mCTFCounter = s.mCTFCounter ∧
    (openCTFFile cfg s f).mCTFCounterAcc = s.mCTFCounterAcc ∧
    (openCTFFile cfg s f).mSelIDEntry = s.mSelIDEntry ∧
    (openCTFFile cfg s f).outputs = s.outputs ∧
    (openCTFFile cfg s f).log = s.log ∧
    runStep cfg env (openCTFFile cfg s f) w = fetchFile cfg (openCTFFile cfg s f) w := by
  have hopen : openCTFFile cfg s f =
      { s with mFilesRead := s.mFilesRead + 1, mCTFTree := none, mCTFFile := none,
               mNFailedFiles := s.mNFailedFiles + 1,
               mFileFetcher := s.mFileFetcher.map
                 (FileFetcher.popFromQueue (decide (cfg.maxLoops < 1))),
               mCurrTreeEntry := 0 } := by
    unfold openCTFFile
    rcases hbad with h | h | ⟨t, h, ht⟩
    · simp [h]
    · simp [h]
    · have : t.length < 1 := ht
      by_cases ho : f.isOpen = true <;> simp [h, ho, this]
  rw [hopen]
  refine ⟨rfl, rfl, rfl, rfl, ?_, rfl, rfl, rfl, rfl, rfl, rfl⟩
  intro ff hff
  simp [hff, FileFetcher.popFromQueue]

/-- Witness of C7: a container that does not open, offered to the reader as
`init` leaves it. -/
theorem openCTFFile_failed_container_witness :
    (openCTFFile exCfg (Reader.start exFetcher false 0) exBadFile).mNFailedFiles = 0 + 1 ∧
    (openCTFFile exCfg (Reader.start exFetcher false 0) exBadFile).mCTFTree.isNone = true ∧
    (openCTFFile exCfg (Reader.start exFetcher false 0) exBadFile).mCurrTreeEntry = 0 :=
  have h := openCTFFile_failed_container exCfg exEnv (Reader.start exFetcher false 0)
    exBadFile false (Or.inl rfl)
  ⟨h.1, by rw [h.2.1]; rfl, h.2.2.2.1⟩

/-- C8: for an accepted entry (the first part of `processTF` accepts it with
the prepared header `h`, whose detector mask is that of the stored header),
`processTF` ends in a fatal error if and only if missing detectors are not
allowed and some detector is enabled in the reader's mask and absent from the
header; when missing detectors are allowed it returns `true`. -/
theorem processTF_fatal_iff_missing_detector (cfg : CTFReaderInp) (env : Env)
    (tree : List Entry) (s : Reader) (h : CTFHeader) (s0 : Reader)
    (hsel : selectTF cfg env tree s = .accepted h s0) :
    (∃ h0, readFromTree tree s.mCurrTreeEntry = some h0 ∧ h.detectors = h0.detectors) ∧
    ((∃ e s1, processTF cfg env tree s = .fatal e s1) ↔
      (cfg.allowMissingDetectors = false ∧ ∃ d, d ∈ cfg.detMask ∧ d ∉ h.detectors)) ∧
    (cfg.allowMissingDetectors = true → ∃ s1, processTF cfg env tree s = .ok true s1) := by
  have hp : processTF cfg env tree s = sendTF cfg tree h s0 := by
    unfold processTF; rw [hsel]
  refine ⟨?_, ⟨?_, ?_⟩, ?_⟩
  · obtain ⟨h0, hr, hh⟩ := selectTF_accepted_header cfg env tree s h s0 hsel
    exact ⟨h0, hr, by rw [hh, prepareHeader_detectors]⟩
  · rintro ⟨e, s1, hf⟩
    rw [hp] at hf
    obtain ⟨d, pre, post, _, _, hm, hab, ha, _, _⟩ :=
      processDetectors_fatal cfg tree h detOrder _ e s1 (sendTF_fatal cfg tree h s0 e s1 hf)
    exact ⟨ha, d, hm, hab⟩
  · rintro ⟨ha, d, hm, hab⟩
    rw [hp]
    exact sendTF_fatal_of_missing cfg tree h s0 d hm hab ha
  · intro ha
    rw [hp, sendTF_ok cfg tree h s0 (fun _ _ _ => ha)]
    exact ⟨_, rfl⟩

/-- Witness of C8: the entry of `exTreeNoTPC` lacks TPC, which `exCfg`
enables and does not allow to be missing: `processTF` is fatal. -/
theorem processTF_fatal_iff_missing_detector_witness :
    ∃ e s1, processTF exCfg exEnv exTreeNoTPC exOpenNoTPC = .fatal e s1 :=
  (processTF_fatal_iff_missing_detector exCfg exEnv exTreeNoTPC exOpenNoTPC
    (exHeader 0 [.ITS]) { exOpenNoTPC with mRunNumberPrev := 1 } rfl).2.1.mpr
    ⟨rfl, .TPC, by decide, by decide⟩

/-- Counterexample to C9 as stated: with missing detectors allowed, the
entry of `exTreeNoTPC` (header without TPC) is emitted without error, and the
outputs hold a block for TPC, which is enabled and absent: the empty block. -/
theorem absent_detector_gets_block :
    ∃ s1, processTF { exCfg with allowMissingDetectors := true } exEnv exTreeNoTPC
        exOpenNoTPC = .ok true s1 ∧
      DetID.TPC ∈ exCfg.detMask ∧ DetID.TPC ∉ (exHeader 0 [.ITS]).detectors ∧
      s1.outputs = [.header 0 (exHeader 0 [.ITS]), .detData .ITS 0 [0], .detData .TPC 0 [],
        .tfDist 0 0 1] :=
  ⟨_, rfl, by decide, by decide, rfl⟩

/-- C9, amended: for an accepted entry that `processTF` emits without error,
the outputs added after those of the selection are the header record, then
exactly one detector block per detector enabled in the reader's mask, in the
order of the `processDetector` calls, then the acknowledgement unless it is
suppressed.  The block of a detector present in the header holds its stored
bytes; the block of an enabled detector absent from the header is empty; a
detector that is not enabled gets no block. -/
theorem processTF_detector_blocks (cfg : CTFReaderInp) (env : Env)
    (tree : List Entry) (s : Reader) (h : CTFHeader) (s0 s1 : Reader)
    (hsel : selectTF cfg env tree s = .accepted h s0)
    (hok : processTF cfg env tree s = .ok true s1) :
    s1.outputs = s0.outputs ++ ([.header cfg.subspec h] ++
      detBlocks cfg tree s0.mCurrTreeEntry h detOrder ++
      (if cfg.sup0xccdb then []
       else [.tfDist s0.mCurrTreeEntry h.firstTForbit (h.run % 2 ^ 32)])) ∧
    (∀ d buf, Output.detData d cfg.subspec buf ∈ detBlocks cfg tree s0.mCurrTreeEntry h detOrder ↔
      (d ∈ cfg.detMask ∧
        buf = if d ∈ h.detectors then readDetector tree d s0.mCurrTreeEntry else [])) ∧
    (detBlocks cfg tree s0.mCurrTreeEntry h detOrder).length =
      (detOrder.filter (fun d => cfg.detMask.contains d)).length := by
  have hp : processTF cfg env tree s = sendTF cfg tree h s0 := by
    unfold processTF; rw [hsel]
  rw [hp] at hok
  have hall := allowed_of_sendTF_ok cfg tree h s0 true s1 hok
  rw [sendTF_ok cfg tree h s0 hall] at hok
  injection hok with _ hs
  refine ⟨?_, ?_, ?_⟩
  · rw [← hs]; simp
  · intro d buf
    simp only [detBlocks, List.mem_map, List.mem_filter]
    constructor
    · rintro ⟨x, ⟨_, hxm⟩, hx⟩
      injection hx with h1 _ h3
      subst h1
      exact ⟨by simpa using hxm, by rw [← h3]; simp⟩
    · rintro ⟨hm, hb⟩
      exact ⟨d, ⟨mem_detOrder d, by simpa using hm⟩, by rw [hb]; simp⟩
  · simp [detBlocks]

/-- Witness of C9, amended: the entry of `exTreeNoTPC` with missing
detectors allowed. -/
theorem processTF_detector_blocks_witness :
    exSentNoTPC.outputs = [] ++ ([.header 0 (exHeader 0 [.ITS])] ++
      detBlocks { exCfg with allowMissingDetectors := true } exTreeNoTPC 0
        (exHeader 0 [.ITS]) detOrder ++ [.tfDist 0 0 (1 % 2 ^ 32)]) :=
  (processTF_detector_blocks { exCfg with allowMissingDetectors := true } exEnv exTreeNoTPC
    exOpenNoTPC (exHeader 0 [.ITS]) { exOpenNoTPC with mRunNumberPrev := 1 } exSentNoTPC
    rfl rfl).1

/-- Counterexample to C10 as stated: `processTF` fails on the entry of
`exTreeNoTPC` (TPC enabled, missing and not allowed to be missing), and the
outputs then hold the header record of that entry, the ITS block and the
empty TPC block. -/
theorem failed_entry_leaves_outputs :
    (∃ s1, processTF exCfg exEnv exTreeNoTPC exOpenNoTPC =
      .fatal (.missingDetector .TPC) s1) ∧
    exOpenNoTPC.outputs = [] ∧
    exFailedNoTPC.outputs =
      [.header 0 (exHeader 0 [.ITS]), .detData .ITS 0 [0], .detData .TPC 0 []] :=
  ⟨⟨_, rfl⟩, rfl, rfl⟩

/-- C10, amended: when `processTF` fails on an accepted entry, it fails at
the first detector `d` in processing order that is enabled, absent from the
header and not allowed to be missing.  The outputs then hold, after those
present before the call, the `selIRFrames` record if the frame selector is
set, the header record of the entry, one block for each enabled detector
before `d` (all of them present) and the empty block of `d`; nothing after
that is added (no later block, no acknowledgement), and the accepted counter,
the raw counter, the entry cursor, the entry log and the open tree are as
before the call. -/
theorem processTF_failure_outputs (cfg : CTFReaderInp) (env : Env)
    (tree : List Entry) (s : Reader) (h : CTFHeader) (s0 : Reader) (e : Fatal) (s1 : Reader)
    (hsel : selectTF cfg env tree s = .accepted h s0)
    (hf : processTF cfg env tree s = .fatal e s1) :
    ∃ d pre post, detOrder = pre ++ d :: post ∧ e = .missingDetector d ∧
      d ∈ cfg.detMask ∧ d ∉ h.detectors ∧ cfg.allowMissingDetectors = false ∧
      (∀ x ∈ pre, x ∈ cfg.detMask → x ∈ h.detectors) ∧
      (s0.outputs = s.outputs ∨ ∃ fr, s0.outputs = s.outputs ++ [.selIRFrames fr]) ∧
      s1.outputs = s0.outputs ++ ([.header cfg.subspec h] ++
        detBlocks cfg tree s.mCurrTreeEntry h pre ++ [.detData d cfg.subspec []]) ∧
      s1.mCTFCounterAcc = s.mCTFCounterAcc ∧ s1.mCTFCounter = s.mCTFCounter ∧
      s1.mCurrTreeEntry = s.mCurrTreeEntry ∧ s1.log = s.log ∧
      s1.mCTFTree = s.mCTFTree := by
  have hp : processTF cfg env tree s = sendTF cfg tree h s0 := by
    unfold processTF; rw [hsel]
  rw [hp] at hf
  obtain ⟨d, pre, post, hsplit, he, hm, hab, ha, hpre, hs1⟩ :=
    processDetectors_fatal cfg tree h detOrder _ e s1 (sendTF_fatal cfg tree h s0 e s1 hf)
  obtain ⟨f1, f2, _, _, f5, f6, _, f8, _⟩ := selectTF_accepted_fields cfg env tree s h s0 hsel
  refine ⟨d, pre, post, hsplit, he, hm, hab, ha, hpre,
    (selectTF_accepted_eq cfg env tree s h s0 hsel).2, ?_⟩
  rw [hs1]
  simp only []
  refine ⟨by rw [f2]; simp, f6, f5, f2, f8, f1⟩

/-- Witness of C10, amended: the entry of `exTreeNoTPC` with missing
detectors not allowed. -/
theorem processTF_failure_outputs_witness :
    ∃ d pre post, detOrder = pre ++ d :: post ∧ Fatal.missingDetector .TPC = .missingDetector d ∧
      d ∈ exCfg.detMask ∧ d ∉ (exHeader 0 [.ITS]).detectors ∧
      exCfg.allowMissingDetectors = false ∧
      (∀ x ∈ pre, x ∈ exCfg.detMask → x ∈ (exHeader 0 [.ITS]).detectors) ∧
      (([] : List Output) = exOpenNoTPC.outputs ∨
        ∃ fr, ([] : List Output) = exOpenNoTPC.outputs ++ [.selIRFrames fr]) ∧
      exFailedNoTPC.outputs = [] ++ ([.header 0 (exHeader 0 [.ITS])] ++
        detBlocks exCfg exTreeNoTPC 0 (exHeader 0 [.ITS]) pre ++ [.detData d 0 []]) ∧
      exFailedNoTPC.mCTFCounterAcc = 0 ∧ exFailedNoTPC.mCTFCounter = 0 ∧
      exFailedNoTPC.mCurrTreeEntry = 0 ∧ exFailedNoTPC.log = [] ∧
      exFailedNoTPC.mCTFTree = exOpenNoTPC.mCTFTree :=
  processTF_failure_outputs exCfg exEnv exTreeNoTPC exOpenNoTPC (exHeader 0 [.ITS])
    { exOpenNoTPC with mRunNumberPrev := 1 } (.missingDetector .TPC) exFailedNoTPC rfl rfl

end CTFReader

namespace CTFReader

/-! ## The run / time-range table -/

/-- C11 (counterexample): loading the file made of the line
`505207 133875 1635322620830`, the comment line `# note` and a blank line does
not succeed: the first limit is at most the reference epoch and the second is
above it, and the load ends in the fatal error on mixed limits. -/
theorem spans_example_is_fatal :
    loadRunTimeSpans (some exSpansMixed) Loading.start =
      .error (.mixedLimits "505207 133875 1635322620830".toList) := by
  decide

/-- C11 (amended): loading a file made of a triplet line `<run> <min> <max>`,
then the comment line `# note`, then a blank line, succeeds when `min <= max`
and both limits lie on the same side of the reference epoch, and then leaves
a table holding exactly one range `(min, max)` for the run and no range for
any other run; otherwise the load is fatal. -/
theorem triplet_comment_blank_file (l : List Char) (run rmin rmax : Int) (line : List Char)
    (hnl : Char.ofNat 10 ∉ l) (hr : readLine l = .triplet run rmin rmax line) :
    (rmin ≤ rmax ∧ (ISTimeStamp < rmin ↔ ISTimeStamp < rmax) →
      ∃ st, loadRunTimeSpans (some (spansFile l)) Loading.start = .ok st ∧
        st.mRunTimeRanges = [(run, [(rmin, rmax)])] ∧
        ∀ k, st.mRunTimeRanges.lookup k = if k = run then some [(rmin, rmax)] else none) ∧
    (¬ (rmin ≤ rmax ∧ (ISTimeStamp < rmin ↔ ISTimeStamp < rmax)) →
      ∃ e, loadRunTimeSpans (some (spansFile l)) Loading.start = .error e) := by
  have hc : readLine "# note".toList = .skipped := by decide
  have hb : readLine [] = .skipped := by decide
  have key : ∀ s0 : Loading, s0.mConvRunTimeRangesToOrbits = -1 → s0.mRunTimeRanges = [] →
      (rmin ≤ rmax ∧ (ISTimeStamp < rmin ↔ ISTimeStamp < rmax) →
        ∃ st, loadLines s0 [l, "# note".toList, []] = .ok st ∧
          st.mRunTimeRanges = [(run, [(rmin, rmax)])] ∧
          ∀ k, st.mRunTimeRanges.lookup k = if k = run then some [(rmin, rmax)] else none) ∧
      (¬ (rmin ≤ rmax ∧ (ISTimeStamp < rmin ↔ ISTimeStamp < rmax)) →
        ∃ e, loadLines s0 [l, "# note".toList, []] = .error e) := by
    intro s0 hconv htab
    have hload : loadLines s0 [l, "# note".toList, []] =
        (match storeRange { s0 with cntl := s0.cntl + 1 } run rmin rmax line with
         | .error e => .error e
         | .ok st1 => .ok { st1 with cntl := st1.cntl + 1 + 1 }) := by
      simp only [loadLines, loadLine, hr, hc, hb]
    rw [hload]
    constructor
    · rintro ⟨h1, h2⟩
      have h3 := (storeRange_ok_iff { s0 with cntl := s0.cntl + 1 } _ run rmin rmax line).mpr
        ⟨h1, (convOf_eq_iff _ _).mpr h2, Or.inl hconv, rfl⟩
      rw [h3]
      refine ⟨_, rfl, ?_, ?_⟩
      · simp [stored, addRange, htab]
      · intro k
        by_cases hk : k = run
        · simp [stored, addRange, htab, List.lookup, hk]
        · have hk' : (k == run) = false := by simpa using hk
          simp [stored, addRange, htab, List.lookup, hk, hk']
    · intro h
      obtain ⟨e, he⟩ := storeRange_error_of { s0 with cntl := s0.cntl + 1 } run rmin rmax line
        (by
          rintro ⟨h1, h2, -⟩
          exact h ⟨h1, (convOf_eq_iff _ _).mp h2⟩)
      rw [he]
      exact ⟨e, rfl⟩
  rw [loadRunTimeSpans_some, getlines_spansFile l hnl]
  exact key _ rfl rfl

/-- C11 (witness): the file whose first line is `505207 133875 133975`. -/
theorem triplet_comment_blank_file_witness :
    ∃ st, loadRunTimeSpans (some exSpansOrbits) Loading.start = .ok st ∧
      st.mRunTimeRanges = [(505207, [(133875, 133975)])] ∧
      ∀ k, st.mRunTimeRanges.lookup k = if k = 505207 then some [(133875, 133975)] else none :=
  (triplet_comment_blank_file "505207 133875 133975".toList 505207 133875 133975
    "505207 133875 133975".toList (by decide) (by decide)).1 ⟨by decide, by decide⟩

/-- C12: a file whose triplet lines include one with both limits at most the
reference epoch 1514761200000 and one with both limits above it, in either
order and whatever runs the two lines name, ends `loadRunTimeSpans` in a
fatal error; and after a load that succeeds all stored limits lie on the same
side of the reference epoch. -/
theorem mixed_units_are_fatal (text : List Char) :
    (∀ l1 l2 run1 min1 max1 line1 run2 min2 max2 line2,
        l1 ∈ StdLib.getlines (Char.ofNat 10) text → l2 ∈ StdLib.getlines (Char.ofNat 10) text →
        readLine l1 = .triplet run1 min1 max1 line1 →
        min1 ≤ ISTimeStamp → max1 ≤ ISTimeStamp →
        readLine l2 = .triplet run2 min2 max2 line2 →
        ISTimeStamp < min2 → ISTimeStamp < max2 →
        ∃ e, loadRunTimeSpans (some text) Loading.start = .error e) ∧
    (∀ st, loadRunTimeSpans (some text) Loading.start = .ok st →
        (∀ p ∈ st.mRunTimeRanges, ∀ r ∈ p.2, r.1 ≤ ISTimeStamp ∧ r.2 ≤ ISTimeStamp) ∨
        (∀ p ∈ st.mRunTimeRanges, ∀ r ∈ p.2, ISTimeStamp < r.1 ∧ ISTimeStamp < r.2)) := by
  constructor
  · intro l1 l2 run1 min1 max1 line1 run2 min2 max2 line2 hm1 hm2 hr1 ha1 _ hr2 ha2 _
    cases hload : loadRunTimeSpans (some text) Loading.start with
    | error e => exact ⟨e, rfl⟩
    | ok st =>
      exfalso
      rw [loadRunTimeSpans_some] at hload
      obtain ⟨-, h1, -⟩ := loadLines_ok_triplet _ st _ hload l1 hm1 run1 min1 max1 line1 hr1
      obtain ⟨-, h2, -⟩ := loadLines_ok_triplet _ st _ hload l2 hm2 run2 min2 max2 line2 hr2
      rw [(convOf_eq_zero min1).mpr ha1] at h1
      rw [(convOf_eq_one min2).mpr ha2, h1] at h2
      exact absurd h2 (by decide)
  · intro st hload
    rw [loadRunTimeSpans_some] at hload
    have hall : ∀ p ∈ st.mRunTimeRanges, ∀ r ∈ p.2,
        st.mConvRunTimeRangesToOrbits = convOf r.1 ∧ st.mConvRunTimeRangesToOrbits = convOf r.2 := by
      intro p hp r hr
      rcases loadLines_mem _ st _ hload p hp r hr with ⟨q, hq, -⟩ | ⟨l, hl, run, line, hrl⟩
      · cases hq
      · exact (loadLines_ok_triplet _ st _ hload l hl run r.1 r.2 line hrl).2
    by_cases hc : st.mConvRunTimeRangesToOrbits = 1
    · right
      intro p hp r hr
      obtain ⟨h1, h2⟩ := hall p hp r hr
      exact ⟨(convOf_eq_one _).mp (by rw [← h1, hc]), (convOf_eq_one _).mp (by rw [← h2, hc])⟩
    · left
      intro p hp r hr
      obtain ⟨h1, h2⟩ := hall p hp r hr
      constructor
      · by_contra hlt
        exact hc (by rw [h1]; exact (convOf_eq_one _).mpr (not_le.mp hlt))
      · by_contra hlt
        exact hc (by rw [h2]; exact (convOf_eq_one _).mpr (not_le.mp hlt))

/-- C12 (witness): the file of the two lines `1 10 20` and
`2 1600000000000 1600000000001` is fatal. -/
theorem mixed_units_are_fatal_witness :
    ∃ e, loadRunTimeSpans
      (some ("1 10 20".toList ++ Char.ofNat 10 :: "2 1600000000000 1600000000001".toList))
      Loading.start = .error e :=
  (mixed_units_are_fatal
    ("1 10 20".toList ++ Char.ofNat 10 :: "2 1600000000000 1600000000001".toList)).1
    "1 10 20".toList "2 1600000000000 1600000000001".toList
    1 10 20 "1 10 20".toList 2 1600000000000 1600000000001 "2 1600000000000 1600000000001".toList
    (by decide) (by decide) (by decide) (by decide) (by decide) (by decide) (by decide) (by decide)

/-- C13: a triplet line `<run> <min> <max>` with `min > max` ends
`loadRunTimeSpans` in a fatal error, whatever the other lines are; and after a
load that succeeds every stored range `(min, max)` has `min <= max`. -/
theorem decreasing_range_is_fatal (text : List Char) :
    (∀ l run rmin rmax line,
        l ∈ StdLib.getlines (Char.ofNat 10) text →
        readLine l = .triplet run rmin rmax line → rmax < rmin →
        ∃ e, loadRunTimeSpans (some text) Loading.start = .error e) ∧
    (∀ st, loadRunTimeSpans (some text) Loading.start = .ok st →
        ∀ p ∈ st.mRunTimeRanges, ∀ r ∈ p.2, r.1 ≤ r.2) := by
  constructor
  · intro l run rmin rmax line hm hr hlt
    cases hload : loadRunTimeSpans (some text) Loading.start with
    | error e => exact ⟨e, rfl⟩
    | ok st =>
      exfalso
      rw [loadRunTimeSpans_some] at hload
      obtain ⟨h1, -⟩ := loadLines_ok_triplet _ st _ hload l hm run rmin rmax line hr
      exact absurd h1 (not_le.mpr hlt)
  · intro st hload p hp r hr
    rw [loadRunTimeSpans_some] at hload
    rcases loadLines_mem _ st _ hload p hp r hr with ⟨q, hq, -⟩ | ⟨l, hl, run, line, hrl⟩
    · cases hq
    · exact (loadLines_ok_triplet _ st _ hload l hl run r.1 r.2 line hrl).1

/-- C13 (witness): the file of the two lines `1 10 20` and `1 40 30` is
fatal. -/
theorem decreasing_range_is_fatal_witness :
    ∃ e, loadRunTimeSpans (some ("1 10 20".toList ++ Char.ofNat 10 :: "1 40 30".toList))
      Loading.start = .error e :=
  (decreasing_range_is_fatal ("1 10 20".toList ++ Char.ofNat 10 :: "1 40 30".toList)).1
    "1 40 30".toList 1 40 30 "1 40 30".toList (by decide) (by decide) (by decide)

/-- C15 (counterexample): the file of the three lines `505207 abc 5`, `7` and
`505207 10 20` has two lines that are neither blank nor comments nor
triplets of numbers, and its load is not fatal: the two lines are reported
and passed over, and the range of the third line is stored. -/
theorem malformed_lines_are_not_fatal :
    loadRunTimeSpans (some exSpansMalformed) Loading.start =
      .ok { mRunTimeRanges := [(505207, [(10, 20)])],
            mConvRunTimeRangesToOrbits := 0,
            cntl := 3,
            cntr := 1,
            errors := [(1, "505207 abc 5".toList), (2, "7".toList)] } := by
  decide

/-- C15 (amended): a line that is neither blank nor a comment and that, after
separator normalisation, has fewer than three fields or has one of its first
three fields not converted by `std::stoi` / `std::stol`, is reported with its
line number in the error log and passed over: the load ends with the same
table, unit, number of stored ranges or fatal error as for the file without
that line. -/
theorem malformed_line_is_reported_and_skipped (text text1 : List Char) (st : Loading)
    (ls1 ls2 : List (List Char)) (l line : List Char)
    (h : StdLib.getlines (Char.ofNat 10) text = ls1 ++ l :: ls2)
    (h1 : StdLib.getlines (Char.ofNat 10) text1 = ls1 ++ ls2)
    (hm : readLine l = .malformed line) :
    outcome (loadRunTimeSpans (some text) st) = outcome (loadRunTimeSpans (some text1) st) ∧
    (∀ st1, loadRunTimeSpans (some text) st = .ok st1 → (ls1.length + 1, line) ∈ st1.errors) ∧
    loadLine st l = .ok { st with cntl := st.cntl + 1,
                                  errors := st.errors ++ [(st.cntl + 1, line)] } := by
  refine ⟨?_, ?_, ?_⟩
  · rw [loadRunTimeSpans_some, loadRunTimeSpans_some, h, h1]
    exact loadLines_remove _ ls1 ls2 l (Or.inr ⟨line, hm⟩)
  · intro st1 hload
    rw [loadRunTimeSpans_some, h] at hload
    have := loadLines_reports _ st1 ls1 ls2 l line hm hload
    simpa using this
  · simp only [loadLine, hm]

/-- C15 (witness): the line `505207 abc 5` in front of `505207 10 20`. -/
theorem malformed_line_is_reported_and_skipped_witness :
    outcome (loadRunTimeSpans
        (some ("505207 abc 5".toList ++ Char.ofNat 10 :: "505207 10 20".toList)) Loading.start) =
      outcome (loadRunTimeSpans (some "505207 10 20".toList) Loading.start) :=
  (malformed_line_is_reported_and_skipped
    ("505207 abc 5".toList ++ Char.ofNat 10 :: "505207 10 20".toList) "505207 10 20".toList
    Loading.start [] ["505207 10 20".toList] "505207 abc 5".toList "505207 abc 5".toList
    (by decide) (by decide) (by decide)).1

/-! ## The snap to whole time frames, the empty queue, the run-start table -/

/-- C17: in a pass of the loop of `run` with no container open and an empty
path from `getNextFileInQueue()`: if the queue is not running the pass
leaves the loop with `mRunning = false`, and the code after the loop signals
end-of-stream and quit, without a container opened, an entry read or an
output made; if the queue is still running the pass waits and the loop goes
on, and the raw counter, the accepted counter, the entry cursor, the
ID-selection index and the failed-file counter are unchanged by the wait. -/
theorem empty_queue_stops_or_waits (cfg : CTFReaderInp) (env : Env) (s : Reader)
    (ff : FileFetcher) (w : Bool) (fuel : Nat)
    (hrun : s.mRunning = true) (htree : s.mCTFTree = none) (hff : s.mFileFetcher = some ff)
    (hq : ff.getNextFileInQueue = none) :
    (ff.isRunning = false →
      runStep cfg env s w = .brk { s with mRunning := false } ∧
      runLoop cfg env (fuel + 1) s w = .done { s with mRunning := false } ∧
      run cfg env s = .done (finishRun cfg { s with mRunning := false }) ∧
      (finishRun cfg { s with mRunning := false }).mRunning = false ∧
      (finishRun cfg { s with mRunning := false }).endOfStream = true ∧
      (finishRun cfg { s with mRunning := false }).readyToQuit = true ∧
      (finishRun cfg { s with mRunning := false }).mCTFTree = none ∧
      (finishRun cfg { s with mRunning := false }).mFilesRead = s.mFilesRead ∧
      (finishRun cfg { s with mRunning := false }).mCTFCounter = s.mCTFCounter ∧
      (finishRun cfg { s with mRunning := false }).mCTFCounterAcc = s.mCTFCounterAcc ∧
      (finishRun cfg { s with mRunning := false }).mCurrTreeEntry = s.mCurrTreeEntry ∧
      (finishRun cfg { s with mRunning := false }).outputs = s.outputs ∧
      (finishRun cfg { s with mRunning := false }).log = s.log) ∧
    (ff.isRunning = true →
      runStep cfg env s w = .cont { s with mFileFetcher := some ff.waitFor } true ∧
      runLoop cfg env (fuel + 1) s w =
        runLoop cfg env fuel { s with mFileFetcher := some ff.waitFor } true ∧
      ({ s with mFileFetcher := some ff.waitFor } : Reader).mRunning = true ∧
      ({ s with mFileFetcher := some ff.waitFor } : Reader).mCTFTree = none ∧
      ({ s with mFileFetcher := some ff.waitFor } : Reader).mCTFCounter = s.mCTFCounter ∧
      ({ s with mFileFetcher := some ff.waitFor } : Reader).mCTFCounterAcc = s.mCTFCounterAcc ∧
      ({ s with mFileFetcher := some ff.waitFor } : Reader).mCurrTreeEntry = s.mCurrTreeEntry ∧
      ({ s with mFileFetcher := some ff.waitFor } : Reader).mSelIDEntry = s.mSelIDEntry ∧
      ({ s with mFileFetcher := some ff.waitFor } : Reader).mNFailedFiles = s.mNFailedFiles ∧
      ({ s with mFileFetcher := some ff.waitFor } : Reader).mFilesRead = s.mFilesRead ∧
      ({ s with mFileFetcher := some ff.waitFor } : Reader).outputs = s.outputs ∧
      ({ s with mFileFetcher := some ff.waitFor } : Reader).log = s.log) := by
  constructor
  · intro hnr
    have hstep : runStep cfg env s w = .brk { s with mRunning := false } := by
      simp [runStep, htree, fetchFile, hff, hq, hnr]
    have hloop : ∀ k w1, runLoop cfg env (k + 1) s w1 = .done { s with mRunning := false } := by
      intro k w1
      have hstep1 : runStep cfg env s w1 = .brk { s with mRunning := false } := by
        simp [runStep, htree, fetchFile, hff, hq, hnr]
      simp [runLoop, hrun, hstep1]
    have hfuel : loopFuel s = (loopFuel s - 1) + 1 := by
      unfold loopFuel
      omega
    have hrunEq : run cfg env s = .done (finishRun cfg { s with mRunning := false }) := by
      unfold run
      rw [hfuel, hloop]
    refine ⟨hstep, hloop fuel w, hrunEq, ?_⟩
    simp [finishRun, stopReader, hff]
  · intro hr
    have hstep : runStep cfg env s w = .cont { s with mFileFetcher := some ff.waitFor } true := by
      simp [runStep, htree, fetchFile, hff, hq, hr]
    refine ⟨hstep, ?_, hrun, htree, rfl, rfl, rfl, rfl, rfl, rfl, rfl, rfl⟩
    simp [runLoop, hrun, hstep]

/-- C17 (witness): a reader whose queue is empty and no longer running
stops. -/
theorem empty_queue_stops_or_waits_witness :
    runStep exCfg exEnv
        (Reader.start { queue := [], idle := 0, popped := [] } false 0) false =
      .brk { Reader.start { queue := [], idle := 0, popped := [] } false 0 with
        mRunning := false } :=
  ((empty_queue_stops_or_waits exCfg exEnv
    (Reader.start { queue := [], idle := 0, popped := [] } false 0)
    { queue := [], idle := 0, popped := [] } false 0 rfl rfl rfl rfl).1 rfl).1

/-- C18: for a header whose run number is not one of the 25 runs of the
static run-start table, `tryToFixCTFHeader` leaves the header unchanged; for
a run that is listed the lookup finds its row (the pre-check on the first and
last rows excludes no listed run): the creation time becomes the row's
timestamp plus the offset when the offset is positive, so it is at least the
row's timestamp, and the other fields are unchanged. -/
theorem tryToFixCTFHeader_table (env : Env) (h : CTFHeader) :
    ((∀ row ∈ tf0Data, row.run ≠ h.run) → tryToFixCTFHeader env h = h) ∧
    (∀ row ∈ tf0Data, row.run = h.run →
      tryToFixCTFHeader env h =
        { h with creationTime := row.tstampMS0 +
            (if env.ceilOrbitsToMS
                  ((h.firstTForbit + 2 ^ 32 - row.firstTForbit % 2 ^ 32) % 2 ^ 32) > 0
             then (env.ceilOrbitsToMS
                  ((h.firstTForbit + 2 ^ 32 - row.firstTForbit % 2 ^ 32) % 2 ^ 32)).toNat
             else 0) } ∧
      row.tstampMS0 ≤ (tryToFixCTFHeader env h).creationTime) ∧
    tf0Data.length = 25 := by
  have hhead : tf0Data.head? = some ⟨505207, 133875, 1635322620830⟩ := rfl
  have hlast : tf0Data.getLast? = some ⟨505720, 5359903, 1635730673978⟩ := rfl
  refine ⟨?_, ?_, rfl⟩
  · intro hno
    have hfind : tf0Data.find? (fun tf0 => h.run == tf0.run) = none := by
      rw [List.find?_eq_none]
      intro row hrow
      have := hno row hrow
      simpa using fun h1 => this h1.symm
    unfold tryToFixCTFHeader
    rw [hhead, hlast]
    simp only [hfind]
    split <;> rfl
  · intro row hrow hrun
    have hfind := find_of_pairwise tf0Data h.run tf0Data_pairwise row hrow hrun
    have hb := tf0Data_bounds row hrow
    have hpre : h.run ≥ 505207 ∧ h.run ≤ 505720 := by
      rw [← hrun]
      exact hb
    have heq : tryToFixCTFHeader env h =
        { h with creationTime := row.tstampMS0 +
            (if env.ceilOrbitsToMS
                  ((h.firstTForbit + 2 ^ 32 - row.firstTForbit % 2 ^ 32) % 2 ^ 32) > 0
             then (env.ceilOrbitsToMS
                  ((h.firstTForbit + 2 ^ 32 - row.firstTForbit % 2 ^ 32) % 2 ^ 32)).toNat
             else 0) } := by
      unfold tryToFixCTFHeader
      rw [hhead, hlast]
      simp only [hfind, hpre, and_self, if_true]
    refine ⟨heq, ?_⟩
    rw [heq]
    exact Nat.le_add_right _ _

/-- C18 (witness): run 505720, the last row of the table, is found. -/
theorem tryToFixCTFHeader_table_witness :
    1635730673978 ≤ (tryToFixCTFHeader exEnv
      { run := 505720, creationTime := 0, firstTForbit := 5359903, tfCounter := 0,
        detectors := [] }).creationTime :=
  ((tryToFixCTFHeader_table exEnv
    { run := 505720, creationTime := 0, firstTForbit := 5359903, tfCounter := 0,
      detectors := [] }).2.1 ⟨505720, 5359903, 1635730673978⟩ (by decide) rfl).2


end CTFReader

namespace EnumFlags

/-! ## The enum bit set -/

/-- C19: the round trip through `serialize` and `deserialize` does not hold
for every flag set.  For an enum accepted by `EnumFlags` (underlying type of
at most 64 bits) and a flag set `f` over its members, `deserialize` of
`f.serialize()` yields `f` when the member with the highest value is not in
`f`, and throws `out_of_range`, leaving the target as it was, when it is: the
value of that member's bit is `MaxRep + 1`.  In particular the set holding
only the highest member, on which `test` answers true, is not restored. -/
theorem top_member_does_not_round_trip (H : FlagsHelper) (hH : EnumFlag H = true)
    (h64 : H.digits ≤ 64) (f g : Flags) (hf : f.mBits < 2 ^ H.count) :
    deserialize H g (serialize f) =
      (if f.mBits < 2 ^ H.Max_u_v then .ok f else .throw .out_of_range g) ∧
    (Flags.ofList H [H.Max_u_v]).mBits < 2 ^ H.count ∧
    (Flags.ofList H [H.Max_u_v]).test H H.Max_u_v = true ∧
    deserialize H g (serialize (Flags.ofList H [H.Max_u_v])) = .throw .out_of_range g := by
  obtain ⟨hc0, hcd⟩ := EnumFlag_count H hH
  have hc64 : H.count ≤ 64 := le_trans hcd h64
  have hmax : H.Max_u_v + 1 = H.count := by
    unfold FlagsHelper.Max_u_v
    omega
  have hpow : 2 ^ H.count = 2 * 2 ^ H.Max_u_v := by
    rw [← hmax, Nat.pow_succ, Nat.mul_comm]
  have hpos : 0 < 2 ^ H.Max_u_v := Nat.two_pow_pos _
  have hle64 : 2 ^ H.count ≤ 2 ^ 64 := Nat.pow_le_pow_right (by decide) hc64
  have hled : 2 ^ H.count ≤ 2 ^ H.digits := Nat.pow_le_pow_right (by decide) hcd
  have hrep := MaxRep_eq H hc64
  have hmd : H.Max_u_v < H.digits := by omega
  have hsingle := ofList_single H H.Max_u_v hmd
  refine ⟨?_, ?_, ?_, ?_⟩
  · rw [deserialize_serialize H f g (by omega), hrep]
    by_cases hlt : f.mBits < 2 ^ H.Max_u_v
    · have h1 : ¬ f.mBits > 2 ^ H.Max_u_v - 1 := by omega
      have h2 : f.mBits % 2 ^ H.digits = f.mBits := Nat.mod_eq_of_lt (by omega)
      rw [if_neg h1, if_pos hlt, h2]
    · have h1 : f.mBits > 2 ^ H.Max_u_v - 1 := by omega
      rw [if_pos h1, if_neg hlt]
  · rw [hsingle]
    show 2 ^ H.Max_u_v < 2 ^ H.count
    omega
  · rw [hsingle]
    have h1 : 2 ^ H.Max_u_v < 2 ^ H.digits := by omega
    simp [Flags.test, to_bit, Nat.one_shiftLeft, Nat.mod_eq_of_lt h1]
  · rw [deserialize_serialize H _ g (by rw [hsingle]; show 2 ^ H.Max_u_v < 2 ^ 64; omega),
      hrep, hsingle]
    have h1 : 2 ^ H.Max_u_v > 2 ^ H.Max_u_v - 1 := by omega
    simp only [h1, if_true]

/-- C19 (witness): `TestEnum` of the unit test, with the flag set holding
only `Bit5VeryLongName`: `serialize` gives `16`, which `deserialize`
rejects. -/
theorem top_member_does_not_round_trip_witness :
    serialize (Flags.ofList exTestEnum [4]) = "16".toList ∧
    deserialize exTestEnum ⟨0⟩ (serialize (Flags.ofList exTestEnum [4])) =
      .throw .out_of_range ⟨0⟩ :=
  ⟨by decide,
   (top_member_does_not_round_trip exTestEnum (by decide) (by decide) ⟨5⟩ ⟨0⟩ (by decide)).2.2.2⟩

/-- C20: `EnumFlags::set(string, base)` is atomic on failure: whenever the
call throws, the flag set has the value it had before the call, whatever
`setImpl` had done to the bits before it threw. -/
theorem set_restores_on_throw (H : FlagsHelper) (f : Flags) (s : List Char) (base : Int)
    (e : StdLib.Exception) (f1 : Flags) (h : set H f s base = .throw e f1) :
    f1 = f ∧ ∃ f2, setImpl H { mBits := 0 } s base = .throw e f2 := by
  unfold set at h
  cases hs : setImpl H { mBits := 0 } s base with
  | ok f3 =>
    rw [hs] at h
    cases h
  | throw e2 f2 =>
    rw [hs] at h
    simp only [Outcome.throw.injEq] at h
    obtain ⟨h1, h2⟩ := h
    subst h1
    exact ⟨h2.symm, f2, rfl⟩

/-- C20 (witness): on `Bit2|Invalid` the bit of `Bit2` is set by `setImpl`
before the unknown name throws, and `set` gives the value 5 back. -/
theorem set_restores_on_throw_witness :
    setImpl exTestEnum ⟨0⟩ "Bit2|Invalid".toList 2 = .throw .invalid_argument ⟨2⟩ ∧
    set exTestEnum ⟨5⟩ "Bit2|Invalid".toList 2 = .throw .invalid_argument ⟨5⟩ ∧
    (⟨5⟩ : Flags) = ⟨5⟩ :=
  ⟨by decide, by decide,
   (set_restores_on_throw exTestEnum ⟨5⟩ "Bit2|Invalid".toList 2 .invalid_argument ⟨5⟩
     (by decide)).1⟩

end EnumFlags

namespace EnumFlags

/-! ## The enum bit set: names, `All`, `count` -/

/-- C21: `set` on member names joined by `|` does not work for every enum
accepted by `EnumFlags`.  When the member names are made of letters and
digits (and the scope of letters, digits and `:`), `set` on the names of a
non-empty list of members, each with or without the scope and with spaces
around it, returns with exactly the listed flags set, whatever was set
before.  But a string holding a character that is not a letter, a digit,
`|`, a space or `:` (such as the `_` of a member name) makes `set` throw
`invalid_argument` and leaves the flags as they were. -/
theorem set_names_sets_listed_flags (H : FlagsHelper) (hH : EnumFlag H = true)
    (f : Flags) (base : Int) :
    (∀ (scope : List Char) (items : List NameItem), PlainNames H scope = true →
      items ≠ [] → (∀ x ∈ items, x.member < H.count) →
      ∃ f1, set H f (joinNames H items) base = .ok f1 ∧
        ∀ e, e < H.count → (f1.test H e = true ↔ e ∈ items.map (fun x => x.member))) ∧
    (∀ s : List Char, (∃ c ∈ s, StdLib.isdigit c = false) →
      (∃ c ∈ s, (StdLib.isalnum c || c == '|' || c == ' ' || c == ':') = false) →
      set H f s base = .throw .invalid_argument f) := by
  obtain ⟨hc0, hcd⟩ := EnumFlag_count H hH
  constructor
  · intro scope items hP hne hi
    obtain ⟨f1, h1, h2⟩ := setTokens_names H scope hP hcd items hi { mBits := 0 }
    refine ⟨f1, ?_, ?_⟩
    · unfold set
      rw [setImpl_names H hH scope hP items hne hi, h1]
    · intro e he
      rw [test_eq_testBit H f1 e (by omega), h2 e (by omega)]
      simp
  · rintro s ⟨c, hc, hcd⟩ ⟨c2, hc2, hbad⟩
    have h1 : s.all StdLib.isdigit = false := by
      rw [Bool.eq_false_iff]
      intro hall
      have := List.all_eq_true.mp hall c hc
      rw [hcd] at this
      cases this
    have h2 : s.all (fun c => StdLib.isalnum c || c == '|' || c == ' ' || c == ':') = false := by
      rw [Bool.eq_false_iff]
      intro hall
      have := List.all_eq_true.mp hall c2 hc2
      rw [hbad] at this
      cases this
    unfold set setImpl
    simp only [h1, h2, Bool.false_eq_true, if_false]

/-- C21 (witness): on `TestEnum` the string `Bit4|TestEnum::Bit2 | Bit1 ` of
the unit test sets `Bit1`, `Bit2` and `Bit4`; on an enum with the member
`Feature_A` the string `Feature_A` throws. -/
theorem set_names_sets_listed_flags_witness :
    (∃ f1, set exTestEnum ⟨16⟩ "Bit4|TestEnum::Bit2 | Bit1 ".toList 2 = .ok f1 ∧
      ∀ e, e < 5 → (f1.test exTestEnum e = true ↔ e ∈ [3, 1, 0])) ∧
    EnumFlag exUnderscoreEnum = true ∧
    exUnderscoreEnum.fromString "Feature_A".toList = some 0 ∧
    set exUnderscoreEnum ⟨0⟩ "Feature_A".toList 2 = .throw .invalid_argument ⟨0⟩ :=
  ⟨(set_names_sets_listed_flags exTestEnum (by decide) ⟨16⟩ 2).1 "TestEnum::".toList
      [⟨3, false, 0, 0⟩, ⟨1, true, 0, 1⟩, ⟨0, false, 1, 1⟩] (by decide) (by simp) (by decide),
   by decide, by decide,
   (set_names_sets_listed_flags exUnderscoreEnum (by decide) ⟨0⟩ 2).2 "Feature_A".toList
     ⟨'F', by decide, by decide⟩ ⟨'_', by decide, by decide⟩⟩

end EnumFlags

namespace EnumFlags

/-- C22: `EnumFlags::All` does not represent all flags set.  For an enum
accepted by `EnumFlags` (underlying type of at most 64 bits), `test(e)` on
`EnumFlags(All)` is true exactly for the members `e` below the one with the
highest value, and false for that one; and `set` of `all`, in any letter
case, leaves the value `All`, so `test` of the highest member is false after
it as well. -/
theorem all_lacks_top_member (H : FlagsHelper) (hH : EnumFlag H = true) (h64 : H.digits ≤ 64) :
    (∀ e, e < H.count → Flags.test H ⟨All H⟩ e = decide (e < H.Max_u_v)) ∧
    H.Max_u_v < H.count ∧
    Flags.test H ⟨All H⟩ H.Max_u_v = false ∧
    (∀ (f : Flags) (s : List Char) (base : Int), s.map StdLib.tolower = "all".toList →
      set H f s base = .ok ⟨All H⟩) := by
  have hmax := Max_u_v_succ H hH
  refine ⟨fun e he => test_All H hH h64 e he, by omega, ?_, ?_⟩
  · rw [test_All H hH h64 _ (by omega)]
    simp
  · intro f s base hs
    unfold set
    rw [setImpl_all H _ s base hs]

/-- C22 (witness): `TestEnum` of the unit test: `All` is 15, and
`Bit5VeryLongName` is not set in it, nor after `set("ALL")`. -/
theorem all_lacks_top_member_witness :
    All exTestEnum = 15 ∧
    Flags.test exTestEnum ⟨All exTestEnum⟩ 4 = false ∧
    set exTestEnum ⟨0⟩ "ALL".toList 2 = .ok ⟨All exTestEnum⟩ :=
  ⟨by decide,
   (all_lacks_top_member exTestEnum (by decide) (by decide)).2.2.1,
   (all_lacks_top_member exTestEnum (by decide) (by decide)).2.2.2 ⟨0⟩ "ALL".toList 2
     (by decide)⟩

/-- C23: `EnumFlags::count()` does not return the number of active flags.  For
an enum accepted by `EnumFlags`, `count()` is the number of members below the
one with the highest value for which `test` is true: the number of active
flags is `count()` plus one when the highest member is set.  For the flag
set built from the highest member alone `count()` is 0 while `test` of that
member is true. -/
theorem count_misses_top_member (H : FlagsHelper) (hH : EnumFlag H = true) (f : Flags) :
    f.count H = ((List.range H.Max_u_v).filter (fun e => f.test H e)).length ∧
    f.active H = f.count H + (if f.test H H.Max_u_v = true then 1 else 0) ∧
    (Flags.ofList H [H.Max_u_v]).test H H.Max_u_v = true ∧
    (Flags.ofList H [H.Max_u_v]).count H = 0 ∧
    (Flags.ofList H [H.Max_u_v]).active H = 1 := by
  obtain ⟨hc0, hcd⟩ := EnumFlag_count H hH
  have hmax := Max_u_v_succ H hH
  have hmd : H.Max_u_v < H.digits := by omega
  have hact : ∀ g : Flags, g.active H =
      g.count H + (if g.test H H.Max_u_v = true then 1 else 0) := by
    intro g
    unfold Flags.active
    rw [count_eq_tests, ← hmax, List.range_succ, List.filter_append, List.length_append]
    congr 1
    by_cases ht : g.test H H.Max_u_v = true
    · simp [ht]
    · simp [ht]
  have hsingle := ofList_single H H.Max_u_v hmd
  have htest : (Flags.ofList H [H.Max_u_v]).test H H.Max_u_v = true := by
    rw [test_eq_testBit H _ _ hmd, hsingle]
    simp [Nat.testBit_two_pow]
  have hcount : (Flags.ofList H [H.Max_u_v]).count H = 0 := by
    rw [count_eq_tests, List.length_eq_zero, List.filter_eq_nil_iff]
    intro e he
    have he' : e < H.Max_u_v := List.mem_range.mp he
    rw [test_eq_testBit H _ e (by omega), hsingle]
    simp only [Nat.testBit_two_pow, Bool.not_eq_true, decide_eq_false_iff_not]
    omega
  refine ⟨count_eq_tests H f, hact f, htest, hcount, ?_⟩
  rw [hact, hcount, htest]
  rfl

/-- C23 (witness): `TestEnum` of the unit test with only `Bit5VeryLongName`
set: one flag is active and `count()` is 0. -/
theorem count_misses_top_member_witness :
    (Flags.ofList exTestEnum [4]).test exTestEnum 4 = true ∧
    (Flags.ofList exTestEnum [4]).count exTestEnum = 0 ∧
    (Flags.ofList exTestEnum [4]).active exTestEnum = 1 :=
  (count_misses_top_member exTestEnum (by decide) ⟨0⟩).2.2

end EnumFlags

namespace CTFReader

/-! ## The query window, the rebuild of the selector, the ID list, the header repair -/

/-- C24: for a 32-bit first orbit `f` and a frame length `L >= 1` (an `int`),
the query window that `processTF` passes to the frame selector runs from
(bunch 0, orbit `f`) to (bunch `LHCMaxBunches - 1`, orbit
`min(f + L - 1, 2^32 - 1)`): the end orbit does not wrap around, is never
smaller than `f`, and is `f + L - 1` whenever that fits in 32 bits. -/
theorem queryWindow_end_orbit (env : Env) (L : Int) (f : Nat)
    (hf : f < 2 ^ 32) (hL : 1 ≤ L) (hL2 : L < 2 ^ 31) :
    queryWindow env L f =
      { min := { bc := 0, orbit := f },
        max := { bc := env.LHCMaxBunches - 1,
                 orbit := min (f + (L - 1).toNat) (2 ^ 32 - 1) } } ∧
    f ≤ (queryWindow env L f).max.orbit ∧
    (queryWindow env L f).max.orbit < 2 ^ 32 ∧
    (f + (L - 1).toNat < 2 ^ 32 → (queryWindow env L f).max.orbit = f + (L - 1).toNat) := by
  obtain ⟨k, hk⟩ : ∃ k : Nat, L - 1 = (k : Int) := ⟨(L - 1).toNat, by omega⟩
  have hk2 : k < 2 ^ 31 := by omega
  have hlen : ((L - 1) % 2 ^ 32).toNat = k := by
    rw [hk]
    have : ((k : Int) % 2 ^ 32) = (k : Int) := Int.emod_eq_of_lt (by omega) (by omega)
    rw [this]
    simp
  have hkk : (L - 1).toNat = k := by rw [hk]; simp
  have hw : queryWindow env L f =
      { min := { bc := 0, orbit := f },
        max := { bc := env.LHCMaxBunches - 1,
                 orbit := min (f + (L - 1).toNat) (2 ^ 32 - 1) } } := by
    unfold queryWindow
    simp only [hlen, hkk]
    have hlim : (0xffffffff + 2 ^ 32 - k) % 2 ^ 32 = 0xffffffff - k := by omega
    rw [hlim]
    by_cases hc : f < 0xffffffff - k
    · have h1 : (f + k) % 2 ^ 32 = f + k := Nat.mod_eq_of_lt (by omega)
      have h2 : min (f + k) (2 ^ 32 - 1) = f + k := Nat.min_eq_left (by omega)
      simp only [hc, if_true, h1, h2]
    · have h2 : min (f + k) (2 ^ 32 - 1) = 0xffffffff := by
        rw [Nat.min_eq_right (by omega)]
        rfl
      simp only [hc, if_false, h2]
  rw [hw]
  refine ⟨rfl, ?_, ?_, ?_⟩
  · show f ≤ min (f + (L - 1).toNat) (2 ^ 32 - 1)
    rw [hkk]
    omega
  · show min (f + (L - 1).toNat) (2 ^ 32 - 1) < 2 ^ 32
    omega
  · intro h
    show min (f + (L - 1).toNat) (2 ^ 32 - 1) = f + (L - 1).toNat
    omega

/-- C24 (witness): first orbit `2^32 - 100`, frame length 128: the window
ends at orbit `2^32 - 1`. -/
theorem queryWindow_end_orbit_witness :
    queryWindow exEnv 128 4294967196 =
      { min := { bc := 0, orbit := 4294967196 },
        max := { bc := exEnv.LHCMaxBunches - 1,
                 orbit := min (4294967196 + ((128 : Int) - 1).toNat) (2 ^ 32 - 1) } } :=
  (queryWindow_end_orbit exEnv 128 4294967196 (by decide) (by decide) (by decide)).1

/-- C26: a read of `ctfIDs[mSelIDEntry]` past the end of the ID list is
reachable.  With the ID list `[2]`, a frame selector holding the window of
orbits 0 to 40 and a container of four entries open, `run` skips the entries
0 and 1, finds the ID 2, raises `mSelIDEntry` to 1, has the entry rejected by
the selector (its orbits 64 to 191 miss the window), skips it, and in the
next pass reads `ctfIDs[1]` of a list of size 1, with the raw counter and
the entry cursor at 3. -/
theorem id_list_read_past_end :
    exCfgLastID.ctfIDs.length = 1 ∧
    (run exCfgLastID exEnv exWithSelector).thrown = some (.idIndexOutOfRange, 1, 3, 3) := by
  constructor
  · rfl
  · decide

/-- C27: `tryToFixCTFHeader` does not clamp the offset to 0 for an entry
whose first orbit is below the first orbit `o0` of its run in the table.  The
orbit difference is taken in 32-bit unsigned arithmetic: for
`firstTForbit >= o0` the creation time is `t0` plus the positive part of the
elapsed time of `firstTForbit - o0` (exactly `t0` when the two are equal and
the elapsed time of 0 orbits is 0), but for `firstTForbit < o0` the
difference wraps to `2^32 - (o0 - firstTForbit)` and the creation time is
`t0` plus the elapsed time of that many orbits, which is later than `t0` as
soon as that time is positive. -/
theorem header_fix_wraps_below_first_orbit (env : Env) (h : CTFHeader) (row : RunStartData)
    (hrow : row ∈ tf0Data) (hrun : row.run = h.run) (hf : h.firstTForbit < 2 ^ 32) :
    (row.firstTForbit ≤ h.firstTForbit →
      (tryToFixCTFHeader env h).creationTime = row.tstampMS0 +
        (max 0 (env.ceilOrbitsToMS (h.firstTForbit - row.firstTForbit))).toNat) ∧
    (h.firstTForbit < row.firstTForbit →
      (tryToFixCTFHeader env h).creationTime = row.tstampMS0 +
        (max 0 (env.ceilOrbitsToMS
          (2 ^ 32 - (row.firstTForbit - h.firstTForbit)))).toNat) ∧
    (h.firstTForbit < row.firstTForbit →
      0 < env.ceilOrbitsToMS (2 ^ 32 - (row.firstTForbit - h.firstTForbit)) →
      row.tstampMS0 < (tryToFixCTFHeader env h).creationTime) := by
  have ho := tf0Data_orbits row hrow
  have heq := tryToFixCTFHeader_row env h row hrow hrun
  have hclamp : ∀ x : Int, (if x > 0 then x.toNat else 0) = (max 0 x).toNat := by
    intro x
    by_cases hx : x > 0
    · rw [if_pos hx, max_eq_right (le_of_lt hx)]
    · rw [if_neg hx, max_eq_left (not_lt.mp hx)]
      rfl
  have hct : (tryToFixCTFHeader env h).creationTime = row.tstampMS0 +
      (max 0 (env.ceilOrbitsToMS
        ((h.firstTForbit + 2 ^ 32 - row.firstTForbit % 2 ^ 32) % 2 ^ 32))).toNat := by
    rw [heq, ← hclamp]
  have hge : row.firstTForbit ≤ h.firstTForbit →
      (h.firstTForbit + 2 ^ 32 - row.firstTForbit % 2 ^ 32) % 2 ^ 32 =
        h.firstTForbit - row.firstTForbit := by
    intro hle
    omega
  have hlt : h.firstTForbit < row.firstTForbit →
      (h.firstTForbit + 2 ^ 32 - row.firstTForbit % 2 ^ 32) % 2 ^ 32 =
        2 ^ 32 - (row.firstTForbit - h.firstTForbit) := by
    intro hl
    omega
  refine ⟨?_, ?_, ?_⟩
  · intro hle
    rw [hct, hge hle]
  · intro hl
    rw [hct, hlt hl]
  · intro hl hpos
    rw [hct, hlt hl, max_eq_right (le_of_lt hpos)]
    have : 0 < (env.ceilOrbitsToMS (2 ^ 32 - (row.firstTForbit - h.firstTForbit))).toNat := by
      omega
    omega

/-- C27 (witness): run 505207 (first orbit 133875 in the table) and an entry
with first orbit 133874: the creation time is not the table's timestamp
1635322620830 but that of `2^32 - 1` orbits later. -/
theorem header_fix_wraps_below_first_orbit_witness :
    (tryToFixCTFHeader exEnv
      { run := 505207, creationTime := 0, firstTForbit := 133874, tfCounter := 0,
        detectors := [] }).creationTime =
      1635322620830 + (max 0 (exEnv.ceilOrbitsToMS (2 ^ 32 - (133875 - 133874)))).toNat ∧
    1635322620830 < (tryToFixCTFHeader exEnv
      { run := 505207, creationTime := 0, firstTForbit := 133874, tfCounter := 0,
        detectors := [] }).creationTime :=
  ⟨(header_fix_wraps_below_first_orbit exEnv
      { run := 505207, creationTime := 0, firstTForbit := 133874, tfCounter := 0,
        detectors := [] } ⟨505207, 133875, 1635322620830⟩ (by decide) rfl (by decide)).2.1
      (by decide),
   (header_fix_wraps_below_first_orbit exEnv
      { run := 505207, creationTime := 0, firstTForbit := 133874, tfCounter := 0,
        detectors := [] } ⟨505207, 133875, 1635322620830⟩ (by decide) rfl (by decide)).2.2
      (by decide) (by decide)⟩

end CTFReader

/-! ## The configuration registry, the OpenCL device, the readout frame of a cluster -/

namespace ConfigParamRegistry

/-- C28: `ConfigParamRegistry::isDefault(key)` is not true when the recorded
provenance is `default`: it is true exactly when the key is present in the
store and the provenance recorded for it differs from `default`.  It is
false for a present key of provenance `default`, true for a present key set
from any other source, and false for an absent key. -/
theorem isDefault_is_inverted (mStore : ConfigParamStore) (key : List Char) :
    (isDefault mStore key = true ↔
      0 < mStore.count key ∧ mStore.provenance key ≠ "default".toList) ∧
    (0 < mStore.count key → mStore.provenance key = "default".toList →
      isDefault mStore key = false) ∧
    (0 < mStore.count key → mStore.provenance key ≠ "default".toList →
      isDefault mStore key = true) ∧
    (mStore.count key = 0 → isDefault mStore key = false) := by
  unfold isDefault
  refine ⟨?_, ?_, ?_, ?_⟩
  · simp
  · intro h1 h2
    simp [h2]
  · intro h1 h2
    have h3 : (mStore.provenance key != "default".toList) = true := by simpa using h2
    rw [h3]
    simp [h1]
  · intro h1
    simp [h1]

/-- C28 (witness): in `exStore` the key `a`, present with provenance
`default`, is not reported as default, and the key `b`, set from `fairmq`,
is. -/
theorem isDefault_is_inverted_witness :
    isDefault exStore "a".toList = false ∧ isDefault exStore "b".toList = true :=
  ⟨(isDefault_is_inverted exStore "a".toList).2.1 (by decide) (by decide),
   (isDefault_is_inverted exStore "b".toList).2.2.1 (by decide) (by decide)⟩

end ConfigParamRegistry

namespace GPUReconstructionOCL

/-- C29: with no device number forced, `InitDevice_Runtime` does not select
an eligible device of maximal speed: it selects the last eligible device of
the list, whatever the speed values are (the best speed so far is reset to
`-1` in every pass of the loop); it quits when no device is eligible. -/
theorem selects_last_eligible_device (gpuDeviceOnly : Bool) (deviceNum : Int)
    (devices : List Device) (hnum : deviceNum ≤ -1) (hlen : devices.length < 2 ^ 32) :
    (∀ j, lastEligible gpuDeviceOnly devices 0 = some j →
      selectDevice gpuDeviceOnly deviceNum devices = .ok j ∧
      (∃ d, devices[j]? = some d ∧ deviceOK gpuDeviceOnly d = true) ∧
      ∀ k d, j < k → devices[k]? = some d → deviceOK gpuDeviceOnly d = false) ∧
    (lastEligible gpuDeviceOnly devices 0 = none →
      selectDevice gpuDeviceOnly deviceNum devices = .error .noDevice ∧
      ∀ d ∈ devices, deviceOK gpuDeviceOnly d = false) := by
  have hn : ¬ deviceNum > -1 := by omega
  constructor
  · intro j hj
    obtain ⟨-, h2, h3, h4⟩ := lastEligible_spec gpuDeviceOnly devices 0 j hj
    refine ⟨?_, by simpa using h3, by simpa using h4⟩
    unfold selectDevice
    have hne : (j == 2 ^ 32 - 1) = false := by
      have : j ≠ 2 ^ 32 - 1 := by omega
      exact beq_false_of_ne this
    simp only [scanDevices_eq, hj, Option.getD_some, hn, if_false, hne, Bool.false_eq_true]
  · intro hnone
    refine ⟨?_, lastEligible_none gpuDeviceOnly devices 0 hnone⟩
    unfold selectDevice
    simp [scanDevices_eq, hnone]

/-- C29 (witness): a fast eligible device followed by a slow eligible one:
the slow one, of speed 10000 against 200000, is selected. -/
theorem selects_last_eligible_device_witness :
    selectDevice true (-1) exDevices = .ok 1 ∧
    (exDevices.map deviceSpeed = [200000, 10000]) ∧
    (exDevices.map (deviceOK true) = [true, true]) :=
  ⟨((selects_last_eligible_device true (-1) exDevices (by decide) (by decide)).1 1
      (by decide)).1,
   by decide, by decide⟩

end GPUReconstructionOCL

namespace TimeFrame

/-- C30: for a layer whose table `off` of readout-frame offsets is
non-decreasing with `off[0] = 0`, and a cluster index `i` with
`0 <= i < ` the last element of `off`, `getClusterROF(layer, i)` is the
readout frame `r` with `off[r] <= i < off[r + 1]`, and it is the only one,
also when some readout frames are empty. -/
theorem getClusterROF_frame (mROFramesClusters : List (List Int)) (iLayer : Nat)
    (off : List Int) (i : Int)
    (hoff : mROFramesClusters[iLayer]? = some off)
    (hs : ∀ a b, a ≤ b → b < off.length → off.getD a 0 ≤ off.getD b 0)
    (h0 : off.getD 0 0 = 0) (hne : off ≠ [])
    (hi0 : 0 ≤ i) (hi1 : i < off.getD (off.length - 1) 0) :
    ∃ r : Nat, getClusterROF mROFramesClusters iLayer i = (r : Int) ∧ r + 1 < off.length ∧
      off.getD r 0 ≤ i ∧ i < off.getD (r + 1) 0 ∧
      ∀ r2 : Nat, r2 + 1 < off.length → off.getD r2 0 ≤ i → i < off.getD (r2 + 1) 0 →
        r2 = r := by
  have hlen : 0 < off.length := List.length_pos.mpr hne
  obtain ⟨p1, p2, p3, p4⟩ := lower_bound_spec off (i + 1) hs off.length 0 off.length
    (le_refl _) (by omega) (fun j hj => by omega) (fun j hj hjl => by omega)
  have hget : getClusterROF mROFramesClusters iLayer i =
      ((lower_bound off (i + 1) off.length 0 off.length : Nat) : Int) - 0 - 1 := by
    unfold getClusterROF
    have : mROFramesClusters.getD iLayer [] = off := by
      rw [List.getD_eq_getElem?_getD, hoff]
      rfl
    simp only [this]
  generalize lower_bound off (i + 1) off.length 0 off.length = p at p1 p2 p3 p4 hget
  have hp0 : 0 < p := by
    by_contra hp
    have hp' : p = 0 := by omega
    have := p4 0 (by omega) hlen
    rw [h0] at this
    omega
  have hpn : p < off.length := by
    by_contra hp
    have := p3 (off.length - 1) (by omega)
    omega
  refine ⟨p - 1, ?_, by omega, ?_, ?_, ?_⟩
  · rw [hget]
    omega
  · have := p3 (p - 1) (by omega)
    omega
  · have := p4 p (le_refl _) hpn
    have hpp : p - 1 + 1 = p := by omega
    rw [hpp]
    omega
  · intro r2 hr2 hle hlt
    have h1 : r2 < p := by
      by_contra hc
      have := p4 r2 (by omega) (by omega)
      omega
    have h2 : p ≤ r2 + 1 := by
      by_contra hc
      have := p3 (r2 + 1) (by omega)
      omega
    omega

/-- C30 (witness): the table `[0, 0, 3, 3, 5]`, with the readout frames 0 and
2 empty: cluster 3 is in readout frame 3. -/
theorem getClusterROF_frame_witness :
    ∃ r : Nat, getClusterROF [[0, 0, 3, 3, 5]] 0 3 = (r : Int) ∧ r + 1 < [0, 0, 3, 3, (5 : Int)].length ∧
      [0, 0, 3, 3, (5 : Int)].getD r 0 ≤ 3 ∧ 3 < [0, 0, 3, 3, (5 : Int)].getD (r + 1) 0 ∧
      ∀ r2 : Nat, r2 + 1 < [0, 0, 3, 3, (5 : Int)].length →
        [0, 0, 3, 3, (5 : Int)].getD r2 0 ≤ 3 → 3 < [0, 0, 3, 3, (5 : Int)].getD (r2 + 1) 0 →
        r2 = r :=
  getClusterROF_frame [[0, 0, 3, 3, 5]] 0 [0, 0, 3, 3, 5] 3 rfl
    (by
      intro a b hab hb
      have hb' : b < 5 := hb
      interval_cases b <;> interval_cases a <;> decide)
    rfl (by simp) (by decide) (by decide)

end TimeFrame
